import Mathlib

/-!
# p-anionic Clar structures of fullerenes: the integer program and its enumeration loop

A shallow embedding of `src/src/lp.cpp`.

* The Gurobi model is a record of declared variables, linear constraints, the
  objective sense, and the status / variable values left by the last `optimize`.
* `GRBVar` handles are named after the vector that stores them: `fvars[i]` is
  `GRBVar.f i`, `evars[i]` is `GRBVar.e i`.
* Variable values (`double` in the source) are rationals; the tolerance test
  `> 0.99` is the rational comparison with `99/100`.
* The solver itself is a parameter (`Oracle`): a function from the current model to
  a status code and variable values.
* `int` quantities (counts, indices, `p`, `opt_val`) are mathematical integers: all
  of them are bounded by the sizes of the graph.  The one unsigned expression of
  the source, `res_faces.size() + match_edges.size() - 1`, is computed modulo `2^64`
  and then converted to `double`, as the comparison `cons <= ...` does.
* Calls of interest are appended to a call trace carried next to the model.
-/

namespace ClarLP

/-! ## Data model -/

/-- Gurobi status code `GRB_LOADED`. -/
def GRB_LOADED : Int := 1
/-- Gurobi status code `GRB_OPTIMAL`. -/
def GRB_OPTIMAL : Int := 2
/-- Gurobi status code `GRB_INFEASIBLE`. -/
def GRB_INFEASIBLE : Int := 3

/-- A primal vertex: `F.primal[i].edges[j]` and `F.primal[i].faces[j]`, `j < 3`. -/
structure Vertex where
  edges : Fin 3 → Nat
  faces : Fin 3 → Nat

/-- A dual vertex (a face of the fullerene): only `F.dual[i].size` is used. -/
structure Face where
  size : Nat

/-- The graph view `Fullerene` consumed by `lp.cpp`. -/
structure Fullerene where
  n : Nat
  dual_n : Nat
  num_edges : Nat
  primal : Nat → Vertex
  dual : Nat → Face
  id : Nat

/-- Variable handles: `f i` is the handle stored in `fvars[i]`, `e i` in `evars[i]`. -/
inductive GRBVar where
  | f (i : Nat)
  | e (i : Nat)
  deriving DecidableEq, Repr

/-- One `model.addVar(lb, ub, obj, type)` declaration. -/
structure VarDecl where
  var : GRBVar
  lb : Rat
  ub : Rat
  obj : Rat
  binary : Bool

/-- Relation of a linear constraint: `==` or `<=`. -/
inductive Sense where
  | eq
  | le
  deriving DecidableEq, Repr

/-- A linear constraint `Σ lhs (sense) rhs`; `lhs` is a `GRBLinExpr` built by
repeated `+=` of variables, i.e. a list of variables with coefficient one. -/
structure GRBConstr where
  lhs : List GRBVar
  sense : Sense
  rhs : Rat

/-- The solver model: declarations, constraints, objective sense, and the status
and variable values of the last solve. -/
structure GRBModel where
  vars : List VarDecl
  constrs : List GRBConstr
  maximize : Bool
  status : Int
  X : GRBVar → Rat

/-- The error raised through `throw_error(n, p, id, msg)`, and the
`std::length_error` raised by constructing a vector of negative size. -/
inductive Exn where
  | runtime_error (n : Nat) (p : Int) (id : Nat) (msg : String)
  | length_error

/-- Modelled from the spec: `throw_error` is declared in `include.h`, which is not
part of the sources; the diagnostics channel carries `(vertex_count, p,
graph_identity, message)` and the error is fatal. -/
def throw_error (n : Nat) (p : Int) (id : Nat) (msg : String) : Exn :=
  Exn.runtime_error n p id msg

/-- How a call ends: it returns, it throws, or it has undefined behaviour
(a write past the end of a vector). -/
inductive Outcome (α : Type) where
  | ok (a : α)
  | thrown (e : Exn)
  | undefined

/-- Calls recorded in the trace. -/
inductive Event where
  | optimize (m : GRBModel)
  | check_if_sol_valid
  | save_sol (p : Int) (num_res_faces : Int) (X : GRBVar → Rat)
  | solve_all_structs
  | cut (c : GRBConstr)
  | add_Clar_num_cons (c : GRBConstr)

/-- The model together with the call trace. -/
structure State where
  model : GRBModel
  trace : List Event

/-- Append one event to the trace. -/
def State.log (s : State) (ev : Event) : State :=
  { s with trace := s.trace ++ [ev] }

/-- The solver oracle: status and variable values for a model. -/
abbrev Oracle := GRBModel → Int × (GRBVar → Rat)

/-! ## Semantics of constraints -/

/-- Value of a linear expression under an assignment. -/
def GRBConstr.value (c : GRBConstr) (X : GRBVar → Rat) : Rat :=
  (c.lhs.map X).sum

/-- The assignment satisfies the constraint. -/
def GRBConstr.holds (c : GRBConstr) (X : GRBVar → Rat) : Prop :=
  match c.sense with
  | Sense.eq => c.value X = c.rhs
  | Sense.le => c.value X ≤ c.rhs

instance (c : GRBConstr) (X : GRBVar → Rat) : Decidable (c.holds X) := by
  unfold GRBConstr.holds
  cases c.sense <;> infer_instance

/-- Objective value: `Σ obj * x` over the declared variables. -/
def GRBModel.objective (m : GRBModel) (X : GRBVar → Rat) : Rat :=
  (m.vars.map (fun d => d.obj * X d.var)).sum

/-- A 0/1 assignment.  Values are given to every handle; the handles that are not
variables of a model are never read when the graph has valid indices. -/
def Binary (X : GRBVar → Rat) : Prop := ∀ v, X v = 0 ∨ X v = 1

/-- A 0/1 assignment satisfying every constraint currently in the model. -/
def GRBModel.feasible (m : GRBModel) (X : GRBVar → Rat) : Prop :=
  Binary X ∧ ∀ c ∈ m.constrs, c.holds X

/-- The oracle contract: on a maximisation model, `optimize` reports OPTIMAL with
a feasible 0/1 assignment of maximum objective whenever a feasible 0/1 assignment
exists, and INFEASIBLE otherwise. -/
def OracleContract (O : Oracle) : Prop :=
  ∀ m : GRBModel, m.maximize = true →
    ((∃ X, m.feasible X) →
      (O m).1 = GRB_OPTIMAL ∧ m.feasible (O m).2 ∧
        ∀ Y, m.feasible Y → m.objective Y ≤ m.objective (O m).2) ∧
    ((¬ ∃ X, m.feasible X) → (O m).1 = GRB_INFEASIBLE)

/-! ## Model builder -/

/-- The call `model.addVar(lb, ub, obj, type)`, the handle being `v`. -/
def GRBModel.addVar (m : GRBModel) (v : GRBVar) (lb ub obj : Rat) (binary : Bool) : GRBModel :=
  { m with vars := m.vars ++ [{ var := v, lb := lb, ub := ub, obj := obj, binary := binary }] }

/-- The call `model.addConstr(c)`. -/
def GRBModel.addConstr (m : GRBModel) (c : GRBConstr) : GRBModel :=
  { m with constrs := m.constrs ++ [c] }

/-- The call `model.reset()`: the solution is discarded, variables and constraints stay. -/
def GRBModel.reset (m : GRBModel) : GRBModel :=
  { m with status := GRB_LOADED, X := fun _ => 0 }

/-- `add_vars`: one binary variable per face (objective 1) and per edge (objective 0). -/
def add_vars (F : Fullerene) (model : GRBModel) : GRBModel :=
  let m1 := (List.range F.dual_n).foldl
    (fun m f => m.addVar (GRBVar.f f) 0 1 1 true) model
  (List.range F.num_edges).foldl
    (fun m i => m.addVar (GRBVar.e i) 0 1 0 true) m1

/-- The expression `cons1` of `add_cons` for vertex `i`. -/
def cons1 (F : Fullerene) (i : Nat) : List GRBVar :=
  (List.finRange 3).foldl
    (fun acc j => acc ++ [GRBVar.e ((F.primal i).edges j), GRBVar.f ((F.primal i).faces j)]) []

/-- The expression `cons2` of `add_cons`: the variables of the faces of size 5. -/
def cons2 (F : Fullerene) : List GRBVar :=
  (List.range F.dual_n).foldl
    (fun acc f => if (F.dual f).size = 5 then acc ++ [GRBVar.f f] else acc) []

/-- `add_cons`: exact cover of every vertex, and exactly `p` resonant pentagons. -/
def add_cons (F : Fullerene) (p : Int) (model : GRBModel) : GRBModel :=
  let m1 := (List.range F.n).foldl
    (fun m i => m.addConstr { lhs := cons1 F i, sense := Sense.eq, rhs := 1 }) model
  m1.addConstr { lhs := cons2 F, sense := Sense.eq, rhs := (p : Rat) }

/-! ## Solution validator -/

/-- The counter `covered` of `check_if_sol_valid` for vertex `i`. -/
def covered (F : Fullerene) (X : GRBVar → Rat) (i : Nat) : Nat :=
  (List.finRange 3).foldl
    (fun c j =>
      let c1 := if X (GRBVar.e ((F.primal i).edges j)) > 99 / 100 then c + 1 else c
      if X (GRBVar.f ((F.primal i).faces j)) > 99 / 100 then c1 + 1 else c1) 0

/-- The pair `(num_res_faces, res_pents)` after the second loop of `check_if_sol_valid`. -/
def count_faces (F : Fullerene) (X : GRBVar → Rat) : Nat × Nat :=
  (List.range F.dual_n).foldl
    (fun (acc : Nat × Nat) i =>
      if X (GRBVar.f i) > 99 / 100 then
        (acc.1 + 1, if (F.dual i).size = 5 then acc.2 + 1 else acc.2)
      else acc) (0, 0)

/-- `check_if_sol_valid`: throws at the first vertex not covered exactly once, then
on a wrong number of resonant pentagons; otherwise returns the number of resonant faces. -/
def check_if_sol_valid (F : Fullerene) (p : Int) (X : GRBVar → Rat) : Except Exn Int :=
  match (List.range F.n).find? (fun i => decide (covered F X i ≠ 1)) with
  | some i =>
    Except.error (throw_error F.n p F.id
      ("\nVertex " ++ toString i ++ " is covered " ++ toString (covered F X i) ++ " times."))
  | none =>
    let r := count_faces F X
    if ((r.2 : Int) ≠ p) then
      Except.error (throw_error F.n p F.id
        ("\nIncorrect # of res. pents: " ++ toString r.2))
    else Except.ok (r.1 : Int)

/-! ## Enumeration controller -/

/-- The call `model.optimize()`; the trace records the model that is solved. -/
def optimize (O : Oracle) (s : State) : State :=
  { model := { s.model with status := (O s.model).1, X := (O s.model).2 },
    trace := s.trace ++ [Event.optimize s.model] }

/-- The message of the status error. -/
def status_msg (optimstatus : Int) : String :=
  "\nStatus of solve: " ++ toString optimstatus ++ "\nCheck Gurobi Optimization Status Codes"

/-- `assess_solve`: the first solve. -/
def assess_solve (F : Fullerene) (p : Int) (s : State) : Outcome Int × State :=
  let optimstatus := s.model.status
  if optimstatus = GRB_OPTIMAL then
    let s1 := s.log Event.check_if_sol_valid
    match check_if_sol_valid F p s.model.X with
    | Except.error e => (Outcome.thrown e, s1)
    | Except.ok num_res_faces =>
      (Outcome.ok num_res_faces, s1.log (Event.save_sol p num_res_faces s.model.X))
  else if optimstatus = GRB_INFEASIBLE then
    (Outcome.ok 0, s.log (Event.save_sol p 0 s.model.X))
  else
    (Outcome.thrown (throw_error F.n p F.id (status_msg optimstatus)), s)

/-- `assess_rec_solve`: a re-solve inside the enumeration loop. -/
def assess_rec_solve (F : Fullerene) (p : Int) (s : State) (opt_val : Int) :
    Outcome Int × State :=
  let optimstatus := s.model.status
  if optimstatus = GRB_OPTIMAL then
    let s1 := s.log Event.check_if_sol_valid
    match check_if_sol_valid F p s.model.X with
    | Except.error e => (Outcome.thrown e, s1)
    | Except.ok num_res_faces =>
      if num_res_faces = opt_val then
        (Outcome.ok num_res_faces, s1.log (Event.save_sol p num_res_faces s.model.X))
      else (Outcome.ok num_res_faces, s1)
  else if optimstatus = GRB_INFEASIBLE then
    (Outcome.ok 0, s)
  else
    (Outcome.thrown (throw_error F.n p F.id (status_msg optimstatus)), s)

/-- The recording loops of `exlude_previous_sol`: `vec[vec_index++] = i` for every
index `i < bound` whose variable exceeds the tolerance.  `none` is a write past the
end of `vec`. -/
def record_sol (val : Nat → Rat) (bound : Nat) (vec : List Nat) : Option (List Nat × Nat) :=
  (List.range bound).foldl
    (fun (st : Option (List Nat × Nat)) i =>
      match st with
      | none => none
      | some (v, vec_index) =>
        if val i > 99 / 100 then
          (if vec_index < v.length then some (v.set vec_index i, vec_index + 1) else none)
        else some (v, vec_index))
    (some (vec, 0))

/-- The right-hand side `res_faces.size() + match_edges.size() - 1`, an unsigned
64-bit expression. -/
def cut_rhs (size_f size_e : Nat) : Nat :=
  (size_f + size_e + (2 ^ 64 - 1)) % 2 ^ 64

/-- The `double` an unsigned 64-bit value converts to (round to nearest, ties to even):
`cons <= res_faces.size() + match_edges.size() - 1` hands the right-hand side to Gurobi
as a `double`.  The result is an integer; values below `2^53` are exact, and `2^64 - 1`
becomes `2^64`. -/
def size_to_double (n : Nat) : Nat :=
  match [0, 1, 2, 3, 4, 5, 6, 7, 8, 9, 10, 11].find? (fun e => decide (n < 2 ^ (53 + e))) with
  | some e =>
    let q := n / 2 ^ e
    let r := n % 2 ^ e
    (if 2 * r > 2 ^ e ∨ (2 * r = 2 ^ e ∧ q % 2 = 1) then q + 1 else q) * 2 ^ e
  | none => n

/-- `exlude_previous_sol`: record the current solution in the (by-value) vectors
`res_faces`, `match_edges`, reset the model and add the no-good cut. -/
def exlude_previous_sol (F : Fullerene) (s : State) (res_faces match_edges : List Nat) :
    Outcome Unit × State :=
  match record_sol (fun i => s.model.X (GRBVar.f i)) F.dual_n res_faces with
  | none => (Outcome.undefined, s)
  | some (res_faces1, _) =>
    match record_sol (fun i => s.model.X (GRBVar.e i)) F.num_edges match_edges with
    | none => (Outcome.undefined, s)
    | some (match_edges1, _) =>
      let cons : GRBConstr :=
        { lhs := res_faces1.map GRBVar.f ++ match_edges1.map GRBVar.e,
          sense := Sense.le,
          rhs := (size_to_double (cut_rhs res_faces1.length match_edges1.length) : Rat) }
      (Outcome.ok (),
        { model := (s.model.reset).addConstr cons, trace := s.trace ++ [Event.cut cons] })

/-- `add_Clar_num_cons`: pin the number of resonant faces to `opt_val`. -/
def add_Clar_num_cons (F : Fullerene) (opt_val : Int) (s : State) : State :=
  let cons : GRBConstr :=
    { lhs := (List.range F.dual_n).foldl (fun acc f => acc ++ [GRBVar.f f]) [],
      sense := Sense.eq, rhs := (opt_val : Rat) }
  { model := s.model.addConstr cons, trace := s.trace ++ [Event.add_Clar_num_cons cons] }

/-- The `while (cur_val == opt_val)` loop of `solve_all_structs`; `fuel` bounds the
number of iterations and `none` means the bound was reached. -/
def solve_loop (O : Oracle) (F : Fullerene) (p : Int) (opt_val : Int)
    (res_f match_e : List Nat) : Nat → State → Option (Outcome Unit × State)
  | 0, _ => none
  | fuel + 1, s =>
    let s1 := optimize O s
    match assess_rec_solve F p s1 opt_val with
    | (Outcome.ok cur_val, s2) =>
      if cur_val = opt_val then
        match exlude_previous_sol F s2 res_f match_e with
        | (Outcome.ok (), s3) => solve_loop O F p opt_val res_f match_e fuel s3
        | (Outcome.thrown e, s3) => some (Outcome.thrown e, s3)
        | (Outcome.undefined, s3) => some (Outcome.undefined, s3)
      else some (Outcome.ok (), s2)
    | (Outcome.thrown e, s2) => some (Outcome.thrown e, s2)
    | (Outcome.undefined, s2) => some (Outcome.undefined, s2)

/-- The pre-sizing value `num_match_e = (F.n-5*p-6*(opt_val-p))/2` (C++ integer division). -/
def num_match_e (F : Fullerene) (p opt_val : Int) : Int :=
  Int.tdiv ((F.n : Int) - 5 * p - 6 * (opt_val - p)) 2

/-- `solve_all_structs`: exclude the first solution, pin the optimum, enumerate. -/
def solve_all_structs (O : Oracle) (F : Fullerene) (p : Int) (s : State) (opt_val : Int)
    (fuel : Nat) : Option (Outcome Int × State) :=
  let s0 := s.log Event.solve_all_structs
  if opt_val < 0 ∨ num_match_e F p opt_val < 0 then
    some (Outcome.thrown Exn.length_error, s0)
  else
    let res_f := List.replicate opt_val.toNat 0
    let match_e := List.replicate (num_match_e F p opt_val).toNat 0
    match exlude_previous_sol F s0 res_f match_e with
    | (Outcome.ok (), s1) =>
      let s2 := add_Clar_num_cons F opt_val s1
      match solve_loop O F p opt_val res_f match_e fuel s2 with
      | none => none
      | some (Outcome.ok (), s3) => some (Outcome.ok opt_val, s3)
      | some (Outcome.thrown e, s3) => some (Outcome.thrown e, s3)
      | some (Outcome.undefined, s3) => some (Outcome.undefined, s3)
    | (Outcome.thrown e, s1) => some (Outcome.thrown e, s1)
    | (Outcome.undefined, s1) => some (Outcome.undefined, s1)

/-- The handlers of the `try` block of `p_anionic_clar_lp`: a `runtime_error` is
rethrown, anything else is reported through `throw_error`. -/
def handle (F : Fullerene) (p : Int) : Exn → Exn
  | Exn.runtime_error n q id msg => Exn.runtime_error n q id msg
  | Exn.length_error => throw_error F.n p F.id "\nUnknown error during optimization"

/-- The model right after `GRBModel(grb_env)` and `set(ModelSense, MAXIMIZE)`. -/
def new_model : GRBModel :=
  { vars := [], constrs := [], maximize := true, status := GRB_LOADED, X := fun _ => 0 }

/-- The model handed to the first `optimize`. -/
def initial_model (F : Fullerene) (p : Int) : GRBModel :=
  add_cons F p (add_vars F new_model)

/-- `p_anionic_clar_lp`: build the model, solve, assess, and enumerate when the
optimum is at least one. -/
def p_anionic_clar_lp (O : Oracle) (F : Fullerene) (p : Int) (fuel : Nat) :
    Option (Outcome Int × State) :=
  let s := optimize O { model := initial_model F p, trace := [] }
  match assess_solve F p s with
  | (Outcome.ok opt_val, s1) =>
    if opt_val < 1 then some (Outcome.ok 0, s1)
    else
      match solve_all_structs O F p s1 opt_val fuel with
      | none => none
      | some (Outcome.ok v, s2) => some (Outcome.ok v, s2)
      | some (Outcome.thrown e, s2) => some (Outcome.thrown (handle F p e), s2)
      | some (Outcome.undefined, s2) => some (Outcome.undefined, s2)
  | (Outcome.thrown e, s1) => some (Outcome.thrown (handle F p e), s1)
  | (Outcome.undefined, s1) => some (Outcome.undefined, s1)


/-! ## Vocabulary of the statements -/

/-- Indicator of the tolerance test `> 0.99`. -/
def ind (x : Rat) : Nat := if x > 99 / 100 then 1 else 0

/-- The faces whose variable exceeds the tolerance (the resonant faces). -/
def resFaces (F : Fullerene) (X : GRBVar → Rat) : List Nat :=
  (List.range F.dual_n).filter (fun i => decide (X (GRBVar.f i) > 99 / 100))

/-- The edges whose variable exceeds the tolerance (the matching edges). -/
def matchEdges (F : Fullerene) (X : GRBVar → Rat) : List Nat :=
  (List.range F.num_edges).filter (fun i => decide (X (GRBVar.e i) > 99 / 100))

/-- The resonant faces of size 5. -/
def resPents (F : Fullerene) (X : GRBVar → Rat) : List Nat :=
  (resFaces F X).filter (fun i => decide ((F.dual i).size = 5))

/-- The vertex constraint of `add_cons`. -/
def vertexConstr (F : Fullerene) (i : Nat) : GRBConstr :=
  { lhs := cons1 F i, sense := Sense.eq, rhs := 1 }

/-- The pentagon constraint of `add_cons`. -/
def pentConstr (F : Fullerene) (p : Int) : GRBConstr :=
  { lhs := cons2 F, sense := Sense.eq, rhs := (p : Rat) }

/-- All constraints created by `add_cons` hold. -/
def baseHolds (F : Fullerene) (p : Int) (X : GRBVar → Rat) : Prop :=
  ∀ c ∈ (initial_model F p).constrs, c.holds X

instance (F : Fullerene) (p : Int) (X : GRBVar → Rat) : Decidable (baseHolds F p X) := by
  unfold baseHolds
  infer_instance

/-- The 0/1 assignment with resonant faces `R` and matching edges `M`. -/
def indicator (R M : List Nat) : GRBVar → Rat
  | GRBVar.f i => if i ∈ R then 1 else 0
  | GRBVar.e i => if i ∈ M then 1 else 0

/-- The no-good cut of an assignment: the sum of its resonant-face and matching-edge
variables is at most their number minus one (as the source computes it). -/
def noGoodCut (F : Fullerene) (X : GRBVar → Rat) : GRBConstr :=
  { lhs := (resFaces F X).map GRBVar.f ++ (matchEdges F X).map GRBVar.e,
    sense := Sense.le,
    rhs := (size_to_double (cut_rhs (resFaces F X).length (matchEdges F X).length) : Rat) }

/-- Membership of a variable in the solution with resonant faces `R` and matching edges `M`. -/
def inSol (R M : List Nat) : GRBVar → Bool
  | GRBVar.f k => decide (k ∈ R)
  | GRBVar.e k => decide (k ∈ M)

/-- Two assignments give the same value to every face and edge variable of the graph. -/
def Agree (F : Fullerene) (A B : GRBVar → Rat) : Prop :=
  (∀ i, i < F.dual_n → A (GRBVar.f i) = B (GRBVar.f i)) ∧
  (∀ i, i < F.num_edges → A (GRBVar.e i) = B (GRBVar.e i))

/-- The variables of the graph that exceed the tolerance in `A` also do in `B`. -/
def Contains (F : Fullerene) (A B : GRBVar → Rat) : Prop :=
  (∀ k ∈ resFaces F A, B (GRBVar.f k) > 99 / 100) ∧
  (∀ k ∈ matchEdges F A, B (GRBVar.e k) > 99 / 100)

/-- The assignment that is zero everywhere. -/
def zeroX : GRBVar → Rat := fun _ => 0

/-- All 0/1 assignments of the face and edge variables, each given by its set of
resonant faces and its set of matching edges (as increasing lists of indices). -/
def candidates (F : Fullerene) : List (List Nat × List Nat) :=
  List.product (List.range F.dual_n).sublists (List.range F.num_edges).sublists

/-- The 0/1 assignments that satisfy the constraints of `add_cons` and have exactly
`k` resonant faces. -/
def optimalStructs (F : Fullerene) (p : Int) (k : Int) : List (List Nat × List Nat) :=
  (candidates F).filter
    (fun S => decide (baseHolds F p (indicator S.1 S.2) ∧ (S.1.length : Int) = k))

/-- Number of 0/1 assignments of the graph variables that satisfy every constraint of a model. -/
def feasCount (F : Fullerene) (m : GRBModel) : Nat :=
  ((candidates F).filter
    (fun S => decide (∀ c ∈ m.constrs, c.holds (indicator S.1 S.2)))).length

/-- The (resonant-face set, matching-edge set) pairs passed to `save_sol`, in order. -/
def savedPairs (F : Fullerene) : List Event → List (List Nat × List Nat)
  | [] => []
  | Event.save_sol _ _ X :: t => (resFaces F X, matchEdges F X) :: savedPairs F t
  | Event.optimize _ :: t => savedPairs F t
  | Event.check_if_sol_valid :: t => savedPairs F t
  | Event.solve_all_structs :: t => savedPairs F t
  | Event.cut _ :: t => savedPairs F t
  | Event.add_Clar_num_cons _ :: t => savedPairs F t

/-- The models passed to `optimize`, in order. -/
def optimizedModels : List Event → List GRBModel
  | [] => []
  | Event.optimize m :: t => m :: optimizedModels t
  | Event.save_sol _ _ _ :: t => optimizedModels t
  | Event.check_if_sol_valid :: t => optimizedModels t
  | Event.solve_all_structs :: t => optimizedModels t
  | Event.cut _ :: t => optimizedModels t
  | Event.add_Clar_num_cons _ :: t => optimizedModels t

/-- The cuts added by `exlude_previous_sol`, in order. -/
def cutsOf : List Event → List GRBConstr
  | [] => []
  | Event.cut c :: t => c :: cutsOf t
  | Event.optimize _ :: t => cutsOf t
  | Event.save_sol _ _ _ :: t => cutsOf t
  | Event.check_if_sol_valid :: t => cutsOf t
  | Event.solve_all_structs :: t => cutsOf t
  | Event.add_Clar_num_cons _ :: t => cutsOf t

/-- In the events that follow the recording of `X`: no `optimize` call comes before a
cut, and the first cut (if any) is violated by `X`. -/
def ExcludedNext (X : GRBVar → Rat) : List Event → Prop
  | [] => True
  | Event.optimize _ :: _ => False
  | Event.cut c :: _ => ¬ c.holds X
  | Event.save_sol _ _ _ :: t => ExcludedNext X t
  | Event.check_if_sol_valid :: t => ExcludedNext X t
  | Event.solve_all_structs :: t => ExcludedNext X t
  | Event.add_Clar_num_cons _ :: t => ExcludedNext X t

/-- Every recorded solution is excluded by a cut before the next `optimize` call. -/
def AllExcluded : List Event → Prop
  | [] => True
  | Event.save_sol _ _ X :: t => ExcludedNext X t ∧ AllExcluded t
  | Event.optimize _ :: t => AllExcluded t
  | Event.cut _ :: t => AllExcluded t
  | Event.check_if_sol_valid :: t => AllExcluded t
  | Event.solve_all_structs :: t => AllExcluded t
  | Event.add_Clar_num_cons _ :: t => AllExcluded t

/-- As `ExcludedNext`, and a cut does follow. -/
def ExcludedByCut (X : GRBVar → Rat) : List Event → Prop
  | [] => False
  | Event.optimize _ :: _ => False
  | Event.cut c :: _ => ¬ c.holds X
  | Event.save_sol _ _ _ :: t => ExcludedByCut X t
  | Event.check_if_sol_valid :: t => ExcludedByCut X t
  | Event.solve_all_structs :: t => ExcludedByCut X t
  | Event.add_Clar_num_cons _ :: t => ExcludedByCut X t

/-- Every recorded solution is followed by a cut that it violates, with no `optimize`
call in between. -/
def AllExcludedByCut : List Event → Prop
  | [] => True
  | Event.save_sol _ _ X :: t => ExcludedByCut X t ∧ AllExcludedByCut t
  | Event.optimize _ :: t => AllExcludedByCut t
  | Event.cut _ :: t => AllExcludedByCut t
  | Event.check_if_sol_valid :: t => AllExcludedByCut t
  | Event.solve_all_structs :: t => AllExcludedByCut t
  | Event.add_Clar_num_cons _ :: t => AllExcludedByCut t

/-- Every recorded solution satisfies all the cuts added before it (`cuts` are the
cuts added before the events start). -/
def CutsRespected (cuts : List GRBConstr) : List Event → Prop
  | [] => True
  | Event.cut c :: t => CutsRespected (c :: cuts) t
  | Event.save_sol _ _ X :: t => (∀ c ∈ cuts, c.holds X) ∧ CutsRespected cuts t
  | Event.optimize _ :: t => CutsRespected cuts t
  | Event.check_if_sol_valid :: t => CutsRespected cuts t
  | Event.solve_all_structs :: t => CutsRespected cuts t
  | Event.add_Clar_num_cons _ :: t => CutsRespected cuts t

/-- From one solved model to the next the number of feasible 0/1 assignments strictly
decreases: the assignment returned for `m` is feasible for `m` and infeasible for `m2`. -/
def Shrinks (F : Fullerene) (O : Oracle) (m m2 : GRBModel) : Prop :=
  feasCount F m2 < feasCount F m ∧ m.feasible (O m).2 ∧ ¬ m2.feasible (O m).2

/-- The state at the head of the enumeration loop, `found` being the solutions
recorded so far. -/
structure LoopInv (O : Oracle) (F : Fullerene) (p v : Int) (s : State)
    (found : List (List Nat × List Nat)) : Prop where
  maximize : s.model.maximize = true
  vars : s.model.vars = (initial_model F p).vars
  constrs : ∀ X, Binary X → ((∀ c ∈ s.model.constrs, c.holds X) ↔
    (baseHolds F p X ∧ ((resFaces F X).length : Int) = v ∧
      (resFaces F X, matchEdges F X) ∉ found))
  saved : savedPairs F s.trace = found
  nodup : found.Nodup
  optimal : ∀ S ∈ found, S ∈ optimalStructs F p v
  excluded : AllExcludedByCut s.trace
  respected : CutsRespected [] s.trace
  cuts_in : ∀ c ∈ cutsOf s.trace, c ∈ s.model.constrs
  chain : List.Chain' (Shrinks F O) (optimizedModels s.trace)
  last : ∀ m ∈ (optimizedModels s.trace).getLast?, Shrinks F O m s.model
  count : (optimizedModels s.trace).length = found.length

/-- The state in which the enumeration loop stops. -/
structure LoopDone (O : Oracle) (F : Fullerene) (p v : Int) (s : State) : Prop where
  saved_nodup : (savedPairs F s.trace).Nodup
  saved_iff : ∀ S, S ∈ savedPairs F s.trace ↔ S ∈ optimalStructs F p v
  excluded : AllExcludedByCut s.trace
  respected : CutsRespected [] s.trace
  chain : List.Chain' (Shrinks F O) (optimizedModels s.trace)
  count : (optimizedModels s.trace).length = (optimalStructs F p v).length + 1
  status : s.model.status = GRB_INFEASIBLE
  last_event : ∃ t m, s.trace = t ++ [Event.optimize m] ∧ s.model.status = (O m).1

/-- The state after an iteration of the loop that records the solution `X`. -/
def nextState (F : Fullerene) (p v : Int) (O : Oracle) (s : State) : State :=
  { model := ({ s.model with status := (O s.model).1, X := (O s.model).2 } : GRBModel).reset.addConstr
      (noGoodCut F (O s.model).2),
    trace := s.trace ++ [Event.optimize s.model, Event.check_if_sol_valid,
      Event.save_sol p v (O s.model).2, Event.cut (noGoodCut F (O s.model).2)] }

/-- The constraint of `add_Clar_num_cons`. -/
def clarConstr (F : Fullerene) (opt_val : Int) : GRBConstr :=
  { lhs := (List.range F.dual_n).map GRBVar.f, sense := Sense.eq, rhs := (opt_val : Rat) }

/-- The state after the first `optimize`. -/
def firstState (F : Fullerene) (p : Int) (O : Oracle) : State :=
  optimize O { model := initial_model F p, trace := [] }

/-- The state at the first head of the enumeration loop, `v` being the optimum. -/
def enumState (F : Fullerene) (p v : Int) (O : Oracle) : State :=
  { model := (((firstState F p O).model.reset).addConstr
        (noGoodCut F (O (initial_model F p)).2)).addConstr (clarConstr F v),
    trace := [Event.optimize (initial_model F p), Event.check_if_sol_valid,
      Event.save_sol p v (O (initial_model F p)).2, Event.solve_all_structs,
      Event.cut (noGoodCut F (O (initial_model F p)).2),
      Event.add_Clar_num_cons (clarConstr F v)] }

/-- The fields `n`, `dual_n`, `num_edges` are C++ `int`s. -/
def IntFields (F : Fullerene) : Prop :=
  F.n < 2 ^ 31 ∧ F.dual_n < 2 ^ 31 ∧ F.num_edges < 2 ^ 31

/-- Every incident edge / face index stored at a vertex is an index of the graph. -/
def InRange (F : Fullerene) : Prop :=
  ∀ i, i < F.n → ∀ j : Fin 3,
    (F.primal i).edges j < F.num_edges ∧ (F.primal i).faces j < F.dual_n

/-- The invariants of the type `Fullerene`: `int` fields and valid indices. -/
def GraphView (F : Fullerene) : Prop := IntFields F ∧ InRange F

/-- Every face index and every edge index is incident to at least one vertex. -/
def AllIncident (F : Fullerene) : Prop :=
  (∀ f, f < F.dual_n → ∃ i, i < F.n ∧ ∃ j : Fin 3, (F.primal i).faces j = f) ∧
  (∀ e, e < F.num_edges → ∃ i, i < F.n ∧ ∃ j : Fin 3, (F.primal i).edges j = e)

/-- Number of (vertex, slot) incidences of face `f`. -/
def faceInc (F : Fullerene) (f : Nat) : Nat :=
  ∑ i in Finset.range F.n, ∑ j : Fin 3, if (F.primal i).faces j = f then 1 else 0

/-- Number of (vertex, slot) incidences of edge `e`. -/
def edgeInc (F : Fullerene) (e : Nat) : Nat :=
  ∑ i in Finset.range F.n, ∑ j : Fin 3, if (F.primal i).edges j = e then 1 else 0

/-- A well-formed fullerene view: valid indices, every face is a pentagon or a
hexagon lying on exactly `size` vertices, every edge has exactly two endpoints. -/
def WellFormed (F : Fullerene) : Prop :=
  GraphView F ∧
  (∀ f, f < F.dual_n → ((F.dual f).size = 5 ∨ (F.dual f).size = 6) ∧
    faceInc F f = (F.dual f).size) ∧
  (∀ e, e < F.num_edges → edgeInc F e = 2)

/-! ## Concrete graphs and a reference oracle -/

/-- A vertex from its three edges and three faces. -/
def mkVertex (e0 e1 e2 f0 f1 f2 : Nat) : Vertex :=
  { edges := ![e0, e1, e2], faces := ![f0, f1, f2] }

/-- The complete bipartite graph on 3+3 vertices embedded in the torus with three
hexagonal faces: vertices `2i` and `2j+1` are joined by edge `3i+j`, every vertex
lies on the three faces. -/
def torusK33 : Fullerene :=
  { n := 6, dual_n := 3, num_edges := 9,
    primal := fun i =>
      [mkVertex 0 1 2 0 1 2, mkVertex 0 3 6 0 1 2, mkVertex 3 4 5 0 1 2,
       mkVertex 1 4 7 0 1 2, mkVertex 6 7 8 0 1 2, mkVertex 2 5 8 0 1 2].getD i
        (mkVertex 0 0 0 0 0 0),
    dual := fun _ => { size := 6 }, id := 1 }

/-- The dodecahedron, the smallest fullerene: 20 vertices, 30 edges, 12 pentagons. -/
def dodecahedron : Fullerene :=
  { n := 20, dual_n := 12, num_edges := 30,
    primal := fun i =>
      [mkVertex 0 4 5 0 1 5, mkVertex 0 1 6 0 1 2, mkVertex 1 2 7 0 2 3,
       mkVertex 2 3 8 0 3 4, mkVertex 3 4 9 0 4 5, mkVertex 5 10 19 1 5 10,
       mkVertex 6 11 12 1 2 6, mkVertex 7 13 14 2 3 7, mkVertex 8 15 16 3 4 8,
       mkVertex 9 17 18 4 5 9, mkVertex 10 11 20 1 6 10, mkVertex 12 13 21 2 6 7,
       mkVertex 14 15 22 3 7 8, mkVertex 16 17 23 4 8 9, mkVertex 18 19 24 5 9 10,
       mkVertex 20 25 29 6 10 11, mkVertex 21 25 26 6 7 11, mkVertex 22 26 27 7 8 11,
       mkVertex 23 27 28 8 9 11, mkVertex 24 28 29 9 10 11].getD i
        (mkVertex 0 0 0 0 0 0),
    dual := fun _ => { size := 5 }, id := 1 }

/-- A perfect matching of the graph: a set of edges (an increasing list of edge indices)
such that every vertex has exactly one of its three edges in the set. -/
def isPerfectMatching (F : Fullerene) (M : List Nat) : Prop :=
  M.Sublist (List.range F.num_edges) ∧
  ∀ i, i < F.n → ((List.finRange 3).filter (fun j => decide ((F.primal i).edges j ∈ M))).length = 1

/-- A state in which the solver has reported OPTIMAL with the values `X`. -/
def solvedState (X : GRBVar → Rat) : State :=
  { model := { new_model with status := GRB_OPTIMAL, X := X }, trace := [] }

/-- The variables a model mentions: declared ones and those of its constraints. -/
def relevantVars (m : GRBModel) : List GRBVar :=
  m.vars.map (fun d => d.var) ++ m.constrs.flatMap (fun c => c.lhs)

/-- The 0/1 assignment that is 1 exactly on the listed variables. -/
def assignOf (S : List GRBVar) : GRBVar → Rat :=
  fun v => if v ∈ S then 1 else 0

/-- A reference oracle: exhaustive search over the 0/1 assignments of the
variables the model mentions. -/
def bruteForce : Oracle := fun m =>
  match List.argmax (fun S => m.objective (assignOf S))
      ((relevantVars m).sublists.filter
        (fun S => decide (∀ c ∈ m.constrs, c.holds (assignOf S)))) with
  | some S => (GRB_OPTIMAL, assignOf S)
  | none => (GRB_INFEASIBLE, fun _ => 0)

/-! ## Further vocabulary: other statuses, a second oracle, vertex counts, cut provenance -/

/-- Gurobi status code `GRB_TIME_LIMIT`. -/
def GRB_TIME_LIMIT : Int := 9

/-- An oracle that always stops on its time limit. -/
def timeLimitOracle : Oracle := fun _ => (GRB_TIME_LIMIT, zeroX)

/-- The reference oracle, except that it answers `Y` whenever `Y` is an optimal solution
of the model. -/
def preferring (Y : GRBVar → Rat) : Oracle := fun m =>
  if (∀ c ∈ m.constrs, c.holds Y) ∧ (bruteForce m).1 = GRB_OPTIMAL ∧
      m.objective (bruteForce m).2 ≤ m.objective Y then
    (GRB_OPTIMAL, Y)
  else bruteForce m

/-- Number of vertices on which face `f` lies. -/
def faceVertices (F : Fullerene) (f : Nat) : Nat :=
  ((List.range F.n).filter
    (fun i => decide (∃ j : Fin 3, (F.primal i).faces j = f))).length

/-- Number of endpoints of edge `e`. -/
def edgeVertices (F : Fullerene) (e : Nat) : Nat :=
  ((List.range F.n).filter
    (fun i => decide (∃ j : Fin 3, (F.primal i).edges j = e))).length

/-- Every face has size 5 or 6 and lies on exactly that many distinct vertices, every
edge has exactly two endpoints, and the three edges and the three faces stored at a
vertex are distinct. -/
def FullereneShape (F : Fullerene) : Prop :=
  (∀ f, f < F.dual_n → ((F.dual f).size = 5 ∨ (F.dual f).size = 6) ∧
    faceVertices F f = (F.dual f).size) ∧
  (∀ e, e < F.num_edges → edgeVertices F e = 2) ∧
  (∀ i, i < F.n → Function.Injective (F.primal i).edges ∧
    Function.Injective (F.primal i).faces)

/-- Every cut of the trace is the no-good cut of values `X` that the latest `optimize`
call reported with status OPTIMAL, that pass `check_if_sol_valid` with count `v`, and
that `save_sol` recorded with `(p, v)` after that solve and before the cut, no other cut
lying in between.  The scan carries the model of the latest solve and the arguments of
the `save_sol` call made since. -/
def CutsReadSaved (O : Oracle) (F : Fullerene) (p v : Int) :
    Option GRBModel → Option (Int × Int × (GRBVar → Rat)) → List Event → Prop
  | _, _, [] => True
  | _, _, Event.optimize m :: t => CutsReadSaved O F p v (some m) none t
  | last, _, Event.save_sol q k X :: t => CutsReadSaved O F p v last (some (q, k, X)) t
  | last, pend, Event.cut c :: t =>
    (∃ m X, last = some m ∧ pend = some (p, v, X) ∧ (O m).1 = GRB_OPTIMAL ∧ (O m).2 = X ∧
        c = noGoodCut F X ∧ check_if_sol_valid F p X = Except.ok v) ∧
      CutsReadSaved O F p v last none t
  | last, pend, Event.check_if_sol_valid :: t => CutsReadSaved O F p v last pend t
  | last, pend, Event.solve_all_structs :: t => CutsReadSaved O F p v last pend t
  | last, pend, Event.add_Clar_num_cons _ :: t => CutsReadSaved O F p v last pend t

/-- Number of `save_sol` calls in a trace. -/
def saveCount : List Event → Nat
  | [] => 0
  | Event.save_sol _ _ _ :: t => saveCount t + 1
  | Event.optimize _ :: t => saveCount t
  | Event.cut _ :: t => saveCount t
  | Event.check_if_sol_valid :: t => saveCount t
  | Event.solve_all_structs :: t => saveCount t
  | Event.add_Clar_num_cons _ :: t => saveCount t

/-- Every `optimize` call of the trace ended with status OPTIMAL or INFEASIBLE. -/
def StatusesFine (O : Oracle) (t : List Event) : Prop :=
  ∀ m, Event.optimize m ∈ t → (O m).1 = GRB_OPTIMAL ∨ (O m).1 = GRB_INFEASIBLE

/-- The exception a call ends with, if any. -/
def Outcome.thrownExn {α : Type} : Outcome α → Option Exn
  | Outcome.ok _ => none
  | Outcome.thrown e => some e
  | Outcome.undefined => none

/-- Either every solve of the trace ended with OPTIMAL or INFEASIBLE, or the last event
is a solve with another status, the first such, and the call ends with the status error. -/
def StatusGood (O : Oracle) (F : Fullerene) (p : Int) (err : Option Exn)
    (tr : List Event) : Prop :=
  StatusesFine O tr ∨
    ∃ t m, tr = t ++ [Event.optimize m] ∧ StatusesFine O t ∧
      (O m).1 ≠ GRB_OPTIMAL ∧ (O m).1 ≠ GRB_INFEASIBLE ∧
      err = some (throw_error F.n p F.id (status_msg (O m).1))

/-! ## Basic facts about the model builder -/

theorem ind_of_binary {x : Rat} (h : x = 0 ∨ x = 1) : ((ind x : Nat) : Rat) = x := by
  rcases h with h | h <;> subst h <;> norm_num [ind]

theorem gt_iff_of_binary {x : Rat} (h : x = 0 ∨ x = 1) : x > 99 / 100 ↔ x = 1 := by
  rcases h with h | h <;> subst h <;> norm_num

theorem covered_eq (F : Fullerene) (X : GRBVar → Rat) (i : Nat) :
    covered F X i = ∑ j : Fin 3,
      (ind (X (GRBVar.e ((F.primal i).edges j))) + ind (X (GRBVar.f ((F.primal i).faces j)))) := by
  have h3 : List.finRange 3 = [0, 1, 2] := by decide
  simp only [covered, h3, List.foldl_cons, List.foldl_nil, Fin.sum_univ_three, ind]
  split_ifs <;> omega

theorem cons1_eq (F : Fullerene) (i : Nat) :
    cons1 F i = [GRBVar.e ((F.primal i).edges 0), GRBVar.f ((F.primal i).faces 0),
      GRBVar.e ((F.primal i).edges 1), GRBVar.f ((F.primal i).faces 1),
      GRBVar.e ((F.primal i).edges 2), GRBVar.f ((F.primal i).faces 2)] := by
  have h3 : List.finRange 3 = [0, 1, 2] := by decide
  simp [cons1, h3]

theorem cons1_value (F : Fullerene) (X : GRBVar → Rat) (i : Nat) (hX : Binary X) :
    ((cons1 F i).map X).sum = ((covered F X i : Nat) : Rat) := by
  rw [cons1_eq, covered_eq]
  simp only [List.map_cons, List.map_nil, List.sum_cons, List.sum_nil, Fin.sum_univ_three]
  push_cast
  rw [ind_of_binary (hX _), ind_of_binary (hX _), ind_of_binary (hX _), ind_of_binary (hX _),
    ind_of_binary (hX _), ind_of_binary (hX _)]
  ring

theorem foldl_addConstr_constrs (c : Nat → GRBConstr) (l : List Nat) (m : GRBModel) :
    (l.foldl (fun m i => m.addConstr (c i)) m).constrs = m.constrs ++ l.map c := by
  induction l generalizing m with
  | nil => simp
  | cons a l ih =>
    simp only [List.foldl_cons, List.map_cons]
    rw [ih]
    simp [GRBModel.addConstr]

theorem foldl_snoc_filter (P : Nat → Prop) [DecidablePred P] (g : Nat → GRBVar) (l : List Nat)
    (init : List GRBVar) :
    l.foldl (fun acc f => if P f then acc ++ [g f] else acc) init
      = init ++ (l.filter (fun f => decide (P f))).map g := by
  induction l generalizing init with
  | nil => simp
  | cons a l ih =>
    by_cases h : P a <;> simp [ih, h, List.filter_cons]

theorem cons2_eq (F : Fullerene) :
    cons2 F = ((List.range F.dual_n).filter (fun f => decide ((F.dual f).size = 5))).map GRBVar.f := by
  simp [cons2, foldl_snoc_filter]


theorem count_faces_foldl (F : Fullerene) (X : GRBVar → Rat) (l : List Nat) (acc : Nat × Nat) :
    l.foldl
      (fun (acc : Nat × Nat) i =>
        if X (GRBVar.f i) > 99 / 100 then
          (acc.1 + 1, if (F.dual i).size = 5 then acc.2 + 1 else acc.2)
        else acc) acc
    = (acc.1 + (l.filter (fun i => decide (X (GRBVar.f i) > 99 / 100))).length,
       acc.2 + ((l.filter (fun i => decide (X (GRBVar.f i) > 99 / 100))).filter
          (fun i => decide ((F.dual i).size = 5))).length) := by
  induction l generalizing acc with
  | nil => simp
  | cons a l ih =>
    simp only [List.foldl_cons]
    rw [ih]
    by_cases h1 : X (GRBVar.f a) > 99 / 100
    · by_cases h2 : (F.dual a).size = 5
      · simp [h1, h2, List.filter_cons]; omega
      · simp [h1, h2, List.filter_cons]; omega
    · simp [h1, List.filter_cons]

theorem count_faces_eq (F : Fullerene) (X : GRBVar → Rat) :
    count_faces F X = ((resFaces F X).length, (resPents F X).length) := by
  simp [count_faces, count_faces_foldl, resFaces, resPents]

theorem check_ok_iff (F : Fullerene) (p : Int) (X : GRBVar → Rat) (k : Int) :
    check_if_sol_valid F p X = Except.ok k ↔
      (∀ i, i < F.n → covered F X i = 1) ∧ ((resPents F X).length : Int) = p ∧
        k = ((resFaces F X).length : Int) := by
  unfold check_if_sol_valid
  rw [count_faces_eq]
  cases hfind : (List.range F.n).find? (fun i => decide (covered F X i ≠ 1)) with
  | some i =>
    have h1 := List.find?_some hfind
    have h2 := List.mem_of_find?_eq_some hfind
    simp only [decide_eq_true_eq] at h1
    simp only [List.mem_range] at h2
    constructor
    · intro h; cases h
    · rintro ⟨h, -⟩; exact absurd (h i h2) h1
  | none =>
    rw [List.find?_eq_none] at hfind
    have hall : ∀ i, i < F.n → covered F X i = 1 := by
      intro i hi
      have := hfind i (List.mem_range.mpr hi)
      simpa using this
    by_cases hp : ((resPents F X).length : Int) = p
    · simp only [ne_eq, hp, not_true_eq_false, if_false]
      constructor
      · intro h
        injection h with h
        exact ⟨hall, trivial, h.symm⟩
      · rintro ⟨-, -, h⟩
        rw [h]
    · simp only [ne_eq, hp, not_false_eq_true, if_true]
      constructor
      · intro h; cases h
      · rintro ⟨-, h, -⟩; exact absurd h id

theorem sum_map_binary (X : GRBVar → Rat) (hX : Binary X) (g : Nat → GRBVar) (l : List Nat) :
    ((l.map g).map X).sum = ((l.filter (fun i => decide (X (g i) > 99 / 100))).length : Rat) := by
  induction l with
  | nil => simp
  | cons a l ih =>
    simp only [List.map_cons, List.sum_cons, ih, List.filter_cons]
    rcases hX (g a) with h | h <;> rw [h] <;> norm_num
    ring

theorem filter_comm_list (l : List Nat) (P Q : Nat → Bool) :
    (l.filter P).filter Q = (l.filter Q).filter P := by
  simp [List.filter_filter, Bool.and_comm]

theorem cons2_value (F : Fullerene) (X : GRBVar → Rat) (hX : Binary X) :
    ((cons2 F).map X).sum = ((resPents F X).length : Rat) := by
  rw [cons2_eq, sum_map_binary X hX, resPents, resFaces, filter_comm_list]

theorem add_cons_constrs (F : Fullerene) (p : Int) (m : GRBModel) :
    (add_cons F p m).constrs = m.constrs
      ++ (List.range F.n).map (fun i => { lhs := cons1 F i, sense := Sense.eq, rhs := 1 })
      ++ [{ lhs := cons2 F, sense := Sense.eq, rhs := (p : Rat) }] := by
  have h : ∀ (m : GRBModel) (c : GRBConstr), (m.addConstr c).constrs = m.constrs ++ [c] :=
    fun _ _ => rfl
  unfold add_cons
  simp only []
  rw [h, foldl_addConstr_constrs]

theorem foldl_addVar_constrs (g : Nat → GRBVar) (a b c : Rat) (t : Bool) (l : List Nat)
    (m : GRBModel) :
    (l.foldl (fun m i => m.addVar (g i) a b c t) m).constrs = m.constrs
    ∧ (l.foldl (fun m i => m.addVar (g i) a b c t) m).maximize = m.maximize
    ∧ (l.foldl (fun m i => m.addVar (g i) a b c t) m).vars
        = m.vars ++ l.map (fun i => { var := g i, lb := a, ub := b, obj := c, binary := t }) := by
  induction l generalizing m with
  | nil => simp
  | cons x l ih =>
    simp only [List.foldl_cons, List.map_cons]
    obtain ⟨h1, h2, h3⟩ := ih (m.addVar (g x) a b c t)
    refine ⟨?_, ?_, ?_⟩
    · rw [h1]; rfl
    · rw [h2]; rfl
    · rw [h3]; simp [GRBModel.addVar]

theorem add_vars_constrs (F : Fullerene) (m : GRBModel) :
    (add_vars F m).constrs = m.constrs := by
  simp only [add_vars]
  rw [(foldl_addVar_constrs _ _ _ _ _ _ _).1, (foldl_addVar_constrs _ _ _ _ _ _ _).1]

theorem add_vars_vars (F : Fullerene) (m : GRBModel) :
    (add_vars F m).vars = m.vars
      ++ (List.range F.dual_n).map
          (fun i => { var := GRBVar.f i, lb := 0, ub := 1, obj := 1, binary := true })
      ++ (List.range F.num_edges).map
          (fun i => { var := GRBVar.e i, lb := 0, ub := 1, obj := 0, binary := true }) := by
  simp only [add_vars]
  rw [(foldl_addVar_constrs _ _ _ _ _ _ _).2.2, (foldl_addVar_constrs _ _ _ _ _ _ _).2.2]

theorem initial_model_constrs (F : Fullerene) (p : Int) :
    (initial_model F p).constrs = (List.range F.n).map (vertexConstr F) ++ [pentConstr F p] := by
  simp [initial_model, add_cons_constrs, add_vars_constrs, new_model, vertexConstr, pentConstr]

theorem vertexConstr_holds (F : Fullerene) (X : GRBVar → Rat) (hX : Binary X) (i : Nat) :
    (vertexConstr F i).holds X ↔ covered F X i = 1 := by
  simp only [GRBConstr.holds, vertexConstr, GRBConstr.value]
  rw [cons1_value F X i hX]
  exact_mod_cast Iff.rfl

theorem pentConstr_holds (F : Fullerene) (p : Int) (X : GRBVar → Rat) (hX : Binary X) :
    (pentConstr F p).holds X ↔ ((resPents F X).length : Int) = p := by
  simp only [GRBConstr.holds, pentConstr, GRBConstr.value]
  rw [cons2_value F X hX]
  constructor
  · intro h; exact_mod_cast h
  · intro h; exact_mod_cast h

theorem baseHolds_iff (F : Fullerene) (p : Int) (X : GRBVar → Rat) (hX : Binary X) :
    baseHolds F p X ↔
      (∀ i, i < F.n → covered F X i = 1) ∧ ((resPents F X).length : Int) = p := by
  unfold baseHolds
  rw [initial_model_constrs]
  constructor
  · intro h
    refine ⟨fun i hi => ?_, ?_⟩
    · rw [← vertexConstr_holds F X hX]
      exact h _ (by simp; exact Or.inl ⟨i, hi, rfl⟩)
    · rw [← pentConstr_holds F p X hX]
      exact h _ (by simp)
  · rintro ⟨h1, h2⟩ c hc
    simp only [List.mem_append, List.mem_map, List.mem_range, List.mem_singleton] at hc
    rcases hc with ⟨i, hi, rfl⟩ | rfl
    · exact (vertexConstr_holds F X hX i).mpr (h1 i hi)
    · exact (pentConstr_holds F p X hX).mpr h2

/-! ## The recording loops and the no-good cut -/

theorem record_foldl_none (val : Nat → Rat) (l : List Nat) :
    l.foldl
      (fun (st : Option (List Nat × Nat)) i =>
        match st with
        | none => none
        | some (v, vec_index) =>
          if val i > 99 / 100 then
            (if vec_index < v.length then some (v.set vec_index i, vec_index + 1) else none)
          else some (v, vec_index)) none = none := by
  induction l with
  | nil => rfl
  | cons a l ih => simpa using ih

theorem record_foldl (val : Nat → Rat) (l : List Nat) (pre rest : List Nat) :
    l.foldl
      (fun (st : Option (List Nat × Nat)) i =>
        match st with
        | none => none
        | some (v, vec_index) =>
          if val i > 99 / 100 then
            (if vec_index < v.length then some (v.set vec_index i, vec_index + 1) else none)
          else some (v, vec_index)) (some (pre ++ rest, pre.length))
    = if (l.filter (fun i => decide (val i > 99 / 100))).length ≤ rest.length then
        some (pre ++ l.filter (fun i => decide (val i > 99 / 100))
                ++ rest.drop (l.filter (fun i => decide (val i > 99 / 100))).length,
              pre.length + (l.filter (fun i => decide (val i > 99 / 100))).length)
      else none := by
  induction l generalizing pre rest with
  | nil => simp
  | cons a l ih =>
    simp only [List.foldl_cons]
    by_cases h : val a > 99 / 100
    · cases rest with
      | nil =>
        simp only [h, if_true, List.append_nil, lt_self_iff_false, if_false]
        rw [record_foldl_none]
        simp [List.filter_cons, h]
      | cons r rest =>
        have hlt : pre.length < (pre ++ r :: rest).length := by simp
        have hset : (pre ++ r :: rest).set pre.length a = (pre ++ [a]) ++ rest := by
          simp [List.set_append]
        simp only [h, if_true, hlt, hset]
        have := ih (pre ++ [a]) rest
        simp only [List.length_append, List.length_singleton] at this
        rw [this]
        simp [List.filter_cons, h, Nat.add_assoc, Nat.add_comm 1]
    · simp only [h, if_false]
      rw [ih]
      simp [List.filter_cons, h]

theorem record_sol_eq (val : Nat → Rat) (bound : Nat) (vec : List Nat) :
    record_sol val bound vec
    = if ((List.range bound).filter (fun i => decide (val i > 99 / 100))).length ≤ vec.length then
        some ((List.range bound).filter (fun i => decide (val i > 99 / 100))
                ++ vec.drop ((List.range bound).filter (fun i => decide (val i > 99 / 100))).length,
              ((List.range bound).filter (fun i => decide (val i > 99 / 100))).length)
      else none := by
  have := record_foldl val (List.range bound) [] vec
  simpa [record_sol] using this

theorem record_sol_exact (val : Nat → Rat) (bound : Nat) (vec : List Nat)
    (h : vec.length = ((List.range bound).filter (fun i => decide (val i > 99 / 100))).length) :
    record_sol val bound vec
    = some ((List.range bound).filter (fun i => decide (val i > 99 / 100)), vec.length) := by
  rw [record_sol_eq, if_pos (le_of_eq h.symm), ← h]
  simp

theorem exlude_exact (F : Fullerene) (s : State) (res_faces match_edges : List Nat)
    (hf : res_faces.length = (resFaces F s.model.X).length)
    (he : match_edges.length = (matchEdges F s.model.X).length) :
    exlude_previous_sol F s res_faces match_edges =
      (Outcome.ok (),
        { model := (s.model.reset).addConstr (noGoodCut F s.model.X),
          trace := s.trace ++ [Event.cut (noGoodCut F s.model.X)] }) := by
  unfold exlude_previous_sol
  rw [record_sol_exact _ _ _ hf, record_sol_exact _ _ _ he]
  rfl

theorem covered_eq_sum (F : Fullerene) (X : GRBVar → Rat) (i : Nat) :
    covered F X i = ((cons1 F i).map (fun y => ind (X y))).sum := by
  rw [covered_eq, cons1_eq]
  simp only [Fin.sum_univ_three, List.map_cons, List.map_nil, List.sum_cons, List.sum_nil]
  omega

theorem ind_le_one (x : Rat) : ind x ≤ 1 := by
  unfold ind; split_ifs <;> omega

theorem ind_eq_one_iff (x : Rat) : ind x = 1 ↔ x > 99 / 100 := by
  unfold ind; split_ifs with h <;> simp [h]

theorem mem_cons1_inRange (F : Fullerene) (hR : InRange F) (i : Nat) (hi : i < F.n)
    (y : GRBVar) (hy : y ∈ cons1 F i) :
    (∃ k, k < F.dual_n ∧ y = GRBVar.f k) ∨ (∃ k, k < F.num_edges ∧ y = GRBVar.e k) := by
  rw [cons1_eq] at hy
  simp only [List.mem_cons, List.mem_singleton, List.not_mem_nil, or_false] at hy
  rcases hy with h | h | h | h | h | h
  · exact Or.inr ⟨_, (hR i hi 0).1, h⟩
  · exact Or.inl ⟨_, (hR i hi 0).2, h⟩
  · exact Or.inr ⟨_, (hR i hi 1).1, h⟩
  · exact Or.inl ⟨_, (hR i hi 1).2, h⟩
  · exact Or.inr ⟨_, (hR i hi 2).1, h⟩
  · exact Or.inl ⟨_, (hR i hi 2).2, h⟩

theorem face_mem_cons1 (F : Fullerene) (i : Nat) (j : Fin 3) :
    GRBVar.f ((F.primal i).faces j) ∈ cons1 F i := by
  rw [cons1_eq]; fin_cases j <;> simp

theorem edge_mem_cons1 (F : Fullerene) (i : Nat) (j : Fin 3) :
    GRBVar.e ((F.primal i).edges j) ∈ cons1 F i := by
  rw [cons1_eq]; fin_cases j <;> simp

theorem sum_eq_pointwise (L : List GRBVar) (a b : GRBVar → Nat)
    (hle : ∀ y ∈ L, a y ≤ b y) (hsum : (L.map a).sum = (L.map b).sum) :
    ∀ y ∈ L, a y = b y := by
  induction L with
  | nil => intro y hy; cases hy
  | cons x L ih =>
    have h1 : a x ≤ b x := hle x (List.mem_cons_self _ _)
    have h2 : (L.map a).sum ≤ (L.map b).sum := by
      apply List.sum_le_sum
      intro y hy
      exact hle y (List.mem_cons_of_mem _ hy)
    simp only [List.map_cons, List.sum_cons] at hsum
    intro y hy
    rcases List.mem_cons.mp hy with rfl | hy
    · omega
    · exact ih (fun z hz => hle z (List.mem_cons_of_mem _ hz)) (by omega) y hy

theorem mem_resFaces (F : Fullerene) (X : GRBVar → Rat) (k : Nat) :
    k ∈ resFaces F X ↔ k < F.dual_n ∧ X (GRBVar.f k) > 99 / 100 := by
  simp [resFaces]

theorem mem_matchEdges (F : Fullerene) (X : GRBVar → Rat) (k : Nat) :
    k ∈ matchEdges F X ↔ k < F.num_edges ∧ X (GRBVar.e k) > 99 / 100 := by
  simp [matchEdges]

theorem agree_of_contains (F : Fullerene) (hR : InRange F) (hI : AllIncident F)
    (A B : GRBVar → Rat) (hA : Binary A) (hB : Binary B)
    (hcA : ∀ i, i < F.n → covered F A i = 1) (hcB : ∀ i, i < F.n → covered F B i = 1)
    (hcont : Contains F A B) : Agree F A B := by
  have key : ∀ i, i < F.n → ∀ y ∈ cons1 F i, A y = B y := by
    intro i hi y hy
    have hle : ∀ z ∈ cons1 F i, ind (A z) ≤ ind (B z) := by
      intro z hz
      by_cases hz1 : A z > 99 / 100
      · have : B z > 99 / 100 := by
          rcases mem_cons1_inRange F hR i hi z hz with ⟨k, hk, rfl⟩ | ⟨k, hk, rfl⟩
          · exact hcont.1 k ((mem_resFaces F A k).mpr ⟨hk, hz1⟩)
          · exact hcont.2 k ((mem_matchEdges F A k).mpr ⟨hk, hz1⟩)
        rw [(ind_eq_one_iff _).mpr this]
        exact ind_le_one _
      · simp [ind, hz1]
    have hs : ((cons1 F i).map (fun z => ind (A z))).sum
        = ((cons1 F i).map (fun z => ind (B z))).sum := by
      rw [← covered_eq_sum, ← covered_eq_sum, hcA i hi, hcB i hi]
    have := sum_eq_pointwise (cons1 F i) (fun z => ind (A z)) (fun z => ind (B z)) hle hs y hy
    simp only at this
    have e1 := ind_of_binary (hA y)
    have e2 := ind_of_binary (hB y)
    rw [← e1, ← e2, this]
  constructor
  · intro k hk
    obtain ⟨i, hi, j, hj⟩ := hI.1 k hk
    have := key i hi _ (face_mem_cons1 F i j)
    rwa [hj] at this
  · intro k hk
    obtain ⟨i, hi, j, hj⟩ := hI.2 k hk
    have := key i hi _ (edge_mem_cons1 F i j)
    rwa [hj] at this

theorem contains_of_agree (F : Fullerene) (A B : GRBVar → Rat) (h : Agree F A B) :
    Contains F A B := by
  constructor
  · intro k hk
    rw [mem_resFaces] at hk
    rw [← h.1 k hk.1]; exact hk.2
  · intro k hk
    rw [mem_matchEdges] at hk
    rw [← h.2 k hk.1]; exact hk.2

theorem resFaces_length_le (F : Fullerene) (X : GRBVar → Rat) :
    (resFaces F X).length ≤ F.dual_n := by
  have := List.length_filter_le (fun i => decide (X (GRBVar.f i) > 99 / 100)) (List.range F.dual_n)
  simpa [resFaces] using this

theorem matchEdges_length_le (F : Fullerene) (X : GRBVar → Rat) :
    (matchEdges F X).length ≤ F.num_edges := by
  have := List.length_filter_le (fun i => decide (X (GRBVar.e i) > 99 / 100)) (List.range F.num_edges)
  simpa [matchEdges] using this

theorem size_to_double_exact (n : Nat) (h : n < 2 ^ 53) : size_to_double n = n := by
  have hf : [0, 1, 2, 3, 4, 5, 6, 7, 8, 9, 10, 11].find? (fun e => decide (n < 2 ^ (53 + e)))
      = some 0 :=
    List.find?_cons_of_pos _ (by simpa using h)
  unfold size_to_double
  rw [hf]
  simp only [pow_zero, Nat.div_one, Nat.mod_one, Nat.mul_zero, Nat.mul_one]
  have h1 : ¬ (0 > 1 ∨ (0 = 1 ∧ n % 2 = 1)) := by omega
  rw [if_neg h1]

theorem size_to_double_wrap : size_to_double (cut_rhs 0 0) = 2 ^ 64 := by
  decide

theorem cut_rhs_eq (a b : Nat) (h1 : 1 ≤ a + b) (h2 : a + b < 2 ^ 32) :
    size_to_double (cut_rhs a b) = a + b - 1 := by
  have h3 : cut_rhs a b = a + b - 1 := by
    unfold cut_rhs
    have : a + b + (2 ^ 64 - 1) = (a + b - 1) + 2 ^ 64 := by omega
    rw [this, Nat.add_mod_right, Nat.mod_eq_of_lt (by omega)]
  rw [h3]
  exact size_to_double_exact _ (by omega)

theorem noGoodCut_value (F : Fullerene) (A B : GRBVar → Rat) (hB : Binary B) :
    (noGoodCut F A).value B
      = (((resFaces F A).filter (fun k => decide (B (GRBVar.f k) > 99 / 100))).length
        + ((matchEdges F A).filter (fun k => decide (B (GRBVar.e k) > 99 / 100))).length : Nat) := by
  simp only [GRBConstr.value, noGoodCut, List.map_append, List.sum_append]
  rw [sum_map_binary B hB, sum_map_binary B hB]
  push_cast
  rfl

theorem cut_violated_iff (F : Fullerene) (hF : IntFields F) (A B : GRBVar → Rat) (hB : Binary B)
    (h1 : 1 ≤ (resFaces F A).length + (matchEdges F A).length) :
    ¬ (noGoodCut F A).holds B ↔ Contains F A B := by
  have hlt : (resFaces F A).length + (matchEdges F A).length < 2 ^ 32 := by
    have := resFaces_length_le F A
    have := matchEdges_length_le F A
    obtain ⟨-, h2, h3⟩ := hF
    have : (2:Nat) ^ 31 + 2 ^ 31 = 2 ^ 32 := by norm_num
    omega
  have hv := noGoodCut_value F A B hB
  have hholds : (noGoodCut F A).holds B ↔ (noGoodCut F A).value B ≤ (noGoodCut F A).rhs := Iff.rfl
  rw [hholds, hv]
  have hr : (noGoodCut F A).rhs
      = ((size_to_double (cut_rhs (resFaces F A).length (matchEdges F A).length) : Nat) : Rat) := rfl
  rw [hr, cut_rhs_eq _ _ h1 hlt, Nat.cast_le]
  have l1 := List.length_filter_le (fun k => decide (B (GRBVar.f k) > 99 / 100)) (resFaces F A)
  have l2 := List.length_filter_le (fun k => decide (B (GRBVar.e k) > 99 / 100)) (matchEdges F A)
  unfold Contains
  constructor
  · intro h
    have e1 : ((resFaces F A).filter (fun k => decide (B (GRBVar.f k) > 99 / 100))).length
        = (resFaces F A).length := by omega
    have e2 : ((matchEdges F A).filter (fun k => decide (B (GRBVar.e k) > 99 / 100))).length
        = (matchEdges F A).length := by omega
    rw [List.filter_length_eq_length] at e1 e2
    exact ⟨fun k hk => by simpa using e1 k hk, fun k hk => by simpa using e2 k hk⟩
  · rintro ⟨c1, c2⟩
    have e1 : ((resFaces F A).filter (fun k => decide (B (GRBVar.f k) > 99 / 100))).length
        = (resFaces F A).length := by
      rw [List.filter_length_eq_length]
      intro k hk; simpa using c1 k hk
    have e2 : ((matchEdges F A).filter (fun k => decide (B (GRBVar.e k) > 99 / 100))).length
        = (matchEdges F A).length := by
      rw [List.filter_length_eq_length]
      intro k hk; simpa using c2 k hk
    omega

theorem exists_one_of_covered (F : Fullerene) (hR : InRange F) (X : GRBVar → Rat) (i : Nat)
    (hi : i < F.n) (hc : covered F X i = 1) :
    1 ≤ (resFaces F X).length + (matchEdges F X).length := by
  rw [covered_eq_sum] at hc
  have hex : ∃ y ∈ cons1 F i, ind (X y) = 1 := by
    by_contra hcon
    push_neg at hcon
    have hz : ((cons1 F i).map (fun y => ind (X y))).sum = 0 := by
      apply List.sum_eq_zero
      intro x hx
      obtain ⟨y, hy, rfl⟩ := List.mem_map.mp hx
      have := ind_le_one (X y)
      have := hcon y hy
      omega
    omega
  obtain ⟨y, hy, h1⟩ := hex
  rw [ind_eq_one_iff] at h1
  rcases mem_cons1_inRange F hR i hi y hy with ⟨k, hk, rfl⟩ | ⟨k, hk, rfl⟩
  · have : k ∈ resFaces F X := (mem_resFaces F X k).mpr ⟨hk, h1⟩
    have := List.length_pos_of_mem this
    omega
  · have : k ∈ matchEdges F X := (mem_matchEdges F X k).mpr ⟨hk, h1⟩
    have := List.length_pos_of_mem this
    omega

theorem binary_zeroX : Binary zeroX := fun _ => Or.inl rfl

theorem binary_indicator (R M : List Nat) : Binary (indicator R M) := by
  intro v
  cases v with
  | f i => by_cases h : i ∈ R <;> simp [indicator, h]
  | e i => by_cases h : i ∈ M <;> simp [indicator, h]

/-- Claim C3: on a graph with at least one vertex (fields `int`, valid indices) in which
every face index and every edge index is incident to a vertex, for 0/1 assignments `A`, `B`
that satisfy the vertex constraints of `add_cons`, the cut that `exlude_previous_sol`
builds from `A` (vectors pre-sized to the numbers of resonant faces and matching edges of
`A`, as `solve_all_structs` does) is the sum of the resonant-face and matching-edge
variables of `A` being at most `|F| + |E| - 1`, and `B` violates it iff `B = A`. -/
theorem nogood_cut_excludes_exactly (F : Fullerene) (hG : GraphView F) (hI : AllIncident F)
    (hn : 0 < F.n) (A B : GRBVar → Rat) (hA : Binary A) (hB : Binary B)
    (hcA : ∀ i, i < F.n → (vertexConstr F i).holds A)
    (hcB : ∀ i, i < F.n → (vertexConstr F i).holds B)
    (s : State) (hs : s.model.X = A) (res_faces match_edges : List Nat)
    (hf : res_faces.length = (resFaces F A).length)
    (he : match_edges.length = (matchEdges F A).length) :
    ∃ c, exlude_previous_sol F s res_faces match_edges
          = (Outcome.ok (),
              { model := s.model.reset.addConstr c, trace := s.trace ++ [Event.cut c] }) ∧
      c.lhs = (resFaces F A).map GRBVar.f ++ (matchEdges F A).map GRBVar.e ∧
      c.sense = Sense.le ∧
      c.rhs = (((resFaces F A).length + (matchEdges F A).length - 1 : Nat) : Rat) ∧
      (¬ c.holds B ↔ Agree F A B) := by
  subst hs
  have hcA1 : ∀ i, i < F.n → covered F s.model.X i = 1 :=
    fun i hi => (vertexConstr_holds F _ hA i).mp (hcA i hi)
  have hcB1 : ∀ i, i < F.n → covered F B i = 1 :=
    fun i hi => (vertexConstr_holds F B hB i).mp (hcB i hi)
  have h1 := exists_one_of_covered F hG.2 s.model.X 0 hn (hcA1 0 hn)
  have hlt : (resFaces F s.model.X).length + (matchEdges F s.model.X).length < 2 ^ 32 := by
    have := resFaces_length_le F s.model.X
    have := matchEdges_length_le F s.model.X
    obtain ⟨-, h2, h3⟩ := hG.1
    have : (2:Nat) ^ 31 + 2 ^ 31 = 2 ^ 32 := by norm_num
    omega
  refine ⟨noGoodCut F s.model.X, exlude_exact F s _ _ hf he, rfl, rfl, ?_, ?_⟩
  · show ((size_to_double (cut_rhs _ _) : Nat) : Rat) = _
    rw [cut_rhs_eq _ _ h1 hlt]
  · rw [cut_violated_iff F hG.1 _ B hB h1]
    exact ⟨agree_of_contains F hG.2 hI _ B hA hB hcA1 hcB1, contains_of_agree F _ B⟩

/-- Claim C6: for every graph, every `p` and every 0/1 assignment, the assignment satisfies
all constraints created by `add_cons` iff `check_if_sol_valid` accepts it. -/
theorem model_validator_agree (F : Fullerene) (p : Int) (X : GRBVar → Rat) (hX : Binary X) :
    (∀ c ∈ (add_cons F p (add_vars F new_model)).constrs, c.holds X)
      ↔ ∃ k, check_if_sol_valid F p X = Except.ok k := by
  have := baseHolds_iff F p X hX
  unfold baseHolds initial_model at this
  rw [this]
  constructor
  · rintro ⟨h1, h2⟩
    exact ⟨_, (check_ok_iff F p X _).mpr ⟨h1, h2, rfl⟩⟩
  · rintro ⟨k, hk⟩
    have := (check_ok_iff F p X k).mp hk
    exact ⟨this.1, this.2.1⟩

/-! ## The assessment functions -/

theorem sum_ind_eq_count (X : GRBVar → Rat) (L : List GRBVar) :
    (L.map (fun y => ind (X y))).sum = (L.filter (fun y => decide (X y > 99 / 100))).length := by
  induction L with
  | nil => rfl
  | cons a L ih =>
    simp only [List.map_cons, List.sum_cons, List.filter_cons, ih]
    by_cases h : X a > 99 / 100
    · simp [h, ind]; omega
    · simp [h, ind]

theorem covered_eq_count (F : Fullerene) (X : GRBVar → Rat) (i : Nat) :
    covered F X i = ((cons1 F i).filter (fun y => decide (X y > 99 / 100))).length := by
  rw [covered_eq_sum, sum_ind_eq_count]

theorem resPents_eq (F : Fullerene) (X : GRBVar → Rat) :
    resPents F X = (List.range F.dual_n).filter
      (fun i => decide (X (GRBVar.f i) > 99 / 100 ∧ (F.dual i).size = 5)) := by
  simp [resPents, resFaces, List.filter_filter, Bool.and_comm]

theorem assess_solve_cases (F : Fullerene) (p : Int) (s : State) :
    (s.model.status = GRB_OPTIMAL ∧ ∃ e, check_if_sol_valid F p s.model.X = Except.error e ∧
        assess_solve F p s = (Outcome.thrown e, s.log Event.check_if_sol_valid)) ∨
    (s.model.status = GRB_OPTIMAL ∧ ∃ k, check_if_sol_valid F p s.model.X = Except.ok k ∧
        assess_solve F p s = (Outcome.ok k,
          { model := s.model,
            trace := s.trace ++ [Event.check_if_sol_valid, Event.save_sol p k s.model.X] })) ∨
    (s.model.status = GRB_INFEASIBLE ∧
        assess_solve F p s = (Outcome.ok 0,
          { model := s.model, trace := s.trace ++ [Event.save_sol p 0 s.model.X] })) ∨
    (s.model.status ≠ GRB_OPTIMAL ∧ s.model.status ≠ GRB_INFEASIBLE ∧
        assess_solve F p s
          = (Outcome.thrown (throw_error F.n p F.id (status_msg s.model.status)), s)) := by
  unfold assess_solve
  by_cases h1 : s.model.status = GRB_OPTIMAL
  · cases hc : check_if_sol_valid F p s.model.X with
    | error e => left; simp [h1, hc]
    | ok k => right; left; simp [h1, hc, State.log]
  · by_cases h2 : s.model.status = GRB_INFEASIBLE
    · right; right; left; simp [h1, h2, State.log]
      intro h; exact absurd h (by decide)
    · right; right; right; simp [h1, h2]

theorem assess_rec_solve_cases (F : Fullerene) (p : Int) (s : State) (opt_val : Int) :
    (s.model.status = GRB_OPTIMAL ∧ ∃ e, check_if_sol_valid F p s.model.X = Except.error e ∧
        assess_rec_solve F p s opt_val = (Outcome.thrown e, s.log Event.check_if_sol_valid)) ∨
    (s.model.status = GRB_OPTIMAL ∧ check_if_sol_valid F p s.model.X = Except.ok opt_val ∧
        assess_rec_solve F p s opt_val = (Outcome.ok opt_val,
          { model := s.model,
            trace := s.trace ++ [Event.check_if_sol_valid, Event.save_sol p opt_val s.model.X] })) ∨
    (s.model.status = GRB_OPTIMAL ∧ ∃ k, k ≠ opt_val ∧
        check_if_sol_valid F p s.model.X = Except.ok k ∧
        assess_rec_solve F p s opt_val = (Outcome.ok k,
          { model := s.model, trace := s.trace ++ [Event.check_if_sol_valid] })) ∨
    (s.model.status = GRB_INFEASIBLE ∧ assess_rec_solve F p s opt_val = (Outcome.ok 0, s)) ∨
    (s.model.status ≠ GRB_OPTIMAL ∧ s.model.status ≠ GRB_INFEASIBLE ∧
        assess_rec_solve F p s opt_val
          = (Outcome.thrown (throw_error F.n p F.id (status_msg s.model.status)), s)) := by
  unfold assess_rec_solve
  by_cases h1 : s.model.status = GRB_OPTIMAL
  · cases hc : check_if_sol_valid F p s.model.X with
    | error e => left; simp [h1, hc]
    | ok k =>
      by_cases hk : k = opt_val
      · subst hk; right; left; simp [h1, hc, State.log]
      · right; right; left
        refine ⟨h1, k, hk, rfl, ?_⟩
        simp [h1, hc, hk, State.log]
  · by_cases h2 : s.model.status = GRB_INFEASIBLE
    · right; right; right; left; simp [h1, h2]
      intro h; exact absurd h (by decide)
    · right; right; right; right; simp [h1, h2]

theorem exlude_cases (F : Fullerene) (s : State) (res_faces match_edges : List Nat) :
    exlude_previous_sol F s res_faces match_edges = (Outcome.undefined, s) ∨
    ∃ c, exlude_previous_sol F s res_faces match_edges
      = (Outcome.ok (), { model := s.model.reset.addConstr c, trace := s.trace ++ [Event.cut c] }) := by
  unfold exlude_previous_sol
  cases h1 : record_sol (fun i => s.model.X (GRBVar.f i)) F.dual_n res_faces with
  | none => left; rfl
  | some r1 =>
    obtain ⟨a1, b1⟩ := r1
    cases h2 : record_sol (fun i => s.model.X (GRBVar.e i)) F.num_edges match_edges with
    | none => left; rfl
    | some r2 =>
      obtain ⟨a2, b2⟩ := r2
      right
      exact ⟨_, rfl⟩

/-- What the assessment functions guarantee about a `save_sol` call on OPTIMAL status. -/
theorem save_on_optimal (F : Fullerene) (p : Int) (s : State) (opt_val : Int)
    (hs : s.model.status = GRB_OPTIMAL) (q k : Int) (X : GRBVar → Rat) (new : List Event)
    (hnew : (assess_solve F p s).2.trace = s.trace ++ new ∨
      (assess_rec_solve F p s opt_val).2.trace = s.trace ++ new)
    (hsave : Event.save_sol q k X ∈ new) :
    new = [Event.check_if_sol_valid, Event.save_sol p k s.model.X] ∧
    X = s.model.X ∧ check_if_sol_valid F p X = Except.ok k := by
  have hfin : ∀ k2, check_if_sol_valid F p s.model.X = Except.ok k2 →
      new = [Event.check_if_sol_valid, Event.save_sol p k2 s.model.X] →
      new = [Event.check_if_sol_valid, Event.save_sol p k s.model.X] ∧
      X = s.model.X ∧ check_if_sol_valid F p X = Except.ok k := by
    intro k2 hk2 hn
    rw [hn] at hsave
    simp only [List.mem_cons, List.mem_singleton, List.not_mem_nil, or_false, false_or,
      Event.save_sol.injEq] at hsave
    rcases hsave with h | ⟨-, hk, hX⟩
    · cases h
    rw [hk, hX]
    exact ⟨hn, rfl, hk2⟩
  rcases hnew with hnew | hnew
  · rcases assess_solve_cases F p s with ⟨-, e, -, h⟩ | ⟨-, k2, hk2, h⟩ | ⟨h0, -⟩ | ⟨h0, -⟩
    · rw [h] at hnew
      have := List.append_cancel_left hnew
      rw [← this] at hsave; simp at hsave
    · rw [h] at hnew
      exact hfin k2 hk2 (List.append_cancel_left hnew).symm
    · rw [hs] at h0; exact absurd h0 (by decide)
    · exact absurd hs h0
  · rcases assess_rec_solve_cases F p s opt_val with
      ⟨-, e, -, h⟩ | ⟨-, hk2, h⟩ | ⟨-, k2, -, -, h⟩ | ⟨h0, -⟩ | ⟨h0, -⟩
    · rw [h] at hnew
      have := List.append_cancel_left hnew
      rw [← this] at hsave; simp at hsave
    · rw [h] at hnew
      exact hfin opt_val hk2 (List.append_cancel_left hnew).symm
    · rw [h] at hnew
      have := List.append_cancel_left hnew
      rw [← this] at hsave; simp at hsave
    · rw [hs] at h0; exact absurd h0 (by decide)
    · exact absurd hs h0

/-- Claim C4: a solution that `assess_solve` or `assess_rec_solve` passes to `save_sol`
on an OPTIMAL status covers every vertex exactly once (exactly one of its six incidence
variables exceeds the tolerance), and the call follows a `check_if_sol_valid` that
returned without raising. -/
theorem coverage_invariant (F : Fullerene) (p : Int) (s : State) (opt_val : Int)
    (hs : s.model.status = GRB_OPTIMAL) (q k : Int) (X : GRBVar → Rat) (new : List Event)
    (hnew : (assess_solve F p s).2.trace = s.trace ++ new ∨
      (assess_rec_solve F p s opt_val).2.trace = s.trace ++ new)
    (hsave : Event.save_sol q k X ∈ new) :
    new = [Event.check_if_sol_valid, Event.save_sol p k s.model.X] ∧
    X = s.model.X ∧ check_if_sol_valid F p X = Except.ok k ∧
    ∀ v, v < F.n →
      covered F X v = 1 ∧
      ((cons1 F v).filter (fun y => decide (X y > 99 / 100))).length = 1 := by
  obtain ⟨h1, h2, h3⟩ := save_on_optimal F p s opt_val hs q k X new hnew hsave
  refine ⟨h1, h2, h3, fun v hv => ?_⟩
  have := ((check_ok_iff F p _ _).mp h3).1 v hv
  exact ⟨this, by rw [← covered_eq_count]; exact this⟩

/-- Claim C5: a solution that `assess_solve` or `assess_rec_solve` passes to `save_sol`
on an OPTIMAL status has exactly `p` faces of size 5 whose variable exceeds the
tolerance. -/
theorem pentagon_count_invariant (F : Fullerene) (p : Int) (s : State) (opt_val : Int)
    (hs : s.model.status = GRB_OPTIMAL) (q k : Int) (X : GRBVar → Rat) (new : List Event)
    (hnew : (assess_solve F p s).2.trace = s.trace ++ new ∨
      (assess_rec_solve F p s opt_val).2.trace = s.trace ++ new)
    (hsave : Event.save_sol q k X ∈ new) :
    (((List.range F.dual_n).filter
      (fun i => decide (X (GRBVar.f i) > 99 / 100 ∧ (F.dual i).size = 5))).length : Int) = p := by
  obtain ⟨-, -, hk⟩ := save_on_optimal F p s opt_val hs q k X new hnew hsave
  rw [← resPents_eq]
  exact ((check_ok_iff F p X k).mp hk).2.1

/-! ## Assignments and their supports -/

theorem resFaces_congr (F : Fullerene) (X Y : GRBVar → Rat)
    (h : ∀ k, k < F.dual_n → (X (GRBVar.f k) > 99 / 100 ↔ Y (GRBVar.f k) > 99 / 100)) :
    resFaces F X = resFaces F Y := by
  unfold resFaces
  apply List.filter_congr
  intro k hk
  rw [List.mem_range] at hk
  simp only [decide_eq_decide]
  exact h k hk

theorem matchEdges_congr (F : Fullerene) (X Y : GRBVar → Rat)
    (h : ∀ k, k < F.num_edges → (X (GRBVar.e k) > 99 / 100 ↔ Y (GRBVar.e k) > 99 / 100)) :
    matchEdges F X = matchEdges F Y := by
  unfold matchEdges
  apply List.filter_congr
  intro k hk
  rw [List.mem_range] at hk
  simp only [decide_eq_decide]
  exact h k hk

theorem covered_congr (F : Fullerene) (hR : InRange F) (X Y : GRBVar → Rat)
    (hf : ∀ k, k < F.dual_n → (X (GRBVar.f k) > 99 / 100 ↔ Y (GRBVar.f k) > 99 / 100))
    (he : ∀ k, k < F.num_edges → (X (GRBVar.e k) > 99 / 100 ↔ Y (GRBVar.e k) > 99 / 100))
    (i : Nat) (hi : i < F.n) : covered F X i = covered F Y i := by
  rw [covered_eq_count, covered_eq_count]
  congr 1
  apply List.filter_congr
  intro y hy
  simp only [decide_eq_decide]
  rcases mem_cons1_inRange F hR i hi y hy with ⟨k, hk, rfl⟩ | ⟨k, hk, rfl⟩
  · exact hf k hk
  · exact he k hk

theorem indicator_f_gt (R M : List Nat) (k : Nat) :
    indicator R M (GRBVar.f k) > 99 / 100 ↔ k ∈ R := by
  by_cases h : k ∈ R <;> simp [indicator, h] <;> norm_num

theorem indicator_e_gt (R M : List Nat) (k : Nat) :
    indicator R M (GRBVar.e k) > 99 / 100 ↔ k ∈ M := by
  by_cases h : k ∈ M <;> simp [indicator, h] <;> norm_num

theorem resFaces_indicator_self (F : Fullerene) (X : GRBVar → Rat) :
    resFaces F (indicator (resFaces F X) (matchEdges F X)) = resFaces F X := by
  apply resFaces_congr
  intro k hk
  rw [indicator_f_gt, mem_resFaces]
  exact ⟨fun h => h.2, fun h => ⟨hk, h⟩⟩

theorem matchEdges_indicator_self (F : Fullerene) (X : GRBVar → Rat) :
    matchEdges F (indicator (resFaces F X) (matchEdges F X)) = matchEdges F X := by
  apply matchEdges_congr
  intro k hk
  rw [indicator_e_gt, mem_matchEdges]
  exact ⟨fun h => h.2, fun h => ⟨hk, h⟩⟩

theorem covered_indicator_self (F : Fullerene) (hR : InRange F) (X : GRBVar → Rat)
    (i : Nat) (hi : i < F.n) :
    covered F (indicator (resFaces F X) (matchEdges F X)) i = covered F X i := by
  apply covered_congr F hR _ _ _ _ i hi
  · intro k hk
    rw [indicator_f_gt, mem_resFaces]
    exact ⟨fun h => h.2, fun h => ⟨hk, h⟩⟩
  · intro k hk
    rw [indicator_e_gt, mem_matchEdges]
    exact ⟨fun h => h.2, fun h => ⟨hk, h⟩⟩

theorem baseHolds_indicator_self (F : Fullerene) (hR : InRange F) (p : Int) (X : GRBVar → Rat)
    (hX : Binary X) :
    baseHolds F p (indicator (resFaces F X) (matchEdges F X)) ↔ baseHolds F p X := by
  rw [baseHolds_iff F p _ (binary_indicator _ _), baseHolds_iff F p X hX]
  have e1 : resPents F (indicator (resFaces F X) (matchEdges F X)) = resPents F X := by
    unfold resPents; rw [resFaces_indicator_self]
  rw [e1]
  constructor
  · rintro ⟨h1, h2⟩
    exact ⟨fun i hi => by rw [← covered_indicator_self F hR X i hi]; exact h1 i hi, h2⟩
  · rintro ⟨h1, h2⟩
    exact ⟨fun i hi => by rw [covered_indicator_self F hR X i hi]; exact h1 i hi, h2⟩

theorem filter_mem_of_sublist (R : List Nat) (n : Nat) (h : R.Sublist (List.range n)) :
    (List.range n).filter (fun i => decide (i ∈ R)) = R := by
  have hnd : (List.range n).Nodup := List.nodup_range n
  generalize List.range n = L at h hnd
  induction h with
  | slnil => rfl
  | cons a hsub ih =>
    rename_i l1 l2
    rw [List.nodup_cons] at hnd
    have : a ∉ l1 := fun hm => hnd.1 (hsub.subset hm)
    rw [List.filter_cons]
    simp only [this, decide_False, Bool.false_eq_true, if_false]
    exact ih hnd.2
  | cons₂ a hsub ih =>
    rename_i l1 l2
    rw [List.nodup_cons] at hnd
    rw [List.filter_cons]
    simp only [List.mem_cons, true_or, decide_True, if_true]
    congr 1
    rw [← ih hnd.2]
    apply List.filter_congr
    intro x hx
    have : x ≠ a := fun hxa => hnd.1 (hxa ▸ hx)
    simp [this]
    exact fun _ => hx

theorem resFaces_indicator (F : Fullerene) (R M : List Nat)
    (hR : R.Sublist (List.range F.dual_n)) : resFaces F (indicator R M) = R := by
  rw [← filter_mem_of_sublist R F.dual_n hR]
  unfold resFaces
  apply List.filter_congr
  intro k _
  simp only [decide_eq_decide]
  rw [indicator_f_gt, filter_mem_of_sublist R F.dual_n hR]

theorem matchEdges_indicator (F : Fullerene) (R M : List Nat)
    (hM : M.Sublist (List.range F.num_edges)) : matchEdges F (indicator R M) = M := by
  rw [← filter_mem_of_sublist M F.num_edges hM]
  unfold matchEdges
  apply List.filter_congr
  intro k _
  simp only [decide_eq_decide]
  rw [indicator_e_gt, filter_mem_of_sublist M F.num_edges hM]

theorem mem_candidates (F : Fullerene) (S : List Nat × List Nat) :
    S ∈ candidates F ↔
      S.1.Sublist (List.range F.dual_n) ∧ S.2.Sublist (List.range F.num_edges) := by
  obtain ⟨R, M⟩ := S
  simp [candidates, List.pair_mem_product]

theorem support_mem_candidates (F : Fullerene) (X : GRBVar → Rat) :
    (resFaces F X, matchEdges F X) ∈ candidates F := by
  rw [mem_candidates]
  exact ⟨List.filter_sublist _, List.filter_sublist _⟩

theorem mem_optimalStructs (F : Fullerene) (p k : Int) (S : List Nat × List Nat) :
    S ∈ optimalStructs F p k ↔
      S ∈ candidates F ∧ baseHolds F p (indicator S.1 S.2) ∧ (S.1.length : Int) = k := by
  simp [optimalStructs]

/-! ## Counting incidences: the pre-sizing formula -/

theorem length_filter_range (n : Nat) (P : Nat → Prop) [DecidablePred P] :
    ((List.range n).filter (fun i => decide (P i))).length
      = ∑ i in Finset.range n, if P i then 1 else 0 := by
  induction n with
  | zero => simp
  | succ n ih =>
    rw [List.range_succ, List.filter_append, List.length_append, ih, Finset.sum_range_succ]
    by_cases h : P n <;> simp [h]

theorem incidence_sum (n N : Nat) (slot : Nat → Fin 3 → Nat) (w : Nat → Nat)
    (hin : ∀ i, i < n → ∀ j, slot i j < N) :
    ∑ i in Finset.range n, ∑ j : Fin 3, w (slot i j)
      = ∑ a in Finset.range N,
          w a * ∑ i in Finset.range n, ∑ j : Fin 3, if slot i j = a then 1 else 0 := by
  have h1 : ∀ a, w a * ∑ i in Finset.range n, ∑ j : Fin 3, (if slot i j = a then 1 else 0)
      = ∑ i in Finset.range n, ∑ j : Fin 3, if slot i j = a then w a else 0 := by
    intro a
    rw [Finset.mul_sum]
    apply Finset.sum_congr rfl
    intro i _
    rw [Finset.mul_sum]
    apply Finset.sum_congr rfl
    intro j _
    split_ifs <;> simp
  simp only [h1]
  symm
  rw [Finset.sum_comm]
  apply Finset.sum_congr rfl
  intro i hi
  rw [Finset.sum_comm]
  apply Finset.sum_congr rfl
  intro j _
  have hmem : slot i j ∈ Finset.range N := Finset.mem_range.mpr (hin i (Finset.mem_range.mp hi) j)
  rw [Finset.sum_eq_single (slot i j)]
  · simp
  · intro b _ hb
    simp [Ne.symm hb]
  · intro h; exact absurd hmem h

theorem resPents_length_le (F : Fullerene) (X : GRBVar → Rat) :
    (resPents F X).length ≤ (resFaces F X).length := by
  unfold resPents
  exact List.length_filter_le _ _

theorem vertex_count (F : Fullerene) (hW : WellFormed F) (X : GRBVar → Rat)
    (hc : ∀ i, i < F.n → covered F X i = 1) :
    F.n = 2 * (matchEdges F X).length + 5 * (resPents F X).length
      + 6 * ((resFaces F X).length - (resPents F X).length) := by
  obtain ⟨⟨-, hR⟩, hface, hedge⟩ := hW
  have hsum : ∑ i in Finset.range F.n, covered F X i = F.n := by
    rw [Finset.sum_congr rfl (fun i hi => hc i (Finset.mem_range.mp hi))]
    simp
  have hsplit : ∑ i in Finset.range F.n, covered F X i
      = ∑ i in Finset.range F.n, ∑ j : Fin 3, ind (X (GRBVar.e ((F.primal i).edges j)))
        + ∑ i in Finset.range F.n, ∑ j : Fin 3, ind (X (GRBVar.f ((F.primal i).faces j))) := by
    rw [← Finset.sum_add_distrib]
    apply Finset.sum_congr rfl
    intro i _
    rw [covered_eq, Finset.sum_add_distrib]
  have he := incidence_sum F.n F.num_edges (fun i j => (F.primal i).edges j)
    (fun a => ind (X (GRBVar.e a))) (fun i hi j => (hR i hi j).1)
  have hf := incidence_sum F.n F.dual_n (fun i j => (F.primal i).faces j)
    (fun a => ind (X (GRBVar.f a))) (fun i hi j => (hR i hi j).2)
  simp only at he hf
  have he2 : ∑ a in Finset.range F.num_edges, ind (X (GRBVar.e a))
        * ∑ i in Finset.range F.n, ∑ j : Fin 3, (if (F.primal i).edges j = a then 1 else 0)
      = 2 * (matchEdges F X).length := by
    have : ∀ a ∈ Finset.range F.num_edges, ind (X (GRBVar.e a))
        * ∑ i in Finset.range F.n, ∑ j : Fin 3, (if (F.primal i).edges j = a then 1 else 0)
        = 2 * (if X (GRBVar.e a) > 99 / 100 then 1 else 0) := by
      intro a ha
      have := hedge a (Finset.mem_range.mp ha)
      unfold edgeInc at this
      rw [this]
      unfold ind
      split_ifs <;> simp
    rw [Finset.sum_congr rfl this, ← Finset.mul_sum]
    unfold matchEdges
    rw [length_filter_range]
  have hf2 : ∑ a in Finset.range F.dual_n, ind (X (GRBVar.f a))
        * ∑ i in Finset.range F.n, ∑ j : Fin 3, (if (F.primal i).faces j = a then 1 else 0)
      = 5 * (resPents F X).length + 6 * ((resFaces F X).length - (resPents F X).length) := by
    have : ∀ a ∈ Finset.range F.dual_n, ind (X (GRBVar.f a))
        * ∑ i in Finset.range F.n, ∑ j : Fin 3, (if (F.primal i).faces j = a then 1 else 0)
        = 6 * (if X (GRBVar.f a) > 99 / 100 then 1 else 0)
          - (if (X (GRBVar.f a) > 99 / 100 ∧ (F.dual a).size = 5) then 1 else 0) := by
      intro a ha
      obtain ⟨hs, hinc⟩ := hface a (Finset.mem_range.mp ha)
      unfold faceInc at hinc
      rw [hinc]
      unfold ind
      rcases hs with hs | hs <;> rw [hs] <;> split_ifs <;> simp_all
    rw [Finset.sum_congr rfl this]
    have hle : ∀ a ∈ Finset.range F.dual_n,
        (if (X (GRBVar.f a) > 99 / 100 ∧ (F.dual a).size = 5) then 1 else 0)
          ≤ 6 * (if X (GRBVar.f a) > 99 / 100 then 1 else 0) := by
      intro a _
      split_ifs <;> simp_all
    rw [Finset.sum_tsub_distrib _ hle, ← Finset.mul_sum]
    have e1 := length_filter_range F.dual_n (fun i => X (GRBVar.f i) > 99 / 100)
    have e2 := length_filter_range F.dual_n
      (fun i => X (GRBVar.f i) > 99 / 100 ∧ (F.dual i).size = 5)
    have e3 : (resFaces F X).length
        = ∑ i in Finset.range F.dual_n, if X (GRBVar.f i) > 99 / 100 then 1 else 0 := e1
    have e4 : (resPents F X).length
        = ∑ i in Finset.range F.dual_n,
            if (X (GRBVar.f i) > 99 / 100 ∧ (F.dual i).size = 5) then 1 else 0 := by
      rw [resPents_eq]; exact e2
    rw [← e3, ← e4]
    have := resPents_length_le F X
    omega
  rw [← hsum, hsplit, he, hf, he2, hf2]
  omega

theorem num_match_e_eq (F : Fullerene) (hW : WellFormed F) (p : Int) (X : GRBVar → Rat)
    (hc : ∀ i, i < F.n → covered F X i = 1) (hp : ((resPents F X).length : Int) = p) :
    num_match_e F p ((resFaces F X).length : Int) = ((matchEdges F X).length : Int) := by
  have h := vertex_count F hW X hc
  have hle := resPents_length_le F X
  unfold num_match_e
  rw [← hp]
  have : (F.n : Int) - 5 * ((resPents F X).length : Int)
      - 6 * (((resFaces F X).length : Int) - ((resPents F X).length : Int))
      = 2 * ((matchEdges F X).length : Int) := by
    omega
  rw [this, Int.mul_comm, Int.mul_tdiv_cancel _ (by norm_num : (2:Int) ≠ 0)]

/-! ## Objective and the pinning constraint -/

theorem add_cons_vars (F : Fullerene) (p : Int) (m : GRBModel) :
    (add_cons F p m).vars = m.vars ∧ (add_cons F p m).maximize = m.maximize := by
  have h : ∀ (l : List Nat) (m : GRBModel),
      (l.foldl (fun m i => m.addConstr { lhs := cons1 F i, sense := Sense.eq, rhs := 1 }) m).vars
        = m.vars ∧
      (l.foldl (fun m i => m.addConstr { lhs := cons1 F i, sense := Sense.eq, rhs := 1 })
        m).maximize = m.maximize := by
    intro l
    induction l with
    | nil => intro m; exact ⟨rfl, rfl⟩
    | cons a l ih =>
      intro m
      simp only [List.foldl_cons]
      obtain ⟨h1, h2⟩ := ih (m.addConstr { lhs := cons1 F a, sense := Sense.eq, rhs := 1 })
      exact ⟨h1.trans rfl, h2.trans rfl⟩
  unfold add_cons
  exact ⟨(h _ m).1, (h _ m).2⟩

theorem initial_model_vars (F : Fullerene) (p : Int) :
    (initial_model F p).vars
      = (List.range F.dual_n).map
          (fun i => { var := GRBVar.f i, lb := 0, ub := 1, obj := 1, binary := true })
        ++ (List.range F.num_edges).map
          (fun i => { var := GRBVar.e i, lb := 0, ub := 1, obj := 0, binary := true }) := by
  unfold initial_model
  rw [(add_cons_vars F p _).1, add_vars_vars]
  simp [new_model]

theorem initial_model_maximize (F : Fullerene) (p : Int) :
    (initial_model F p).maximize = true := by
  unfold initial_model
  rw [(add_cons_vars F p _).2]
  unfold add_vars
  simp only []
  rw [(foldl_addVar_constrs _ _ _ _ _ _ _).2.1, (foldl_addVar_constrs _ _ _ _ _ _ _).2.1]
  rfl

theorem objective_eq (F : Fullerene) (p : Int) (m : GRBModel)
    (hv : m.vars = (initial_model F p).vars) (X : GRBVar → Rat) (hX : Binary X) :
    m.objective X = ((resFaces F X).length : Rat) := by
  unfold GRBModel.objective
  rw [hv, initial_model_vars]
  simp only [List.map_append, List.map_map, List.sum_append]
  have h1 : (List.map ((fun d : VarDecl => d.obj * X d.var) ∘
      fun i => { var := GRBVar.f i, lb := 0, ub := 1, obj := 1, binary := true })
      (List.range F.dual_n)) = ((List.range F.dual_n).map GRBVar.f).map X := by
    simp [List.map_map, Function.comp_def]
  have h2 : (List.map ((fun d : VarDecl => d.obj * X d.var) ∘
      fun i => { var := GRBVar.e i, lb := 0, ub := 1, obj := 0, binary := true })
      (List.range F.num_edges)) = (List.range F.num_edges).map (fun _ => (0 : Rat)) := by
    simp [Function.comp_def]
  rw [h1, h2, sum_map_binary X hX]
  simp [resFaces]

theorem foldl_snoc_map (g : Nat → GRBVar) (l : List Nat) (init : List GRBVar) :
    l.foldl (fun acc f => acc ++ [g f]) init = init ++ l.map g := by
  induction l generalizing init with
  | nil => simp
  | cons a l ih => simp [ih]

/-- The constraint added by `add_Clar_num_cons`. -/
theorem add_Clar_eq (F : Fullerene) (opt_val : Int) (s : State) :
    add_Clar_num_cons F opt_val s
      = { model := s.model.addConstr
            { lhs := (List.range F.dual_n).map GRBVar.f, sense := Sense.eq, rhs := (opt_val : Rat) },
          trace := s.trace ++ [Event.add_Clar_num_cons
            { lhs := (List.range F.dual_n).map GRBVar.f, sense := Sense.eq,
              rhs := (opt_val : Rat) }] } := by
  unfold add_Clar_num_cons
  simp [foldl_snoc_map]

theorem clar_holds (F : Fullerene) (opt_val : Int) (X : GRBVar → Rat) (hX : Binary X) :
    ({ lhs := (List.range F.dual_n).map GRBVar.f, sense := Sense.eq,
       rhs := (opt_val : Rat) } : GRBConstr).holds X
      ↔ ((resFaces F X).length : Int) = opt_val := by
  simp only [GRBConstr.holds, GRBConstr.value]
  rw [sum_map_binary X hX]
  constructor
  · intro h
    have : (((resFaces F X).length : Int) : Rat) = (opt_val : Rat) := by
      rw [← h]; simp [resFaces]
    exact_mod_cast this
  · intro h
    rw [← h]; simp [resFaces]

/-! ## Traces -/

theorem savedPairs_append (F : Fullerene) (t l : List Event) :
    savedPairs F (t ++ l) = savedPairs F t ++ savedPairs F l := by
  induction t with
  | nil => rfl
  | cons a t ih => cases a <;> simp [savedPairs, ih]

theorem optimizedModels_append (t l : List Event) :
    optimizedModels (t ++ l) = optimizedModels t ++ optimizedModels l := by
  induction t with
  | nil => rfl
  | cons a t ih => cases a <;> simp [optimizedModels, ih]

theorem cutsOf_append (t l : List Event) : cutsOf (t ++ l) = cutsOf t ++ cutsOf l := by
  induction t with
  | nil => rfl
  | cons a t ih => cases a <;> simp [cutsOf, ih]

theorem excludedByCut_append (X : GRBVar → Rat) (t l : List Event)
    (h : ExcludedByCut X t) : ExcludedByCut X (t ++ l) := by
  induction t with
  | nil => exact absurd h id
  | cons a t ih => cases a <;> simp_all [ExcludedByCut]

theorem allExcludedByCut_append (t l : List Event)
    (h1 : AllExcludedByCut t) (h2 : AllExcludedByCut l) : AllExcludedByCut (t ++ l) := by
  induction t with
  | nil => exact h2
  | cons a t ih =>
    cases a <;> simp_all [AllExcludedByCut]
    exact excludedByCut_append _ _ _ h1.1

theorem excludedNext_of_byCut (X : GRBVar → Rat) (t : List Event)
    (h : ExcludedByCut X t) : ExcludedNext X t := by
  induction t with
  | nil => trivial
  | cons a t ih => cases a <;> simp_all [ExcludedByCut, ExcludedNext]

theorem allExcluded_of_byCut (t : List Event) (h : AllExcludedByCut t) : AllExcluded t := by
  induction t with
  | nil => trivial
  | cons a t ih =>
    cases a <;> simp_all [AllExcludedByCut, AllExcluded]
    exact excludedNext_of_byCut _ _ h.1

theorem cutsRespected_append (cuts : List GRBConstr) (t l : List Event) :
    CutsRespected cuts (t ++ l)
      ↔ CutsRespected cuts t ∧ CutsRespected ((cutsOf t).reverse ++ cuts) l := by
  induction t generalizing cuts with
  | nil => simp [CutsRespected, cutsOf]
  | cons a t ih =>
    cases a <;> simp [CutsRespected, cutsOf, ih, and_assoc]

/-! ## One iteration of the enumeration loop -/

theorem wellFormed_allIncident (F : Fullerene) (hW : WellFormed F) : AllIncident F := by
  obtain ⟨-, hface, hedge⟩ := hW
  constructor
  · intro f hf
    obtain ⟨hs, hinc⟩ := hface f hf
    by_contra hcon
    push_neg at hcon
    have : faceInc F f = 0 := by
      unfold faceInc
      apply Finset.sum_eq_zero
      intro i hi
      apply Finset.sum_eq_zero
      intro j _
      rw [if_neg (hcon i (Finset.mem_range.mp hi) j)]
    rcases hs with hs | hs <;> omega
  · intro e he
    have hinc := hedge e he
    by_contra hcon
    push_neg at hcon
    have : edgeInc F e = 0 := by
      unfold edgeInc
      apply Finset.sum_eq_zero
      intro i hi
      apply Finset.sum_eq_zero
      intro j _
      rw [if_neg (hcon i (Finset.mem_range.mp hi) j)]
    omega

theorem support_eq_of_contains (F : Fullerene) (hW : WellFormed F)
    (A B : GRBVar → Rat) (hA : Binary A) (hB : Binary B)
    (hcA : ∀ i, i < F.n → covered F A i = 1) (hcB : ∀ i, i < F.n → covered F B i = 1)
    (hcont : Contains F A B) :
    (resFaces F A, matchEdges F A) = (resFaces F B, matchEdges F B) := by
  have hag := agree_of_contains F hW.1.2 (wellFormed_allIncident F hW) A B hA hB hcA hcB hcont
  have e1 : resFaces F A = resFaces F B :=
    resFaces_congr F A B (fun k hk => by rw [hag.1 k hk])
  have e2 : matchEdges F A = matchEdges F B :=
    matchEdges_congr F A B (fun k hk => by rw [hag.2 k hk])
  rw [e1, e2]

theorem contains_of_support_eq (F : Fullerene) (A B : GRBVar → Rat)
    (h : (resFaces F A, matchEdges F A) = (resFaces F B, matchEdges F B)) : Contains F A B := by
  have h1 : resFaces F A = resFaces F B := congrArg Prod.fst h
  have h2 : matchEdges F A = matchEdges F B := congrArg Prod.snd h
  constructor
  · intro k hk
    rw [h1, mem_resFaces] at hk
    exact hk.2
  · intro k hk
    rw [h2, mem_matchEdges] at hk
    exact hk.2

/-- Among the assignments that satisfy the constraints of `add_cons`, the cut of `A`
removes exactly the assignments with the support of `A`. -/
theorem cut_holds_iff (F : Fullerene) (hW : WellFormed F) (p : Int)
    (A B : GRBVar → Rat) (hA : Binary A) (hB : Binary B)
    (hbA : baseHolds F p A) (hbB : baseHolds F p B)
    (h1 : 1 ≤ (resFaces F A).length + (matchEdges F A).length) :
    (noGoodCut F A).holds B
      ↔ (resFaces F B, matchEdges F B) ≠ (resFaces F A, matchEdges F A) := by
  have hcA := ((baseHolds_iff F p A hA).mp hbA).1
  have hcB := ((baseHolds_iff F p B hB).mp hbB).1
  have hv := cut_violated_iff F hW.1.1 A B hB h1
  constructor
  · intro hh heq
    exact (hv.mpr (contains_of_support_eq F A B heq.symm)) hh
  · intro hne
    by_contra hh
    exact hne (support_eq_of_contains F hW A B hA hB hcA hcB (hv.mp hh)).symm

theorem feasCount_lt (F : Fullerene) (m m2 : GRBModel) (c : GRBConstr)
    (hsub : ∀ d ∈ m.constrs, d ∈ m2.constrs) (hc : c ∈ m2.constrs)
    (S : List Nat × List Nat) (hS : S ∈ candidates F)
    (hin : ∀ d ∈ m.constrs, d.holds (indicator S.1 S.2))
    (hout : ¬ c.holds (indicator S.1 S.2)) :
    feasCount F m2 < feasCount F m := by
  unfold feasCount
  have hsub2 : (candidates F).filter
        (fun S => decide (∀ d ∈ m2.constrs, d.holds (indicator S.1 S.2)))
      = ((candidates F).filter
          (fun S => decide (∀ d ∈ m.constrs, d.holds (indicator S.1 S.2)))).filter
          (fun S => decide (∀ d ∈ m2.constrs, d.holds (indicator S.1 S.2))) := by
    rw [List.filter_filter]
    apply List.filter_congr
    intro T _
    rw [← Bool.decide_and]
    apply decide_eq_decide.mpr
    constructor
    · intro h
      exact ⟨h, fun d hd => h d (hsub d hd)⟩
    · rintro ⟨h, -⟩
      exact h
  rw [hsub2, List.length_filter_lt_length_iff_exists]
  refine ⟨S, ?_, ?_⟩
  · rw [List.mem_filter]
    exact ⟨hS, by simpa using hin⟩
  · simp only [decide_eq_true_eq]
    intro h
    exact hout (h c hc)

theorem loop_step_stop (O : Oracle) (F : Fullerene) (p v : Int) (rf me : List Nat)
    (hO : OracleContract O) (hv : 1 ≤ v) (s : State) (found : List (List Nat × List Nat))
    (hI : LoopInv O F p v s found) (hno : ¬ ∃ Y, s.model.feasible Y) (fuel : Nat) :
    solve_loop O F p v rf me (fuel + 1) s = some (Outcome.ok (), optimize O s) ∧
    (O s.model).1 = GRB_INFEASIBLE := by
  have hst := (hO s.model hI.maximize).2 hno
  refine ⟨?_, hst⟩
  have hne : (0 : Int) ≠ v := by omega
  have ha : assess_rec_solve F p (optimize O s) v = (Outcome.ok 0, optimize O s) := by
    unfold assess_rec_solve
    simp [optimize, hst, GRB_INFEASIBLE, GRB_OPTIMAL]
  simp only [solve_loop, ha, hne, if_false]

theorem feasible_facts (O : Oracle) (F : Fullerene) (p v : Int)
    (s : State) (found : List (List Nat × List Nat))
    (hI : LoopInv O F p v s found) (X : GRBVar → Rat) (hX : s.model.feasible X) :
    Binary X ∧ baseHolds F p X ∧ ((resFaces F X).length : Int) = v ∧
    (resFaces F X, matchEdges F X) ∉ found ∧
    (∀ i, i < F.n → covered F X i = 1) ∧ ((resPents F X).length : Int) = p ∧
    check_if_sol_valid F p X = Except.ok v := by
  obtain ⟨hb, hc, hn⟩ := (hI.constrs X hX.1).mp hX.2
  obtain ⟨h1, h2⟩ := (baseHolds_iff F p X hX.1).mp hb
  exact ⟨hX.1, hb, hc, hn, h1, h2, (check_ok_iff F p X v).mpr ⟨h1, h2, hc.symm⟩⟩

theorem loop_step_record (O : Oracle) (F : Fullerene) (p v : Int) (rf me : List Nat)
    (hO : OracleContract O) (hW : WellFormed F)
    (hrf : (rf.length : Int) = v) (hme : (me.length : Int) = num_match_e F p v)
    (s : State) (found : List (List Nat × List Nat))
    (hI : LoopInv O F p v s found) (hex : ∃ Y, s.model.feasible Y) (fuel : Nat) :
    solve_loop O F p v rf me (fuel + 1) s
      = solve_loop O F p v rf me fuel (nextState F p v O s) := by
  obtain ⟨hst, hfeas, -⟩ := (hO s.model hI.maximize).1 hex
  obtain ⟨hbin, hb, hc, hn, hcov, hpent, hcheck⟩ := feasible_facts O F p v s found hI _ hfeas
  have ha : assess_rec_solve F p (optimize O s) v
      = (Outcome.ok v,
          { model := (optimize O s).model,
            trace := s.trace ++ [Event.optimize s.model] ++
              [Event.check_if_sol_valid, Event.save_sol p v (O s.model).2] }) := by
    unfold assess_rec_solve
    simp [optimize, hst, hcheck, State.log]
  have hlen1 : rf.length = (resFaces F (O s.model).2).length := by
    have : (rf.length : Int) = ((resFaces F (O s.model).2).length : Int) := by rw [hrf, hc]
    exact_mod_cast this
  have hlen2 : me.length = (matchEdges F (O s.model).2).length := by
    have h := num_match_e_eq F hW p (O s.model).2 hcov hpent
    rw [hc] at h
    have : (me.length : Int) = ((matchEdges F (O s.model).2).length : Int) := by rw [hme, h]
    exact_mod_cast this
  have he := exlude_exact F
    { model := (optimize O s).model,
      trace := s.trace ++ [Event.optimize s.model] ++
        [Event.check_if_sol_valid, Event.save_sol p v (O s.model).2] } rf me hlen1 hlen2
  simp only [solve_loop, ha, if_true]
  rw [he]
  simp only []
  congr 1
  simp [nextState, optimize]

theorem nextState_inv (O : Oracle) (F : Fullerene) (p v : Int)
    (hO : OracleContract O) (hW : WellFormed F) (hv : 1 ≤ v)
    (s : State) (found : List (List Nat × List Nat))
    (hI : LoopInv O F p v s found) (hex : ∃ Y, s.model.feasible Y) :
    LoopInv O F p v (nextState F p v O s)
      (found ++ [(resFaces F (O s.model).2, matchEdges F (O s.model).2)]) := by
  obtain ⟨hst, hfeas, -⟩ := (hO s.model hI.maximize).1 hex
  obtain ⟨hbin, hb, hc, hn, hcov, hpent, hcheck⟩ := feasible_facts O F p v s found hI _ hfeas
  have h1 : 1 ≤ (resFaces F (O s.model).2).length + (matchEdges F (O s.model).2).length := by
    have : (1 : Int) ≤ ((resFaces F (O s.model).2).length : Int) := by rw [hc]; exact hv
    omega
  have hcs : (nextState F p v O s).model.constrs
      = s.model.constrs ++ [noGoodCut F (O s.model).2] := rfl
  have htr : (nextState F p v O s).trace
      = s.trace ++ [Event.optimize s.model, Event.check_if_sol_valid,
          Event.save_sol p v (O s.model).2, Event.cut (noGoodCut F (O s.model).2)] := rfl
  have hself : ¬ (noGoodCut F (O s.model).2).holds (O s.model).2 :=
    (cut_violated_iff F hW.1.1 _ _ hbin h1).mpr (contains_of_support_eq F _ _ rfl)
  have hind_in : ∀ d ∈ s.model.constrs,
      d.holds (indicator (resFaces F (O s.model).2) (matchEdges F (O s.model).2)) := by
    apply (hI.constrs _ (binary_indicator _ _)).mpr
    refine ⟨(baseHolds_indicator_self F hW.1.2 p _ hbin).mpr hb, ?_, ?_⟩
    · rw [resFaces_indicator_self]; exact hc
    · rw [resFaces_indicator_self, matchEdges_indicator_self]; exact hn
  have hind_out : ¬ (noGoodCut F (O s.model).2).holds
      (indicator (resFaces F (O s.model).2) (matchEdges F (O s.model).2)) := by
    apply (cut_violated_iff F hW.1.1 _ _ (binary_indicator _ _) h1).mpr
    apply contains_of_support_eq
    rw [resFaces_indicator_self, matchEdges_indicator_self]
  refine
    { maximize := hI.maximize
      vars := hI.vars
      constrs := ?_
      saved := ?_
      nodup := ?_
      optimal := ?_
      excluded := ?_
      respected := ?_
      cuts_in := ?_
      chain := ?_
      last := ?_
      count := ?_ }
  · intro Y hY
    rw [hcs]
    constructor
    · intro h
      have hold : ∀ c ∈ s.model.constrs, c.holds Y := fun c hc => h c (by simp [hc])
      have hcut : (noGoodCut F (O s.model).2).holds Y := h _ (by simp)
      obtain ⟨hbY, hcY, hnY⟩ := (hI.constrs Y hY).mp hold
      refine ⟨hbY, hcY, ?_⟩
      have := (cut_holds_iff F hW p _ Y hbin hY hb hbY h1).mp hcut
      simp only [List.mem_append, List.mem_singleton, not_or]
      exact ⟨hnY, this⟩
    · rintro ⟨hbY, hcY, hnY⟩ c hc
      simp only [List.mem_append, List.mem_singleton, not_or] at hnY
      rcases List.mem_append.mp hc with hc | hc
      · exact (hI.constrs Y hY).mpr ⟨hbY, hcY, hnY.1⟩ c hc
      · rw [List.mem_singleton.mp hc]
        exact (cut_holds_iff F hW p _ Y hbin hY hb hbY h1).mpr hnY.2
  · rw [htr, savedPairs_append, hI.saved]
    rfl
  · rw [List.nodup_append]
    refine ⟨hI.nodup, List.nodup_singleton _, ?_⟩
    intro a ha hb
    rw [List.mem_singleton] at hb
    exact hn (hb ▸ ha)
  · intro S hS
    rcases List.mem_append.mp hS with hS | hS
    · exact hI.optimal S hS
    · rw [List.mem_singleton.mp hS, mem_optimalStructs]
      exact ⟨support_mem_candidates F _, (baseHolds_indicator_self F hW.1.2 p _ hbin).mpr hb, hc⟩
  · rw [htr]
    apply allExcludedByCut_append _ _ hI.excluded
    simp only [AllExcludedByCut, ExcludedByCut, and_true]
    exact hself
  · rw [htr, cutsRespected_append]
    refine ⟨hI.respected, ?_⟩
    simp only [CutsRespected, and_true, List.append_nil]
    intro c hc
    exact hfeas.2 c (hI.cuts_in c (List.mem_reverse.mp hc))
  · intro c hc
    rw [htr, cutsOf_append] at hc
    rw [hcs]
    rcases List.mem_append.mp hc with hc | hc
    · exact List.mem_append_left _ (hI.cuts_in c hc)
    · simp only [cutsOf, List.mem_singleton] at hc
      rw [hc]; simp
  · rw [htr, optimizedModels_append]
    apply List.Chain'.append hI.chain (List.chain'_singleton _)
    intro x hx y hy
    simp only [optimizedModels, List.head?_cons, Option.mem_def, Option.some.injEq] at hy
    rw [← hy]
    exact hI.last x hx
  · intro m hm
    rw [htr, optimizedModels_append] at hm
    simp only [optimizedModels, List.getLast?_append, List.getLast?_singleton,
      Option.mem_def] at hm
    have hm2 : s.model = m := by
      simpa [Option.or] using hm
    rw [← hm2]
    refine ⟨feasCount_lt F s.model _ (noGoodCut F (O s.model).2)
        (fun d hd => by rw [hcs]; simp [hd]) (by rw [hcs]; simp) _
        (support_mem_candidates F _) hind_in hind_out,
      hfeas, ?_⟩
    intro hf
    exact hself (hf.2 _ (by rw [hcs]; simp))
  · rw [htr, optimizedModels_append, List.length_append, List.length_append, hI.count]
    rfl

/-! ## The enumeration loop -/

theorem optimalStructs_nodup (F : Fullerene) (p k : Int) : (optimalStructs F p k).Nodup := by
  unfold optimalStructs candidates
  apply List.Nodup.filter
  exact List.Nodup.product (List.nodup_sublists.mpr (List.nodup_range _))
    (List.nodup_sublists.mpr (List.nodup_range _))

theorem found_length_le (O : Oracle) (F : Fullerene) (p v : Int) (s : State)
    (found : List (List Nat × List Nat)) (hI : LoopInv O F p v s found) :
    found.length ≤ (optimalStructs F p v).length :=
  (List.subperm_of_subset hI.nodup (fun S hS => hI.optimal S hS)).length_le

theorem loop_done_of_stop (O : Oracle) (F : Fullerene) (p v : Int)
    (hO : OracleContract O)
    (s : State) (found : List (List Nat × List Nat))
    (hI : LoopInv O F p v s found) (hno : ¬ ∃ Y, s.model.feasible Y) :
    LoopDone O F p v (optimize O s) := by
  have htr : (optimize O s).trace = s.trace ++ [Event.optimize s.model] := rfl
  have hsaved : savedPairs F (optimize O s).trace = found := by
    rw [htr, savedPairs_append, hI.saved]; simp [savedPairs]
  have hiff : ∀ S, S ∈ found ↔ S ∈ optimalStructs F p v := by
    intro S
    constructor
    · exact hI.optimal S
    · intro hS
      by_contra hnot
      rw [mem_optimalStructs] at hS
      obtain ⟨hcand, hb, hlen⟩ := hS
      rw [mem_candidates] at hcand
      apply hno
      refine ⟨indicator S.1 S.2, binary_indicator _ _, ?_⟩
      apply (hI.constrs _ (binary_indicator _ _)).mpr
      refine ⟨hb, ?_, ?_⟩
      · rw [resFaces_indicator F _ _ hcand.1]; exact hlen
      · rw [resFaces_indicator F _ _ hcand.1, matchEdges_indicator F _ _ hcand.2]
        exact hnot
  have hlen : found.length = (optimalStructs F p v).length :=
    ((List.perm_ext_iff_of_nodup hI.nodup (optimalStructs_nodup F p v)).mpr hiff).length_eq
  refine
    { saved_nodup := by rw [hsaved]; exact hI.nodup
      saved_iff := by rw [hsaved]; exact hiff
      excluded := ?_
      respected := ?_
      chain := ?_
      count := ?_
      status := (hO s.model hI.maximize).2 hno
      last_event := ⟨s.trace, s.model, rfl, rfl⟩ }
  · rw [htr]
    exact allExcludedByCut_append _ _ hI.excluded (by simp [AllExcludedByCut])
  · rw [htr, cutsRespected_append]
    exact ⟨hI.respected, by simp [CutsRespected]⟩
  · rw [htr, optimizedModels_append]
    apply List.Chain'.append hI.chain (List.chain'_singleton _)
    intro x hx y hy
    simp only [optimizedModels, List.head?_cons, Option.mem_def, Option.some.injEq] at hy
    rw [← hy]
    exact hI.last x hx
  · rw [htr, optimizedModels_append, List.length_append, hI.count, hlen]
    rfl

/-- From a loop-head state the loop returns once the fuel exceeds the number of optimal
structures still to be found, and whenever it returns it has found all of them. -/
theorem solve_loop_correct (O : Oracle) (F : Fullerene) (p v : Int) (rf me : List Nat)
    (hO : OracleContract O) (hW : WellFormed F) (hv : 1 ≤ v)
    (hrf : (rf.length : Int) = v) (hme : (me.length : Int) = num_match_e F p v)
    (fuel : Nat) :
    ∀ (s : State) (found : List (List Nat × List Nat)), LoopInv O F p v s found →
      (∀ r, solve_loop O F p v rf me fuel s = some r →
        r.1 = Outcome.ok () ∧ LoopDone O F p v r.2) ∧
      ((optimalStructs F p v).length < fuel + found.length →
        ∃ r, solve_loop O F p v rf me fuel s = some r) := by
  induction fuel with
  | zero =>
    intro s found hI
    constructor
    · intro r hr
      simp [solve_loop] at hr
    · intro hlt
      have := found_length_le O F p v s found hI
      omega
  | succ fuel ih =>
    intro s found hI
    by_cases hex : ∃ Y, s.model.feasible Y
    · have hstep := loop_step_record O F p v rf me hO hW hrf hme s found hI hex fuel
      have hI2 := nextState_inv O F p v hO hW hv s found hI hex
      obtain ⟨ih1, ih2⟩ := ih _ _ hI2
      rw [hstep]
      refine ⟨ih1, fun hlt => ih2 ?_⟩
      rw [List.length_append, List.length_singleton]
      omega
    · obtain ⟨hstop, -⟩ := loop_step_stop O F p v rf me hO hv s found hI hex fuel
      rw [hstop]
      constructor
      · intro r hr
        injection hr with hr
        rw [← hr]
        exact ⟨rfl, loop_done_of_stop O F p v hO s found hI hex⟩
      · intro _
        exact ⟨_, rfl⟩

/-! ## The first solve and the entry into the enumeration -/

theorem first_facts (O : Oracle) (F : Fullerene) (p : Int) (hO : OracleContract O)
    (hex : ∃ Y, (initial_model F p).feasible Y) :
    (O (initial_model F p)).1 = GRB_OPTIMAL ∧
    Binary (O (initial_model F p)).2 ∧ baseHolds F p (O (initial_model F p)).2 ∧
    (∀ i, i < F.n → covered F (O (initial_model F p)).2 i = 1) ∧
    ((resPents F (O (initial_model F p)).2).length : Int) = p ∧
    check_if_sol_valid F p (O (initial_model F p)).2
      = Except.ok ((resFaces F (O (initial_model F p)).2).length : Int) ∧
    (∀ Y, Binary Y → baseHolds F p Y →
      (resFaces F Y).length ≤ (resFaces F (O (initial_model F p)).2).length) := by
  obtain ⟨hst, hfeas, hmax⟩ := (hO _ (initial_model_maximize F p)).1 hex
  obtain ⟨h1, h2⟩ := (baseHolds_iff F p _ hfeas.1).mp hfeas.2
  refine ⟨hst, hfeas.1, hfeas.2, h1, h2, (check_ok_iff F p _ _).mpr ⟨h1, h2, rfl⟩, ?_⟩
  intro Y hY hbY
  have := hmax Y ⟨hY, hbY⟩
  rw [objective_eq F p _ rfl Y hY, objective_eq F p _ rfl _ hfeas.1] at this
  exact_mod_cast this

theorem assess_first (O : Oracle) (F : Fullerene) (p : Int) (hO : OracleContract O)
    (hex : ∃ Y, (initial_model F p).feasible Y) :
    assess_solve F p (firstState F p O)
      = (Outcome.ok ((resFaces F (O (initial_model F p)).2).length : Int),
          { model := (firstState F p O).model,
            trace := [Event.optimize (initial_model F p), Event.check_if_sol_valid,
              Event.save_sol p ((resFaces F (O (initial_model F p)).2).length : Int)
                (O (initial_model F p)).2] }) := by
  obtain ⟨hst, -, -, -, -, hcheck, -⟩ := first_facts O F p hO hex
  unfold assess_solve
  simp [firstState, optimize, hst, hcheck, State.log]

theorem assess_first_infeasible (O : Oracle) (F : Fullerene) (p : Int) (hO : OracleContract O)
    (hno : ¬ ∃ Y, (initial_model F p).feasible Y) :
    assess_solve F p (firstState F p O)
      = (Outcome.ok 0,
          { model := (firstState F p O).model,
            trace := [Event.optimize (initial_model F p),
              Event.save_sol p 0 (O (initial_model F p)).2] }) := by
  have hst := (hO _ (initial_model_maximize F p)).2 hno
  unfold assess_solve
  simp [firstState, optimize, hst, State.log, GRB_INFEASIBLE, GRB_OPTIMAL]

theorem solve_all_entry (O : Oracle) (F : Fullerene) (p : Int) (hO : OracleContract O)
    (hW : WellFormed F) (hex : ∃ Y, (initial_model F p).feasible Y) (v : Int)
    (hv : v = ((resFaces F (O (initial_model F p)).2).length : Int)) (fuel : Nat) :
    solve_all_structs O F p
        { model := (firstState F p O).model,
          trace := [Event.optimize (initial_model F p), Event.check_if_sol_valid,
            Event.save_sol p v (O (initial_model F p)).2] } v fuel
      = match solve_loop O F p v (List.replicate v.toNat 0)
            (List.replicate (num_match_e F p v).toNat 0) fuel (enumState F p v O) with
        | none => none
        | some (Outcome.ok (), s3) => some (Outcome.ok v, s3)
        | some (Outcome.thrown e, s3) => some (Outcome.thrown e, s3)
        | some (Outcome.undefined, s3) => some (Outcome.undefined, s3) := by
  obtain ⟨hst, hbin, hb, hcov, hpent, hcheck, -⟩ := first_facts O F p hO hex
  have hnm := num_match_e_eq F hW p _ hcov hpent
  rw [← hv] at hnm
  have hguard : ¬ (v < 0 ∨ num_match_e F p v < 0) := by
    rw [hnm, hv]; omega
  have hX : (firstState F p O).model.X = (O (initial_model F p)).2 := rfl
  have he := exlude_exact F
    { model := (firstState F p O).model,
      trace := [Event.optimize (initial_model F p), Event.check_if_sol_valid,
        Event.save_sol p v (O (initial_model F p)).2] ++ [Event.solve_all_structs] }
    (List.replicate v.toNat 0) (List.replicate (num_match_e F p v).toNat 0)
    (by simp only [hX, List.length_replicate]; rw [hv]; simp)
    (by simp only [hX, List.length_replicate]; rw [hnm]; simp)
  unfold solve_all_structs
  simp only [hguard, if_false, State.log]
  rw [he]
  simp only [add_Clar_eq]
  rfl

theorem enumState_inv (O : Oracle) (F : Fullerene) (p : Int) (hO : OracleContract O)
    (hW : WellFormed F) (hex : ∃ Y, (initial_model F p).feasible Y) (v : Int)
    (hv : v = ((resFaces F (O (initial_model F p)).2).length : Int)) (h1v : 1 ≤ v) :
    LoopInv O F p v (enumState F p v O)
      [(resFaces F (O (initial_model F p)).2, matchEdges F (O (initial_model F p)).2)] := by
  obtain ⟨hst, hbin, hb, hcov, hpent, hcheck, -⟩ := first_facts O F p hO hex
  obtain ⟨-, hfeas, -⟩ := (hO _ (initial_model_maximize F p)).1 hex
  have h1 : 1 ≤ (resFaces F (O (initial_model F p)).2).length
      + (matchEdges F (O (initial_model F p)).2).length := by omega
  have hcs : (enumState F p v O).model.constrs
      = (initial_model F p).constrs ++ [noGoodCut F (O (initial_model F p)).2]
          ++ [clarConstr F v] := rfl
  have hself : ¬ (noGoodCut F (O (initial_model F p)).2).holds (O (initial_model F p)).2 :=
    (cut_violated_iff F hW.1.1 _ _ hbin h1).mpr (contains_of_support_eq F _ _ rfl)
  have hind_in : ∀ d ∈ (initial_model F p).constrs,
      d.holds (indicator (resFaces F (O (initial_model F p)).2)
        (matchEdges F (O (initial_model F p)).2)) :=
    (baseHolds_indicator_self F hW.1.2 p _ hbin).mpr hb
  have hind_out : ¬ (noGoodCut F (O (initial_model F p)).2).holds
      (indicator (resFaces F (O (initial_model F p)).2)
        (matchEdges F (O (initial_model F p)).2)) := by
    apply (cut_violated_iff F hW.1.1 _ _ (binary_indicator _ _) h1).mpr
    apply contains_of_support_eq
    rw [resFaces_indicator_self, matchEdges_indicator_self]
  refine
    { maximize := initial_model_maximize F p
      vars := rfl
      constrs := ?_
      saved := rfl
      nodup := List.nodup_singleton _
      optimal := ?_
      excluded := ?_
      respected := ?_
      cuts_in := ?_
      chain := ?_
      last := ?_
      count := rfl }
  · intro Y hY
    rw [hcs]
    constructor
    · intro h
      have hbY : baseHolds F p Y := fun c hc => h c (by simp [hc])
      have hcut : (noGoodCut F (O (initial_model F p)).2).holds Y := h _ (by simp)
      have hcl : (clarConstr F v).holds Y := h _ (by simp)
      refine ⟨hbY, (clar_holds F v Y hY).mp hcl, ?_⟩
      have := (cut_holds_iff F hW p _ Y hbin hY hb hbY h1).mp hcut
      simpa using this
    · rintro ⟨hbY, hcY, hnY⟩ c hc
      simp only [List.mem_singleton] at hnY
      simp only [List.mem_append, List.mem_singleton] at hc
      rcases hc with (hc | hc) | hc
      · exact hbY c hc
      · rw [hc]
        exact (cut_holds_iff F hW p _ Y hbin hY hb hbY h1).mpr hnY
      · rw [hc]
        exact (clar_holds F v Y hY).mpr hcY
  · intro S hS
    rw [List.mem_singleton.mp hS, mem_optimalStructs]
    exact ⟨support_mem_candidates F _, hind_in, hv.symm⟩
  · simp only [enumState, AllExcludedByCut, ExcludedByCut, and_true]
    exact hself
  · simp [enumState, CutsRespected]
  · intro c hc
    simp only [enumState, cutsOf, List.mem_singleton] at hc
    rw [hcs, hc]; simp
  · simp [enumState, optimizedModels]
  · intro m hm
    have hm2 : initial_model F p = m := by
      simpa [enumState, optimizedModels] using hm
    rw [← hm2]
    refine ⟨feasCount_lt F _ _ (noGoodCut F (O (initial_model F p)).2)
        (fun d hd => by rw [hcs]; simp [hd]) (by rw [hcs]; simp) _
        (support_mem_candidates F _) hind_in hind_out, hfeas, ?_⟩
    intro hf
    exact hself (hf.2 _ (by rw [hcs]; simp))

/-! ## The whole run -/

theorem run_infeasible (O : Oracle) (F : Fullerene) (p : Int) (hO : OracleContract O)
    (hno : ¬ ∃ Y, (initial_model F p).feasible Y) (fuel : Nat) :
    p_anionic_clar_lp O F p fuel
      = some (Outcome.ok 0,
          { model := (firstState F p O).model,
            trace := [Event.optimize (initial_model F p),
              Event.save_sol p 0 (O (initial_model F p)).2] }) := by
  have h := assess_first_infeasible O F p hO hno
  unfold firstState at h
  unfold p_anionic_clar_lp
  simp only [h]
  simp
  rfl

theorem run_zero (O : Oracle) (F : Fullerene) (p : Int) (hO : OracleContract O)
    (hex : ∃ Y, (initial_model F p).feasible Y)
    (hv : ((resFaces F (O (initial_model F p)).2).length : Int) < 1) (fuel : Nat) :
    p_anionic_clar_lp O F p fuel
      = some (Outcome.ok 0,
          { model := (firstState F p O).model,
            trace := [Event.optimize (initial_model F p), Event.check_if_sol_valid,
              Event.save_sol p ((resFaces F (O (initial_model F p)).2).length : Int)
                (O (initial_model F p)).2] }) := by
  have h := assess_first O F p hO hex
  unfold firstState at h
  unfold p_anionic_clar_lp
  simp only [h]
  simp only [hv, if_true]
  rfl

theorem run_enum (O : Oracle) (F : Fullerene) (p : Int) (hO : OracleContract O)
    (hW : WellFormed F) (hex : ∃ Y, (initial_model F p).feasible Y) (v : Int)
    (hv : v = ((resFaces F (O (initial_model F p)).2).length : Int)) (h1v : 1 ≤ v)
    (fuel : Nat) :
    (∀ r, p_anionic_clar_lp O F p fuel = some r →
      r.1 = Outcome.ok v ∧ LoopDone O F p v r.2) ∧
    ((optimalStructs F p v).length ≤ fuel → ∃ r, p_anionic_clar_lp O F p fuel = some r) := by
  have h := assess_first O F p hO hex
  rw [← hv] at h
  unfold firstState at h
  have hnot : ¬ v < 1 := by omega
  have hentry := solve_all_entry O F p hO hW hex v hv fuel
  unfold firstState at hentry
  have hrun : p_anionic_clar_lp O F p fuel
      = match solve_loop O F p v (List.replicate v.toNat 0)
            (List.replicate (num_match_e F p v).toNat 0) fuel (enumState F p v O) with
        | none => none
        | some (Outcome.ok (), s3) => some (Outcome.ok v, s3)
        | some (Outcome.thrown e, s3) => some (Outcome.thrown (handle F p e), s3)
        | some (Outcome.undefined, s3) => some (Outcome.undefined, s3) := by
    unfold p_anionic_clar_lp
    simp only [h, hnot, if_false]
    rw [hentry]
    cases solve_loop O F p v (List.replicate v.toNat 0)
        (List.replicate (num_match_e F p v).toNat 0) fuel (enumState F p v O) with
    | none => rfl
    | some r =>
      obtain ⟨o, s3⟩ := r
      cases o <;> rfl
  have hI := enumState_inv O F p hO hW hex v hv h1v
  have hv0 : (0 : Int) ≤ v := by omega
  have hnm : (0 : Int) ≤ num_match_e F p v := by
    obtain ⟨-, -, -, hcov, hpent, -, -⟩ := first_facts O F p hO hex
    have := num_match_e_eq F hW p _ hcov hpent
    rw [← hv] at this
    rw [this]; omega
  obtain ⟨hc1, hc2⟩ := solve_loop_correct O F p v (List.replicate v.toNat 0)
    (List.replicate (num_match_e F p v).toNat 0) hO hW h1v
    (by simp [Int.toNat_of_nonneg hv0]) (by simp [Int.toNat_of_nonneg hnm]) fuel _ _ hI
  rw [hrun]
  constructor
  · intro r hr
    cases hl : solve_loop O F p v (List.replicate v.toNat 0)
        (List.replicate (num_match_e F p v).toNat 0) fuel (enumState F p v O) with
    | none => rw [hl] at hr; cases hr
    | some r2 =>
      obtain ⟨o, s3⟩ := r2
      obtain ⟨ho, hd⟩ := hc1 _ hl
      simp only at ho
      subst ho
      rw [hl] at hr
      simp only [Option.some.injEq] at hr
      rw [← hr]
      exact ⟨rfl, hd⟩
  · intro hfuel
    obtain ⟨r2, hr2⟩ := hc2 (by simp only [List.length_singleton]; omega)
    obtain ⟨o, s3⟩ := r2
    obtain ⟨ho, -⟩ := hc1 _ hr2
    simp only at ho
    subst ho
    rw [hr2]
    exact ⟨_, rfl⟩

/-! ## The reference oracle honours the contract -/

theorem assignOf_binary (S : List GRBVar) : Binary (assignOf S) := by
  intro v
  by_cases h : v ∈ S <;> simp [assignOf, h]

theorem holds_congr (c : GRBConstr) (X Y : GRBVar → Rat) (h : ∀ v ∈ c.lhs, X v = Y v) :
    c.holds X ↔ c.holds Y := by
  have : c.value X = c.value Y := by
    unfold GRBConstr.value
    rw [List.map_congr_left h]
  unfold GRBConstr.holds
  rw [this]

theorem objective_congr (m : GRBModel) (X Y : GRBVar → Rat)
    (h : ∀ d ∈ m.vars, X d.var = Y d.var) : m.objective X = m.objective Y := by
  unfold GRBModel.objective
  rw [List.map_congr_left (fun d hd => by rw [h d hd])]

theorem assignOf_filter (m : GRBModel) (X : GRBVar → Rat) (hX : Binary X) (v : GRBVar)
    (hv : v ∈ relevantVars m) :
    assignOf ((relevantVars m).filter (fun v => decide (X v = 1))) v = X v := by
  unfold assignOf
  rcases hX v with h | h
  · simp [h]
  · simp [h, hv]

theorem mem_relevant_of_constr (m : GRBModel) (c : GRBConstr) (hc : c ∈ m.constrs)
    (v : GRBVar) (hv : v ∈ c.lhs) : v ∈ relevantVars m := by
  unfold relevantVars
  apply List.mem_append_right
  rw [List.mem_flatMap]
  exact ⟨c, hc, hv⟩

theorem mem_relevant_of_var (m : GRBModel) (d : VarDecl) (hd : d ∈ m.vars) :
    d.var ∈ relevantVars m := by
  unfold relevantVars
  apply List.mem_append_left
  exact List.mem_map.mpr ⟨d, hd, rfl⟩

theorem bruteForce_contract : OracleContract bruteForce := by
  intro m _
  have hcand : ∀ X, m.feasible X →
      (relevantVars m).filter (fun v => decide (X v = 1)) ∈
        (relevantVars m).sublists.filter
          (fun S => decide (∀ c ∈ m.constrs, c.holds (assignOf S))) ∧
      m.objective X
        = m.objective (assignOf ((relevantVars m).filter (fun v => decide (X v = 1)))) := by
    intro X hX
    constructor
    · rw [List.mem_filter, List.mem_sublists]
      refine ⟨List.filter_sublist _, ?_⟩
      simp only [decide_eq_true_eq]
      intro c hc
      rw [holds_congr c _ X
        (fun v hv => assignOf_filter m X hX.1 v (mem_relevant_of_constr m c hc v hv))]
      exact hX.2 c hc
    · apply objective_congr
      intro d hd
      exact (assignOf_filter m X hX.1 _ (mem_relevant_of_var m d hd)).symm
  constructor
  · rintro ⟨X, hX⟩
    cases harg : List.argmax (fun S => m.objective (assignOf S))
        ((relevantVars m).sublists.filter
          (fun S => decide (∀ c ∈ m.constrs, c.holds (assignOf S)))) with
    | none =>
      rw [List.argmax_eq_none] at harg
      have := (hcand X hX).1
      rw [harg] at this
      cases this
    | some S =>
      have hb : bruteForce m = (GRB_OPTIMAL, assignOf S) := by
        unfold bruteForce
        rw [harg]
      rw [hb]
      have hmem := List.argmax_mem harg
      rw [List.mem_filter] at hmem
      simp only [decide_eq_true_eq] at hmem
      refine ⟨rfl, ⟨assignOf_binary S, hmem.2⟩, ?_⟩
      intro Y hY
      obtain ⟨hY1, hY2⟩ := hcand Y hY
      rw [hY2]
      have := List.le_of_mem_argmax (f := fun S => m.objective (assignOf S)) hY1 harg
      exact this
  · intro hno
    cases harg : List.argmax (fun S => m.objective (assignOf S))
        ((relevantVars m).sublists.filter
          (fun S => decide (∀ c ∈ m.constrs, c.holds (assignOf S)))) with
    | none =>
      unfold bruteForce
      rw [harg]
    | some S =>
      have hmem := List.argmax_mem harg
      rw [List.mem_filter] at hmem
      simp only [decide_eq_true_eq] at hmem
      exact absurd ⟨assignOf S, assignOf_binary S, hmem.2⟩ hno

/-! ## Concrete graphs -/

theorem covered_indicator (F : Fullerene) (R M : List Nat) (i : Nat) :
    covered F (indicator R M) i = ((cons1 F i).filter (inSol R M)).length := by
  rw [covered_eq_count]
  congr 1
  apply List.filter_congr
  intro y _
  cases y with
  | f k => simp only [inSol, decide_eq_decide]; exact indicator_f_gt R M k
  | e k => simp only [inSol, decide_eq_decide]; exact indicator_e_gt R M k

theorem resFaces_indicator_eq (F : Fullerene) (R M : List Nat) :
    resFaces F (indicator R M) = (List.range F.dual_n).filter (fun k => decide (k ∈ R)) := by
  unfold resFaces
  apply List.filter_congr
  intro k _
  simp only [decide_eq_decide]
  exact indicator_f_gt R M k

theorem matchEdges_indicator_eq (F : Fullerene) (R M : List Nat) :
    matchEdges F (indicator R M) = (List.range F.num_edges).filter (fun k => decide (k ∈ M)) := by
  unfold matchEdges
  apply List.filter_congr
  intro k _
  simp only [decide_eq_decide]
  exact indicator_e_gt R M k

theorem baseHolds_indicator_iff (F : Fullerene) (p : Int) (R M : List Nat) :
    baseHolds F p (indicator R M) ↔
      (∀ i, i < F.n → ((cons1 F i).filter (inSol R M)).length = 1) ∧
      ((((List.range F.dual_n).filter (fun k => decide (k ∈ R))).filter
        (fun k => decide ((F.dual k).size = 5))).length : Int) = p := by
  rw [baseHolds_iff F p _ (binary_indicator R M)]
  unfold resPents
  rw [resFaces_indicator_eq]
  constructor
  · rintro ⟨h1, h2⟩
    exact ⟨fun i hi => by rw [← covered_indicator]; exact h1 i hi, h2⟩
  · rintro ⟨h1, h2⟩
    exact ⟨fun i hi => by rw [covered_indicator]; exact h1 i hi, h2⟩

theorem torusK33_wellFormed : WellFormed torusK33 := by
  refine ⟨⟨⟨by decide, by decide, by decide⟩, ?_⟩, ?_, ?_⟩
  · unfold InRange; decide
  · decide
  · decide

theorem torusK33_face0 : baseHolds torusK33 0 (indicator [0] []) := by
  rw [baseHolds_indicator_iff]
  constructor
  · decide
  · decide

theorem dodecahedron_matching1 :
    baseHolds dodecahedron 0 (indicator [] [0, 2, 9, 10, 12, 14, 16, 24, 25, 27]) := by
  rw [baseHolds_indicator_iff]
  constructor
  · decide
  · decide

theorem dodecahedron_matching2 :
    baseHolds dodecahedron 0 (indicator [] [0, 2, 9, 11, 13, 15, 19, 23, 26, 29]) := by
  rw [baseHolds_indicator_iff]
  constructor
  · decide
  · decide

/-! ## Recorded solutions have the optimum value (any oracle) -/

theorem solve_loop_saves (O : Oracle) (F : Fullerene) (p v : Int) (rf me : List Nat)
    (fuel : Nat) :
    ∀ (s : State) (r : Outcome Unit × State),
      solve_loop O F p v rf me fuel s = some r →
      ∃ new, r.2.trace = s.trace ++ new ∧
        ∀ q k X, Event.save_sol q k X ∈ new →
          k = v ∧ check_if_sol_valid F p X = Except.ok v := by
  induction fuel with
  | zero => intro s r h; simp [solve_loop] at h
  | succ fuel ih =>
    intro s r h
    have aux : ∀ (s2 : State) (pre : List Event), s2.trace = s.trace ++ pre →
        (∀ q k X, Event.save_sol q k X ∈ pre →
          k = v ∧ check_if_sol_valid F p X = Except.ok v) →
        (match exlude_previous_sol F s2 rf me with
          | (Outcome.ok (), s3) => solve_loop O F p v rf me fuel s3
          | (Outcome.thrown e, s3) => some (Outcome.thrown e, s3)
          | (Outcome.undefined, s3) => some (Outcome.undefined, s3)) = some r →
        ∃ new, r.2.trace = s.trace ++ new ∧
          ∀ q k X, Event.save_sol q k X ∈ new →
            k = v ∧ check_if_sol_valid F p X = Except.ok v := by
      intro s2 pre hpre hP hm
      rcases exlude_cases F s2 rf me with he | ⟨c, he⟩
      · rw [he] at hm
        simp only [Option.some.injEq] at hm
        rw [← hm]
        exact ⟨pre, hpre, hP⟩
      · rw [he] at hm
        simp only at hm
        obtain ⟨new, hn1, hn2⟩ := ih _ r hm
        refine ⟨pre ++ [Event.cut c] ++ new, ?_, ?_⟩
        · rw [hn1]; simp only [hpre, List.append_assoc]
        · intro q k X hmem
          simp only [List.mem_append, List.mem_singleton] at hmem
          rcases hmem with (hmem | hmem) | hmem
          · exact hP q k X hmem
          · cases hmem
          · exact hn2 q k X hmem
    simp only [solve_loop] at h
    have htr : (optimize O s).trace = s.trace ++ [Event.optimize s.model] := rfl
    rcases assess_rec_solve_cases F p (optimize O s) v with
      ⟨-, e, -, ha⟩ | ⟨-, hk, ha⟩ | ⟨-, k, hk, -, ha⟩ | ⟨-, ha⟩ | ⟨-, -, ha⟩
    · rw [ha] at h
      simp only [Option.some.injEq] at h
      rw [← h]
      refine ⟨[Event.optimize s.model, Event.check_if_sol_valid], ?_, ?_⟩
      · simp [State.log, htr]
      · intro q k X hmem; simp at hmem
    · rw [ha] at h
      simp only [if_true] at h
      apply aux _ [Event.optimize s.model, Event.check_if_sol_valid,
        Event.save_sol p v (optimize O s).model.X] _ _ h
      · simp [htr]
      · intro q k X hmem
        simp only [List.mem_cons, List.mem_singleton, List.not_mem_nil, or_false, false_or,
          Event.save_sol.injEq] at hmem
        rcases hmem with hmem | hmem | ⟨-, h2, h3⟩
        · cases hmem
        · cases hmem
        · rw [h2, h3]; exact ⟨rfl, hk⟩
    · rw [ha] at h
      simp only [hk, if_false, Option.some.injEq] at h
      rw [← h]
      refine ⟨[Event.optimize s.model, Event.check_if_sol_valid], ?_, ?_⟩
      · simp [htr]
      · intro q k X hmem; simp at hmem
    · rw [ha] at h
      by_cases h0 : (0 : Int) = v
      · simp only [h0, if_true] at h
        apply aux _ [Event.optimize s.model] htr _ h
        intro q k X hmem; simp at hmem
      · simp only [h0, if_false, Option.some.injEq] at h
        rw [← h]
        refine ⟨[Event.optimize s.model], htr, ?_⟩
        intro q k X hmem; simp at hmem
    · rw [ha] at h
      simp only [Option.some.injEq] at h
      rw [← h]
      refine ⟨[Event.optimize s.model], htr, ?_⟩
      intro q k X hmem; simp at hmem

theorem solve_all_structs_saves (O : Oracle) (F : Fullerene) (p v : Int) (fuel : Nat)
    (s : State) (r : Outcome Int × State)
    (h : solve_all_structs O F p s v fuel = some r) :
    ∃ new, r.2.trace = s.trace ++ new ∧
      ∀ q k X, Event.save_sol q k X ∈ new →
        k = v ∧ check_if_sol_valid F p X = Except.ok v := by
  unfold solve_all_structs at h
  by_cases hg : v < 0 ∨ num_match_e F p v < 0
  · simp only [hg, if_true, Option.some.injEq] at h
    rw [← h]
    exact ⟨[Event.solve_all_structs], rfl, by intro q k X hmem; simp at hmem⟩
  · simp only [hg, if_false] at h
    rcases exlude_cases F (s.log Event.solve_all_structs) (List.replicate v.toNat 0)
        (List.replicate (num_match_e F p v).toNat 0) with he | ⟨c, he⟩
    · rw [he] at h
      simp only [Option.some.injEq] at h
      rw [← h]
      exact ⟨[Event.solve_all_structs], rfl, by intro q k X hmem; simp at hmem⟩
    · rw [he] at h
      simp only at h
      cases hl : solve_loop O F p v (List.replicate v.toNat 0)
          (List.replicate (num_match_e F p v).toNat 0) fuel
          (add_Clar_num_cons F v
            { model := (s.log Event.solve_all_structs).model.reset.addConstr c,
              trace := (s.log Event.solve_all_structs).trace ++ [Event.cut c] }) with
      | none => rw [hl] at h; cases h
      | some r2 =>
        obtain ⟨new, hn1, hn2⟩ := solve_loop_saves O F p v _ _ fuel _ r2 hl
        rw [hl] at h
        have hr : r.2 = r2.2 := by
          obtain ⟨o, s3⟩ := r2
          cases o <;> simp only [Option.some.injEq] at h <;> rw [← h]
        rw [hr, hn1, add_Clar_eq]
        refine ⟨[Event.solve_all_structs, Event.cut c,
          Event.add_Clar_num_cons (clarConstr F v)] ++ new, ?_, ?_⟩
        · simp [State.log, clarConstr]
        · intro q k X hmem
          simp only [List.mem_append, List.mem_cons, List.mem_singleton, List.not_mem_nil,
            or_false, false_or] at hmem
          rcases hmem with (hmem | hmem | hmem) | hmem
          · cases hmem
          · cases hmem
          · cases hmem
          · exact hn2 q k X hmem

/-- Claim C8: every solution recorded during the enumeration of `solve_all_structs` has the
resonant-face count, as returned by `check_if_sol_valid`, equal to `opt_val`, the count
returned by `assess_solve` for the first solve; an OPTIMAL re-solve with a different
count is not recorded. -/
theorem optimality_invariant (O : Oracle) (F : Fullerene) (p : Int) (fuel : Nat)
    (opt_val : Int) (s1 : State) (out : Outcome Int) (s : State)
    (h1 : assess_solve F p (optimize O { model := initial_model F p, trace := [] })
      = (Outcome.ok opt_val, s1))
    (hrun : p_anionic_clar_lp O F p fuel = some (out, s)) :
    (∃ new, s.trace = s1.trace ++ new ∧
      ∀ q k X, Event.save_sol q k X ∈ new →
        k = opt_val ∧ check_if_sol_valid F p X = Except.ok opt_val) ∧
    (∀ (s2 : State) (k : Int), s2.model.status = GRB_OPTIMAL →
      check_if_sol_valid F p s2.model.X = Except.ok k → k ≠ opt_val →
      assess_rec_solve F p s2 opt_val
        = (Outcome.ok k,
            { model := s2.model, trace := s2.trace ++ [Event.check_if_sol_valid] })) := by
  constructor
  · unfold p_anionic_clar_lp at hrun
    simp only [h1] at hrun
    by_cases hlt : opt_val < 1
    · simp only [hlt, if_true, Option.some.injEq, Prod.mk.injEq] at hrun
      rw [← hrun.2]
      exact ⟨[], by simp, by intro q k X hmem; simp at hmem⟩
    · simp only [hlt, if_false] at hrun
      cases hs : solve_all_structs O F p s1 opt_val fuel with
      | none => rw [hs] at hrun; cases hrun
      | some r2 =>
        obtain ⟨new, hn1, hn2⟩ := solve_all_structs_saves O F p opt_val fuel s1 r2 hs
        rw [hs] at hrun
        have hr : s = r2.2 := by
          obtain ⟨o, s3⟩ := r2
          cases o <;> simp only [Option.some.injEq, Prod.mk.injEq] at hrun <;> rw [← hrun.2]
        rw [hr]
        exact ⟨new, hn1, hn2⟩
  · intro s2 k hst hk hne
    unfold assess_rec_solve
    simp [hst, hk, hne, State.log]

/-- Claim C9: if the status after the initial `optimize` is INFEASIBLE, `p_anionic_clar_lp`
calls `save_sol` exactly once, with `num_res_faces = 0`, calls neither
`check_if_sol_valid` nor `solve_all_structs`, adds no cut, does not call `optimize`
again, and returns 0. -/
theorem zero_structure_boundary (O : Oracle) (F : Fullerene) (p : Int) (fuel : Nat)
    (hinf : (O (initial_model F p)).1 = GRB_INFEASIBLE) :
    ∃ s, p_anionic_clar_lp O F p fuel = some (Outcome.ok 0, s) ∧
      s.trace = [Event.optimize (initial_model F p),
        Event.save_sol p 0 (O (initial_model F p)).2] ∧
      s.model.constrs = (initial_model F p).constrs ∧
      s.model.status = GRB_INFEASIBLE := by
  have ha : assess_solve F p (optimize O { model := initial_model F p, trace := [] })
      = (Outcome.ok 0,
          { model := (optimize O { model := initial_model F p, trace := [] }).model,
            trace := [Event.optimize (initial_model F p),
              Event.save_sol p 0 (O (initial_model F p)).2] }) := by
    unfold assess_solve
    simp [optimize, hinf, State.log, GRB_INFEASIBLE, GRB_OPTIMAL]
  refine ⟨{ model := (optimize O { model := initial_model F p, trace := [] }).model,
            trace := [Event.optimize (initial_model F p),
              Event.save_sol p 0 (O (initial_model F p)).2] }, ?_, rfl, rfl, hinf⟩
  unfold p_anionic_clar_lp
  simp only [ha]
  simp

/-! ## Main results on the enumeration -/

theorem run_shape (O : Oracle) (F : Fullerene) (p : Int) (hO : OracleContract O)
    (hW : WellFormed F) (fuel : Nat) (out : Outcome Int) (s : State)
    (hrun : p_anionic_clar_lp O F p fuel = some (out, s)) :
    ((¬ ∃ Y, (initial_model F p).feasible Y) ∧ out = Outcome.ok 0 ∧
      s.trace = [Event.optimize (initial_model F p),
        Event.save_sol p 0 (O (initial_model F p)).2]) ∨
    ((∃ Y, (initial_model F p).feasible Y) ∧
      ((resFaces F (O (initial_model F p)).2).length : Int) < 1 ∧ out = Outcome.ok 0 ∧
      s.trace = [Event.optimize (initial_model F p), Event.check_if_sol_valid,
        Event.save_sol p ((resFaces F (O (initial_model F p)).2).length : Int)
          (O (initial_model F p)).2]) ∨
    ((∃ Y, (initial_model F p).feasible Y) ∧
      1 ≤ ((resFaces F (O (initial_model F p)).2).length : Int) ∧
      out = Outcome.ok ((resFaces F (O (initial_model F p)).2).length : Int) ∧
      LoopDone O F p ((resFaces F (O (initial_model F p)).2).length : Int) s) := by
  by_cases hex : ∃ Y, (initial_model F p).feasible Y
  · by_cases hlt : ((resFaces F (O (initial_model F p)).2).length : Int) < 1
    · right; left
      rw [run_zero O F p hO hex hlt fuel] at hrun
      simp only [Option.some.injEq, Prod.mk.injEq] at hrun
      exact ⟨hex, hlt, hrun.1.symm, by rw [← hrun.2]⟩
    · right; right
      have h1 : 1 ≤ ((resFaces F (O (initial_model F p)).2).length : Int) := by omega
      obtain ⟨hr, -⟩ := run_enum O F p hO hW hex _ rfl h1 fuel
      obtain ⟨ho, hd⟩ := hr _ hrun
      exact ⟨hex, h1, ho, hd⟩
  · left
    rw [run_infeasible O F p hO hex fuel] at hrun
    simp only [Option.some.injEq, Prod.mk.injEq] at hrun
    exact ⟨hex, hrun.1.symm, by rw [← hrun.2]⟩

/-- Claim C1: with an oracle honouring its contract and a well-formed fullerene view, if
`p_anionic_clar_lp` returns after an OPTIMAL first solve with validated count
`opt_val >= 1`, the (resonant faces, matching edges) pairs passed to `save_sol` are
exactly the 0/1 assignments that satisfy the constraints of `add_cons` and have
`opt_val` resonant faces, `opt_val` is the maximum count over such assignments, and the
loop stops after a re-solve that is INFEASIBLE or has a different count. -/
theorem enumeration_complete (O : Oracle) (F : Fullerene) (p : Int) (fuel : Nat)
    (opt_val : Int) (s : State) (hO : OracleContract O) (hW : WellFormed F)
    (hrun : p_anionic_clar_lp O F p fuel = some (Outcome.ok opt_val, s))
    (hv : 1 ≤ opt_val) :
    (O (initial_model F p)).1 = GRB_OPTIMAL ∧
    check_if_sol_valid F p (O (initial_model F p)).2 = Except.ok opt_val ∧
    (∀ S, S ∈ savedPairs F s.trace ↔
      (S ∈ candidates F ∧ baseHolds F p (indicator S.1 S.2) ∧ (S.1.length : Int) = opt_val)) ∧
    (∀ S ∈ candidates F, baseHolds F p (indicator S.1 S.2) → (S.1.length : Int) ≤ opt_val) ∧
    (∃ S ∈ candidates F, baseHolds F p (indicator S.1 S.2) ∧ (S.1.length : Int) = opt_val) ∧
    (∃ t m, s.trace = t ++ [Event.optimize m] ∧ s.model.status = (O m).1) ∧
    (s.model.status = GRB_INFEASIBLE ∨
      (s.model.status = GRB_OPTIMAL ∧
        ∃ k, check_if_sol_valid F p s.model.X = Except.ok k ∧ k ≠ opt_val)) := by
  rcases run_shape O F p hO hW fuel _ s hrun with ⟨-, ho, -⟩ | ⟨-, -, ho, -⟩ | ⟨hex, h1, ho, hd⟩
  · injection ho with ho; omega
  · injection ho with ho; omega
  · injection ho with ho
    obtain ⟨hst, hbin, hb, hcov, hpent, hcheck, hmax⟩ := first_facts O F p hO hex
    rw [← ho] at hd hcheck
    refine ⟨hst, hcheck, ?_, ?_, ?_, hd.last_event, Or.inl hd.status⟩
    · intro S
      rw [hd.saved_iff, mem_optimalStructs]
    · intro S hS hbS
      rw [mem_candidates] at hS
      have := hmax _ (binary_indicator S.1 S.2) hbS
      rw [resFaces_indicator F _ _ hS.1] at this
      rw [ho]
      exact_mod_cast this
    · refine ⟨_, support_mem_candidates F (O (initial_model F p)).2, ?_, ho.symm⟩
      exact (baseHolds_indicator_self F hW.1.2 p _ hbin).mpr hb

/-- Claim C2: with an oracle honouring its contract and a well-formed fullerene view, no two
solutions passed to `save_sol` in a run of `p_anionic_clar_lp` have the same resonant
faces and the same matching edges; every recorded solution is excluded by a cut before
the next `optimize` call, and every recorded solution satisfies all cuts added before it. -/
theorem no_duplicates (O : Oracle) (F : Fullerene) (p : Int) (fuel : Nat)
    (out : Outcome Int) (s : State) (hO : OracleContract O) (hW : WellFormed F)
    (hrun : p_anionic_clar_lp O F p fuel = some (out, s)) :
    (savedPairs F s.trace).Nodup ∧ AllExcluded s.trace ∧ CutsRespected [] s.trace := by
  rcases run_shape O F p hO hW fuel _ s hrun with ⟨-, -, htr⟩ | ⟨-, -, -, htr⟩ | ⟨-, -, -, hd⟩
  · rw [htr]
    simp [savedPairs, AllExcluded, ExcludedNext, CutsRespected]
  · rw [htr]
    simp [savedPairs, AllExcluded, ExcludedNext, CutsRespected]
  · exact ⟨hd.saved_nodup, allExcluded_of_byCut _ hd.excluded, hd.respected⟩

/-- Claim C7: with an oracle honouring its contract and a well-formed fullerene view, when the
first solve has validated count `opt_val >= 1` the run returns as soon as the fuel
allows one iteration more than there are feasible assignments at `opt_val`; from each
solved model to the next the number of feasible 0/1 assignments strictly decreases (the
recorded assignment is feasible before the cut and infeasible after it), and the loop
runs at most that many iterations plus one. -/
theorem enumeration_terminates (O : Oracle) (F : Fullerene) (p : Int)
    (opt_val : Int) (s1 : State) (hO : OracleContract O) (hW : WellFormed F)
    (h1 : assess_solve F p (optimize O { model := initial_model F p, trace := [] })
      = (Outcome.ok opt_val, s1))
    (hv : 1 ≤ opt_val) :
    (∀ fuel, (optimalStructs F p opt_val).length + 1 ≤ fuel →
      ∃ s, p_anionic_clar_lp O F p fuel = some (Outcome.ok opt_val, s)) ∧
    (∀ fuel out s, p_anionic_clar_lp O F p fuel = some (out, s) →
      List.Chain' (Shrinks F O) (optimizedModels s.trace) ∧
      (optimizedModels s.trace).length - 1 ≤ (optimalStructs F p opt_val).length + 1) := by
  have hex : ∃ Y, (initial_model F p).feasible Y := by
    by_contra hno
    have := assess_first_infeasible O F p hO hno
    unfold firstState at this
    rw [this] at h1
    simp only [Prod.mk.injEq, Outcome.ok.injEq] at h1
    omega
  have hveq : opt_val = ((resFaces F (O (initial_model F p)).2).length : Int) := by
    have := assess_first O F p hO hex
    unfold firstState at this
    rw [this] at h1
    simp only [Prod.mk.injEq, Outcome.ok.injEq] at h1
    exact h1.1.symm
  constructor
  · intro fuel hfuel
    obtain ⟨hr1, hr2⟩ := run_enum O F p hO hW hex opt_val hveq hv fuel
    obtain ⟨r, hr⟩ := hr2 (by omega)
    obtain ⟨ho, -⟩ := hr1 r hr
    obtain ⟨o, s⟩ := r
    simp only at ho
    subst ho
    exact ⟨s, hr⟩
  · intro fuel out s hrun
    obtain ⟨hr1, -⟩ := run_enum O F p hO hW hex opt_val hveq hv fuel
    obtain ⟨-, hd⟩ := hr1 _ hrun
    refine ⟨hd.chain, ?_⟩
    rw [hd.count]
    omega

/-! ## Instances: the torus graph with the reference oracle -/

theorem torusK33_feasible : ∃ Y, (initial_model torusK33 0).feasible Y :=
  ⟨indicator [0] [], binary_indicator _ _, torusK33_face0⟩

theorem torusK33_at_most_one (X : GRBVar → Rat) (hc : covered torusK33 X 0 = 1) :
    (resFaces torusK33 X).length ≤ 1 := by
  rw [covered_eq] at hc
  have hlen : (resFaces torusK33 X).length
      = ∑ i in Finset.range 3, if X (GRBVar.f i) > 99 / 100 then 1 else 0 :=
    length_filter_range 3 (fun i => X (GRBVar.f i) > 99 / 100)
  rw [hlen]
  simp only [Fin.sum_univ_three, Finset.sum_range_succ, Finset.sum_range_zero] at hc ⊢
  have f0 : (torusK33.primal 0).faces 0 = 0 := rfl
  have f1 : (torusK33.primal 0).faces 1 = 1 := rfl
  have f2 : (torusK33.primal 0).faces 2 = 2 := rfl
  rw [f0, f1, f2] at hc
  unfold ind at hc
  omega

theorem torusK33_opt :
    ((resFaces torusK33 (bruteForce (initial_model torusK33 0)).2).length : Int) = 1 := by
  obtain ⟨-, -, -, hcov, -, -, hmax⟩ :=
    first_facts bruteForce torusK33 0 bruteForce_contract torusK33_feasible
  have h1 := torusK33_at_most_one _ (hcov 0 (by decide))
  have h2 := hmax _ (binary_indicator [0] []) torusK33_face0
  have h3 : (resFaces torusK33 (indicator [0] [])).length = 1 := by
    rw [resFaces_indicator_eq]; decide
  rw [h3] at h2
  omega

theorem optimalStructs_length_le (F : Fullerene) (p k : Int) :
    (optimalStructs F p k).length ≤ 2 ^ F.dual_n * 2 ^ F.num_edges := by
  have h1 : (optimalStructs F p k).length ≤ (candidates F).length := List.length_filter_le _ _
  have h2 : (candidates F).length = 2 ^ F.dual_n * 2 ^ F.num_edges := by
    unfold candidates
    exact (List.length_product _ _).trans (by simp [List.length_sublists])
  omega

theorem torusK33_run :
    ∃ s, p_anionic_clar_lp bruteForce torusK33 0 4097 = some (Outcome.ok 1, s) := by
  obtain ⟨hr1, hr2⟩ := run_enum bruteForce torusK33 0 bruteForce_contract torusK33_wellFormed
    torusK33_feasible 1 torusK33_opt.symm (le_refl 1) 4097
  have hN := optimalStructs_length_le torusK33 0 1
  have : 2 ^ torusK33.dual_n * 2 ^ torusK33.num_edges = 4096 := by decide
  obtain ⟨r, hr⟩ := hr2 (by omega)
  obtain ⟨ho, -⟩ := hr1 r hr
  obtain ⟨o, s⟩ := r
  simp only at ho
  subst ho
  exact ⟨s, hr⟩

theorem torusK33_first :
    assess_solve torusK33 0 (optimize bruteForce { model := initial_model torusK33 0, trace := [] })
      = (Outcome.ok 1,
          { model := (firstState torusK33 0 bruteForce).model,
            trace := [Event.optimize (initial_model torusK33 0), Event.check_if_sol_valid,
              Event.save_sol 0 1 (bruteForce (initial_model torusK33 0)).2] }) := by
  have := assess_first bruteForce torusK33 0 bruteForce_contract torusK33_feasible
  rw [torusK33_opt] at this
  exact this

theorem torusK33_infeasible :
    (bruteForce (initial_model torusK33 1)).1 = GRB_INFEASIBLE := by
  apply (bruteForce_contract _ (initial_model_maximize torusK33 1)).2
  rintro ⟨Y, hY, hb⟩
  have := ((baseHolds_iff torusK33 1 Y hY).mp hb).2
  have h0 : resPents torusK33 Y = [] := by
    simp [resPents, torusK33]
  rw [h0] at this
  simp at this

theorem torusK33_check :
    check_if_sol_valid torusK33 0 (indicator [0] []) = Except.ok 1 := by
  rw [check_ok_iff]
  obtain ⟨h1, h2⟩ := (baseHolds_iff torusK33 0 _ (binary_indicator [0] [])).mp torusK33_face0
  refine ⟨h1, h2, ?_⟩
  rw [resFaces_indicator_eq]; decide

theorem torusK33_face1 : baseHolds torusK33 0 (indicator [1] []) := by
  rw [baseHolds_indicator_iff]
  constructor
  · decide
  · decide

/-- Witness for claim C1 on the torus graph with the reference oracle. -/
theorem enumeration_complete_witness :
    ∃ s, p_anionic_clar_lp bruteForce torusK33 0 4097 = some (Outcome.ok 1, s) ∧
      (∀ S, S ∈ savedPairs torusK33 s.trace ↔
        (S ∈ candidates torusK33 ∧ baseHolds torusK33 0 (indicator S.1 S.2) ∧
          (S.1.length : Int) = 1)) ∧
      (∀ S ∈ candidates torusK33, baseHolds torusK33 0 (indicator S.1 S.2) →
        (S.1.length : Int) ≤ 1) ∧
      s.model.status = GRB_INFEASIBLE := by
  obtain ⟨s, hs⟩ := torusK33_run
  obtain ⟨-, -, h3, h4, -, -, h7⟩ := enumeration_complete bruteForce torusK33 0 4097 1 s
    bruteForce_contract torusK33_wellFormed hs (le_refl 1)
  refine ⟨s, hs, h3, h4, ?_⟩
  rcases h7 with h | ⟨h, k, hk, hne⟩
  · exact h
  · obtain ⟨hr1, -⟩ := run_enum bruteForce torusK33 0 bruteForce_contract torusK33_wellFormed
      torusK33_feasible 1 torusK33_opt.symm (le_refl 1) 4097
    exact (hr1 _ hs).2.status

/-- Witness for claim C2 on the torus graph with the reference oracle. -/
theorem no_duplicates_witness :
    ∃ s, p_anionic_clar_lp bruteForce torusK33 0 4097 = some (Outcome.ok 1, s) ∧
      (savedPairs torusK33 s.trace).Nodup ∧ AllExcluded s.trace ∧
      CutsRespected [] s.trace := by
  obtain ⟨s, hs⟩ := torusK33_run
  exact ⟨s, hs, no_duplicates bruteForce torusK33 0 4097 _ s bruteForce_contract
    torusK33_wellFormed hs⟩

/-- Witness for claim C3 on the torus graph: the cut built from the structure with
resonant face 0 is not violated by the structure with resonant face 1. -/
theorem nogood_cut_excludes_exactly_witness :
    ∃ c, exlude_previous_sol torusK33 (solvedState (indicator [0] [])) [0] []
          = (Outcome.ok (),
              { model := (solvedState (indicator [0] [])).model.reset.addConstr c,
                trace := (solvedState (indicator [0] [])).trace ++ [Event.cut c] }) ∧
      c.lhs = (resFaces torusK33 (indicator [0] [])).map GRBVar.f
        ++ (matchEdges torusK33 (indicator [0] [])).map GRBVar.e ∧
      c.sense = Sense.le ∧
      c.rhs = (((resFaces torusK33 (indicator [0] [])).length
        + (matchEdges torusK33 (indicator [0] [])).length - 1 : Nat) : Rat) ∧
      (¬ c.holds (indicator [1] []) ↔ Agree torusK33 (indicator [0] []) (indicator [1] [])) :=
  nogood_cut_excludes_exactly torusK33 torusK33_wellFormed.1
    (wellFormed_allIncident torusK33 torusK33_wellFormed) (by decide)
    (indicator [0] []) (indicator [1] []) (binary_indicator _ _) (binary_indicator _ _)
    (fun i hi => (vertexConstr_holds torusK33 _ (binary_indicator _ _) i).mpr
      (((baseHolds_iff torusK33 0 _ (binary_indicator _ _)).mp torusK33_face0).1 i hi))
    (fun i hi => (vertexConstr_holds torusK33 _ (binary_indicator _ _) i).mpr
      (((baseHolds_iff torusK33 0 _ (binary_indicator _ _)).mp torusK33_face1).1 i hi))
    (solvedState (indicator [0] [])) rfl [0] []
    (by rw [resFaces_indicator_eq]; decide)
    (by rw [matchEdges_indicator_eq]; decide)

theorem torusK33_assess :
    (assess_solve torusK33 0 (solvedState (indicator [0] []))).2.trace
      = (solvedState (indicator [0] [])).trace
        ++ [Event.check_if_sol_valid, Event.save_sol 0 1 (indicator [0] [])] := by
  unfold assess_solve
  simp [solvedState, torusK33_check, State.log]

/-- Witness for claim C4 on the torus graph. -/
theorem coverage_invariant_witness :
    check_if_sol_valid torusK33 0 (indicator [0] []) = Except.ok 1 ∧
    ∀ v, v < torusK33.n →
      covered torusK33 (indicator [0] []) v = 1 ∧
      ((cons1 torusK33 v).filter
        (fun y => decide (indicator [0] [] y > 99 / 100))).length = 1 :=
  (coverage_invariant torusK33 0 (solvedState (indicator [0] [])) 1 rfl 0 1 (indicator [0] [])
    [Event.check_if_sol_valid, Event.save_sol 0 1 (indicator [0] [])]
    (Or.inl torusK33_assess) (by simp)).2.2

/-- Witness for claim C5 on the torus graph. -/
theorem pentagon_count_invariant_witness :
    (((List.range torusK33.dual_n).filter
      (fun i => decide (indicator [0] [] (GRBVar.f i) > 99 / 100
        ∧ (torusK33.dual i).size = 5))).length : Int) = 0 :=
  pentagon_count_invariant torusK33 0 (solvedState (indicator [0] [])) 1 rfl 0 1
    (indicator [0] [])
    [Event.check_if_sol_valid, Event.save_sol 0 1 (indicator [0] [])]
    (Or.inl torusK33_assess) (by simp)

/-- Witness for claim C6 on the torus graph. -/
theorem model_validator_agree_witness :
    (∀ c ∈ (add_cons torusK33 0 (add_vars torusK33 new_model)).constrs,
        c.holds (indicator [0] []))
      ↔ ∃ k, check_if_sol_valid torusK33 0 (indicator [0] []) = Except.ok k :=
  model_validator_agree torusK33 0 (indicator [0] []) (binary_indicator _ _)

/-- Witness for claim C7 on the torus graph with the reference oracle. -/
theorem enumeration_terminates_witness :
    (∀ fuel, (optimalStructs torusK33 0 1).length + 1 ≤ fuel →
      ∃ s, p_anionic_clar_lp bruteForce torusK33 0 fuel = some (Outcome.ok 1, s)) ∧
    (∀ fuel out s, p_anionic_clar_lp bruteForce torusK33 0 fuel = some (out, s) →
      List.Chain' (Shrinks torusK33 bruteForce) (optimizedModels s.trace) ∧
      (optimizedModels s.trace).length - 1 ≤ (optimalStructs torusK33 0 1).length + 1) :=
  enumeration_terminates bruteForce torusK33 0 1 _ bruteForce_contract torusK33_wellFormed
    torusK33_first (le_refl 1)

/-- Witness for claim C8 on the torus graph with the reference oracle. -/
theorem optimality_invariant_witness :
    ∃ s, p_anionic_clar_lp bruteForce torusK33 0 4097 = some (Outcome.ok 1, s) ∧
      ∃ new, s.trace = [Event.optimize (initial_model torusK33 0), Event.check_if_sol_valid,
            Event.save_sol 0 1 (bruteForce (initial_model torusK33 0)).2] ++ new ∧
        ∀ q k X, Event.save_sol q k X ∈ new →
          k = 1 ∧ check_if_sol_valid torusK33 0 X = Except.ok 1 := by
  obtain ⟨s, hs⟩ := torusK33_run
  exact ⟨s, hs, (optimality_invariant bruteForce torusK33 0 4097 1 _ _ s torusK33_first hs).1⟩

/-- Witness for claim C9: on the torus graph no face is a pentagon, so `p = 1` is infeasible. -/
theorem zero_structure_boundary_witness :
    ∃ s, p_anionic_clar_lp bruteForce torusK33 1 0 = some (Outcome.ok 0, s) ∧
      s.trace = [Event.optimize (initial_model torusK33 1),
        Event.save_sol 1 0 (bruteForce (initial_model torusK33 1)).2] ∧
      s.model.constrs = (initial_model torusK33 1).constrs ∧
      s.model.status = GRB_INFEASIBLE :=
  zero_structure_boundary bruteForce torusK33 1 0 torusK33_infeasible

/-! ## The dodecahedron with `p = 0` -/

theorem dodecahedron_feasible : ∃ Y, (initial_model dodecahedron 0).feasible Y :=
  ⟨indicator [] [0, 2, 9, 10, 12, 14, 16, 24, 25, 27], binary_indicator _ _,
    dodecahedron_matching1⟩

theorem dodecahedron_opt (O : Oracle) (hO : OracleContract O) :
    resFaces dodecahedron (O (initial_model dodecahedron 0)).2 = [] := by
  obtain ⟨-, -, -, -, hpent, -, -⟩ := first_facts O dodecahedron 0 hO dodecahedron_feasible
  have h : resPents dodecahedron (O (initial_model dodecahedron 0)).2
      = resFaces dodecahedron (O (initial_model dodecahedron 0)).2 := by
    simp [resPents, dodecahedron]
  rw [h] at hpent
  have : (resFaces dodecahedron (O (initial_model dodecahedron 0)).2).length = 0 := by
    exact_mod_cast hpent
  exact List.length_eq_zero.mp this

theorem dodecahedron_pm1 :
    isPerfectMatching dodecahedron [0, 2, 9, 10, 12, 14, 16, 24, 25, 27] := by
  constructor
  · decide
  · decide

theorem dodecahedron_pm2 :
    isPerfectMatching dodecahedron [0, 2, 9, 11, 13, 15, 19, 23, 26, 29] := by
  constructor
  · decide
  · decide

/-- Without resonant faces, the matching edges of a valid solution form a perfect matching. -/
theorem matching_of_no_faces (F : Fullerene) (hR : InRange F) (X : GRBVar → Rat)
    (hno : resFaces F X = []) (hc : ∀ i, i < F.n → covered F X i = 1) :
    isPerfectMatching F (matchEdges F X) := by
  refine ⟨List.filter_sublist _, fun i hi => ?_⟩
  have h1 := hc i hi
  rw [covered_eq] at h1
  have hf : ∀ j : Fin 3, ind (X (GRBVar.f ((F.primal i).faces j))) = 0 := by
    intro j
    by_contra hne
    have h01 := ind_le_one (X (GRBVar.f ((F.primal i).faces j)))
    have : ind (X (GRBVar.f ((F.primal i).faces j))) = 1 := by omega
    rw [ind_eq_one_iff] at this
    have hm : (F.primal i).faces j ∈ resFaces F X :=
      (mem_resFaces F X _).mpr ⟨(hR i hi j).2, this⟩
    rw [hno] at hm
    cases hm
  have he : ∀ j : Fin 3, ((F.primal i).edges j ∈ matchEdges F X)
      ↔ X (GRBVar.e ((F.primal i).edges j)) > 99 / 100 := by
    intro j
    rw [mem_matchEdges]
    exact ⟨fun h => h.2, fun h => ⟨(hR i hi j).1, h⟩⟩
  have h3 : List.finRange 3 = [0, 1, 2] := by decide
  simp only [Fin.sum_univ_three, hf, Nat.add_zero] at h1
  rw [h3]
  simp only [List.filter_cons, List.filter_nil, he, decide_eq_true_eq]
  unfold ind at h1
  split_ifs at h1 ⊢ <;> simp at h1 ⊢

theorem dodecahedron_inRange : InRange dodecahedron := by
  unfold InRange; decide

/-- Claim C10 (as stated, it fails): with the reference oracle, which honours the
contract, the run on the dodecahedron with `p = 0` establishes `opt_val = 0` and records
one single solution, while the graph has two distinct perfect matchings; so the recorded
solutions are not all the perfect matchings. -/
theorem dodecahedron_not_all_matchings :
    OracleContract bruteForce ∧
    ∃ s, p_anionic_clar_lp bruteForce dodecahedron 0 100 = some (Outcome.ok 0, s) ∧
      (savedPairs dodecahedron s.trace).length = 1 ∧
      isPerfectMatching dodecahedron [0, 2, 9, 10, 12, 14, 16, 24, 25, 27] ∧
      isPerfectMatching dodecahedron [0, 2, 9, 11, 13, 15, 19, 23, 26, 29] ∧
      ¬ (∀ M, isPerfectMatching dodecahedron M →
          ([], M) ∈ savedPairs dodecahedron s.trace) := by
  have hopt := dodecahedron_opt bruteForce bruteForce_contract
  have hrun := run_zero bruteForce dodecahedron 0 bruteForce_contract dodecahedron_feasible
    (by rw [hopt]; decide) 100
  rw [hopt] at hrun
  refine ⟨bruteForce_contract, _, hrun, rfl, dodecahedron_pm1, dodecahedron_pm2, ?_⟩
  intro hall
  have h1 := hall _ dodecahedron_pm1
  have h2 := hall _ dodecahedron_pm2
  simp only [savedPairs, List.mem_singleton, Prod.mk.injEq] at h1 h2
  have : ([0, 2, 9, 10, 12, 14, 16, 24, 25, 27] : List Nat)
      = [0, 2, 9, 11, 13, 15, 19, 23, 26, 29] := h1.2.trans h2.2.symm
  exact absurd this (by decide)

/-- Claim C10 (amended): on the dodecahedron with `p = 0`, for every oracle honouring
its contract, `p_anionic_clar_lp` establishes `opt_val = 0`, records exactly one
solution, which has no resonant face and whose matching edges form a perfect matching,
and returns 0 without entering the enumeration. -/
theorem dodecahedron_records_one (O : Oracle) (hO : OracleContract O) (fuel : Nat) :
    ∃ s, p_anionic_clar_lp O dodecahedron 0 fuel = some (Outcome.ok 0, s) ∧
      s.trace = [Event.optimize (initial_model dodecahedron 0), Event.check_if_sol_valid,
        Event.save_sol 0 0 (O (initial_model dodecahedron 0)).2] ∧
      check_if_sol_valid dodecahedron 0 (O (initial_model dodecahedron 0)).2 = Except.ok 0 ∧
      savedPairs dodecahedron s.trace
        = [([], matchEdges dodecahedron (O (initial_model dodecahedron 0)).2)] ∧
      isPerfectMatching dodecahedron
        (matchEdges dodecahedron (O (initial_model dodecahedron 0)).2) := by
  have hopt := dodecahedron_opt O hO
  have hrun := run_zero O dodecahedron 0 hO dodecahedron_feasible (by rw [hopt]; decide) fuel
  obtain ⟨-, -, -, hcov, -, hcheck, -⟩ := first_facts O dodecahedron 0 hO dodecahedron_feasible
  rw [hopt] at hrun hcheck
  refine ⟨_, hrun, rfl, hcheck, ?_, matching_of_no_faces dodecahedron dodecahedron_inRange _
    hopt hcov⟩
  simp only [savedPairs, hopt]

/-- Witness for claim C10 (amended) with the reference oracle. -/
theorem dodecahedron_records_one_witness :
    ∃ s, p_anionic_clar_lp bruteForce dodecahedron 0 100 = some (Outcome.ok 0, s) ∧
      s.trace = [Event.optimize (initial_model dodecahedron 0), Event.check_if_sol_valid,
        Event.save_sol 0 0 (bruteForce (initial_model dodecahedron 0)).2] ∧
      check_if_sol_valid dodecahedron 0 (bruteForce (initial_model dodecahedron 0)).2
        = Except.ok 0 ∧
      savedPairs dodecahedron s.trace
        = [([], matchEdges dodecahedron (bruteForce (initial_model dodecahedron 0)).2)] ∧
      isPerfectMatching dodecahedron
        (matchEdges dodecahedron (bruteForce (initial_model dodecahedron 0)).2) :=
  dodecahedron_records_one bruteForce bruteForce_contract 100

/-! ## Entering the enumeration -/

theorem solve_all_structs_entry (O : Oracle) (F : Fullerene) (p v : Int) (fuel : Nat)
    (s : State) (r : Outcome Int × State)
    (h : solve_all_structs O F p s v fuel = some r) :
    (∃ new, r.2.trace = s.trace ++ Event.solve_all_structs :: new) ∧
      ∀ w, r.1 = Outcome.ok w → w = v := by
  unfold solve_all_structs at h
  by_cases hg : v < 0 ∨ num_match_e F p v < 0
  · simp only [hg, if_true, Option.some.injEq] at h
    rw [← h]
    exact ⟨⟨[], rfl⟩, fun w hw => by cases hw⟩
  · simp only [hg, if_false] at h
    rcases exlude_cases F (s.log Event.solve_all_structs) (List.replicate v.toNat 0)
        (List.replicate (num_match_e F p v).toNat 0) with he | ⟨c, he⟩
    · rw [he] at h
      simp only [Option.some.injEq] at h
      rw [← h]
      exact ⟨⟨[], rfl⟩, fun w hw => by cases hw⟩
    · rw [he] at h
      simp only at h
      cases hl : solve_loop O F p v (List.replicate v.toNat 0)
          (List.replicate (num_match_e F p v).toNat 0) fuel
          (add_Clar_num_cons F v
            { model := (s.log Event.solve_all_structs).model.reset.addConstr c,
              trace := (s.log Event.solve_all_structs).trace ++ [Event.cut c] }) with
      | none => rw [hl] at h; cases h
      | some r2 =>
        obtain ⟨new, hn1, -⟩ := solve_loop_saves O F p v _ _ fuel _ r2 hl
        rw [hl] at h
        obtain ⟨o, s3⟩ := r2
        have htr : s3.trace = s.trace ++ Event.solve_all_structs ::
            ([Event.cut c, Event.add_Clar_num_cons (clarConstr F v)] ++ new) := by
          simp only at hn1
          rw [hn1, add_Clar_eq]
          simp [State.log, clarConstr]
        cases o with
        | ok u =>
          simp only [Option.some.injEq] at h
          rw [← h]
          exact ⟨⟨_, htr⟩, fun w hw => by injection hw with hw; exact hw.symm⟩
        | thrown e =>
          simp only [Option.some.injEq] at h
          rw [← h]
          exact ⟨⟨_, htr⟩, fun w hw => by cases hw⟩
        | undefined =>
          simp only [Option.some.injEq] at h
          rw [← h]
          exact ⟨⟨_, htr⟩, fun w hw => by cases hw⟩

/-- The four ways the first assessment ends, and what `p_anionic_clar_lp` does next. -/
theorem run_first_cases (O : Oracle) (F : Fullerene) (p : Int) (fuel : Nat) :
    ((O (initial_model F p)).1 = GRB_OPTIMAL ∧
      ∃ e, check_if_sol_valid F p (O (initial_model F p)).2 = Except.error e ∧
        p_anionic_clar_lp O F p fuel = some (Outcome.thrown (handle F p e),
          { model := (firstState F p O).model,
            trace := [Event.optimize (initial_model F p), Event.check_if_sol_valid] })) ∨
    ((O (initial_model F p)).1 = GRB_OPTIMAL ∧
      ∃ k, check_if_sol_valid F p (O (initial_model F p)).2 = Except.ok k ∧ k < 1 ∧
        p_anionic_clar_lp O F p fuel = some (Outcome.ok 0,
          { model := (firstState F p O).model,
            trace := [Event.optimize (initial_model F p), Event.check_if_sol_valid,
              Event.save_sol p k (O (initial_model F p)).2] })) ∨
    ((O (initial_model F p)).1 = GRB_OPTIMAL ∧
      ∃ k, check_if_sol_valid F p (O (initial_model F p)).2 = Except.ok k ∧ 1 ≤ k ∧
        p_anionic_clar_lp O F p fuel =
          match solve_all_structs O F p
              { model := (firstState F p O).model,
                trace := [Event.optimize (initial_model F p), Event.check_if_sol_valid,
                  Event.save_sol p k (O (initial_model F p)).2] } k fuel with
          | none => none
          | some (Outcome.ok v, s2) => some (Outcome.ok v, s2)
          | some (Outcome.thrown e, s2) => some (Outcome.thrown (handle F p e), s2)
          | some (Outcome.undefined, s2) => some (Outcome.undefined, s2)) ∨
    ((O (initial_model F p)).1 = GRB_INFEASIBLE ∧
        p_anionic_clar_lp O F p fuel = some (Outcome.ok 0,
          { model := (firstState F p O).model,
            trace := [Event.optimize (initial_model F p),
              Event.save_sol p 0 (O (initial_model F p)).2] })) ∨
    ((O (initial_model F p)).1 ≠ GRB_OPTIMAL ∧ (O (initial_model F p)).1 ≠ GRB_INFEASIBLE ∧
        p_anionic_clar_lp O F p fuel = some (Outcome.thrown
            (throw_error F.n p F.id (status_msg (O (initial_model F p)).1)),
          { model := (firstState F p O).model,
            trace := [Event.optimize (initial_model F p)] })) := by
  have hst : (firstState F p O).model.status = (O (initial_model F p)).1 := rfl
  have hX : (firstState F p O).model.X = (O (initial_model F p)).2 := rfl
  have htr : (firstState F p O).trace = [Event.optimize (initial_model F p)] := rfl
  have hrun : p_anionic_clar_lp O F p fuel
      = match assess_solve F p (firstState F p O) with
        | (Outcome.ok opt_val, s1) =>
          if opt_val < 1 then some (Outcome.ok 0, s1)
          else
            match solve_all_structs O F p s1 opt_val fuel with
            | none => none
            | some (Outcome.ok v, s2) => some (Outcome.ok v, s2)
            | some (Outcome.thrown e, s2) => some (Outcome.thrown (handle F p e), s2)
            | some (Outcome.undefined, s2) => some (Outcome.undefined, s2)
        | (Outcome.thrown e, s1) => some (Outcome.thrown (handle F p e), s1)
        | (Outcome.undefined, s1) => some (Outcome.undefined, s1) := rfl
  rcases assess_solve_cases F p (firstState F p O) with
    ⟨h1, e, he, ha⟩ | ⟨h1, k, hk, ha⟩ | ⟨h1, ha⟩ | ⟨h1, h2, ha⟩
  · left
    rw [hst] at h1
    rw [hX] at he
    refine ⟨h1, e, he, ?_⟩
    rw [hrun, ha]
    rfl
  · rw [hst] at h1
    rw [hX] at hk
    by_cases hlt : k < 1
    · right; left
      refine ⟨h1, k, hk, hlt, ?_⟩
      rw [hrun, ha]
      simp only [hlt, if_true]
      rfl
    · right; right; left
      refine ⟨h1, k, hk, by omega, ?_⟩
      rw [hrun, ha]
      simp only [hlt, if_false]
      rfl
  · right; right; right; left
    rw [hst] at h1
    refine ⟨h1, ?_⟩
    rw [hrun, ha]
    simp only [show (0 : Int) < 1 by decide, if_true]
    rfl
  · right; right; right; right
    rw [hst] at h1 h2
    refine ⟨h1, h2, ?_⟩
    rw [hrun, ha]
    have : handle F p (throw_error F.n p F.id (status_msg (firstState F p O).model.status))
        = throw_error F.n p F.id (status_msg (O (initial_model F p)).1) := rfl
    simp only [this]
    rfl

theorem run_entered (O : Oracle) (F : Fullerene) (p : Int) (fuel : Nat) (k : Int)
    (s1 : State)
    (hrun : p_anionic_clar_lp O F p fuel =
      match solve_all_structs O F p s1 k fuel with
      | none => none
      | some (Outcome.ok v, s2) => some (Outcome.ok v, s2)
      | some (Outcome.thrown e, s2) => some (Outcome.thrown (handle F p e), s2)
      | some (Outcome.undefined, s2) => some (Outcome.undefined, s2))
    (out : Outcome Int) (s : State) (h : p_anionic_clar_lp O F p fuel = some (out, s)) :
    (∃ new, s.trace = s1.trace ++ Event.solve_all_structs :: new) ∧
      ∀ w, out = Outcome.ok w → w = k := by
  rw [hrun] at h
  cases hs : solve_all_structs O F p s1 k fuel with
  | none => rw [hs] at h; cases h
  | some r =>
    obtain ⟨h1, h2⟩ := solve_all_structs_entry O F p k fuel s1 r hs
    rw [hs] at h
    obtain ⟨o, s2⟩ := r
    cases o with
    | ok u =>
      simp only [Option.some.injEq, Prod.mk.injEq] at h
      rw [← h.1, ← h.2]
      exact ⟨h1, h2⟩
    | thrown e =>
      simp only [Option.some.injEq, Prod.mk.injEq] at h
      rw [← h.1, ← h.2]
      exact ⟨h1, fun w hw => by cases hw⟩
    | undefined =>
      simp only [Option.some.injEq, Prod.mk.injEq] at h
      rw [← h.1, ← h.2]
      exact ⟨h1, fun w hw => by cases hw⟩

/-- Claim C11: `p_anionic_clar_lp` calls `solve_all_structs` if and only if the initial
solve is OPTIMAL, passes `check_if_sol_valid` and has resonant-face count at least 1;
when the initial solve is OPTIMAL with count 0 it records that single solution, calls
`optimize` no more and returns 0; when `solve_all_structs` is entered, the value
returned is `opt_val`, the validated count of the first solve. -/
theorem enumeration_entry (O : Oracle) (F : Fullerene) (p : Int) (fuel : Nat) :
    (∀ out s, p_anionic_clar_lp O F p fuel = some (out, s) →
      (Event.solve_all_structs ∈ s.trace ↔
        ((O (initial_model F p)).1 = GRB_OPTIMAL ∧
          ∃ k, check_if_sol_valid F p (O (initial_model F p)).2 = Except.ok k ∧ 1 ≤ k))) ∧
    (p_anionic_clar_lp O F p fuel = none →
      ((O (initial_model F p)).1 = GRB_OPTIMAL ∧
        ∃ k, check_if_sol_valid F p (O (initial_model F p)).2 = Except.ok k ∧ 1 ≤ k)) ∧
    ((O (initial_model F p)).1 = GRB_OPTIMAL →
      check_if_sol_valid F p (O (initial_model F p)).2 = Except.ok 0 →
      p_anionic_clar_lp O F p fuel = some (Outcome.ok 0,
        { model := (firstState F p O).model,
          trace := [Event.optimize (initial_model F p), Event.check_if_sol_valid,
            Event.save_sol p 0 (O (initial_model F p)).2] })) ∧
    (∀ v s, p_anionic_clar_lp O F p fuel = some (Outcome.ok v, s) →
      Event.solve_all_structs ∈ s.trace →
      check_if_sol_valid F p (O (initial_model F p)).2 = Except.ok v) := by
  rcases run_first_cases O F p fuel with
    ⟨h1, e, he, hr⟩ | ⟨h1, k, hk, hlt, hr⟩ | ⟨h1, k, hk, hge, hr⟩ | ⟨h1, hr⟩ | ⟨h1, h2, hr⟩
  · refine ⟨?_, ?_, ?_, ?_⟩
    · intro out s h
      rw [hr] at h
      simp only [Option.some.injEq, Prod.mk.injEq] at h
      rw [← h.2]
      constructor
      · intro hm; simp at hm
      · rintro ⟨-, k, hk, -⟩; rw [he] at hk; cases hk
    · intro h; rw [hr] at h; cases h
    · intro _ h0; rw [he] at h0; cases h0
    · intro v s h hm
      rw [hr] at h
      simp only [Option.some.injEq, Prod.mk.injEq] at h
      cases h.1
  · refine ⟨?_, ?_, ?_, ?_⟩
    · intro out s h
      rw [hr] at h
      simp only [Option.some.injEq, Prod.mk.injEq] at h
      rw [← h.2]
      constructor
      · intro hm; simp at hm
      · rintro ⟨-, k2, hk2, hge⟩
        rw [hk] at hk2
        injection hk2 with hk2
        omega
    · intro h; rw [hr] at h; cases h
    · intro _ h0
      rw [hk] at h0
      injection h0 with h0
      rw [hr, h0]
    · intro v s h hm
      rw [hr] at h
      simp only [Option.some.injEq, Prod.mk.injEq] at h
      rw [← h.2] at hm
      simp at hm
  · refine ⟨?_, ?_, ?_, ?_⟩
    · intro out s h
      obtain ⟨⟨new, hn⟩, -⟩ := run_entered O F p fuel k _ hr out s h
      constructor
      · intro _; exact ⟨h1, k, hk, hge⟩
      · intro _; rw [hn]; simp
    · intro _; exact ⟨h1, k, hk, hge⟩
    · intro _ h0
      rw [hk] at h0
      injection h0 with h0
      omega
    · intro v s h _
      obtain ⟨-, hv⟩ := run_entered O F p fuel k _ hr _ s h
      rw [hv v rfl]
      exact hk
  · have hne : (O (initial_model F p)).1 ≠ GRB_OPTIMAL := by
      rw [h1]; decide
    refine ⟨?_, ?_, ?_, ?_⟩
    · intro out s h
      rw [hr] at h
      simp only [Option.some.injEq, Prod.mk.injEq] at h
      rw [← h.2]
      constructor
      · intro hm; simp at hm
      · rintro ⟨h0, -⟩; exact absurd h0 hne
    · intro h; rw [hr] at h; cases h
    · intro h0; exact absurd h0 hne
    · intro v s h hm
      rw [hr] at h
      simp only [Option.some.injEq, Prod.mk.injEq] at h
      rw [← h.2] at hm
      simp at hm
  · refine ⟨?_, ?_, ?_, ?_⟩
    · intro out s h
      rw [hr] at h
      simp only [Option.some.injEq, Prod.mk.injEq] at h
      rw [← h.2]
      constructor
      · intro hm; simp at hm
      · rintro ⟨h0, -⟩; exact absurd h0 h1
    · intro h; rw [hr] at h; cases h
    · intro h0; exact absurd h0 h1
    · intro v s h hm
      rw [hr] at h
      simp only [Option.some.injEq, Prod.mk.injEq] at h
      cases h.1

/-! ## The zero-result signal -/

theorem feasible_of_validated (F : Fullerene) (p : Int) (X : GRBVar → Rat) (k : Int)
    (hk : check_if_sol_valid F p X = Except.ok k) :
    ∃ Y, (initial_model F p).feasible Y := by
  obtain ⟨hc, hp, -⟩ := (check_ok_iff F p X k).mp hk
  have hgt : ∀ v, (if X v > 99 / 100 then (1 : Rat) else 0) > 99 / 100 ↔ X v > 99 / 100 := by
    intro v
    by_cases h : X v > 99 / 100
    · simp only [h, if_true, iff_true]; norm_num
    · simp only [h, if_false, iff_false]; norm_num
  have hY : Binary (fun v => if X v > 99 / 100 then (1 : Rat) else 0) := by
    intro v
    by_cases h : X v > 99 / 100
    · right; simp only [h, if_true]
    · left; simp only [h, if_false]
  have hcov : ∀ i, covered F (fun v => if X v > 99 / 100 then (1 : Rat) else 0) i
      = covered F X i := by
    intro i
    rw [covered_eq_count, covered_eq_count]
    congr 1
    apply List.filter_congr
    intro y _
    simp only [decide_eq_decide]
    exact hgt y
  have hres : resFaces F (fun v => if X v > 99 / 100 then (1 : Rat) else 0) = resFaces F X :=
    resFaces_congr F _ X (fun k _ => hgt _)
  refine ⟨_, hY, (baseHolds_iff F p _ hY).mpr ⟨fun i hi => ?_, ?_⟩⟩
  · rw [hcov]; exact hc i hi
  · unfold resPents
    rw [hres]
    exact hp

/-- Claim C12: with an oracle that honours its contract, when the initial status is
INFEASIBLE the run makes exactly one `save_sol` call, with `num_res_faces = 0`, and no
assignment passes `check_if_sol_valid` for that graph and `p`.  Hence every `save_sol` call
made for a validated solution, one with resonant-face count 0 included, differs from the
zero-result call in the graph or in `p`, and one with count at least 1 differs in
`num_res_faces` as well. -/
theorem zero_signal_distinct (O : Oracle) (hO : OracleContract O) (F : Fullerene) (p : Int)
    (hinf : (O (initial_model F p)).1 = GRB_INFEASIBLE) :
    (∀ fuel, p_anionic_clar_lp O F p fuel
      = some (Outcome.ok 0,
          { model := (firstState F p O).model,
            trace := [Event.optimize (initial_model F p),
              Event.save_sol p 0 (O (initial_model F p)).2] })) ∧
    (∀ X k, check_if_sol_valid F p X ≠ Except.ok k) ∧
    (∀ (F2 : Fullerene) (p2 : Int) (X : GRBVar → Rat) (k : Int),
      check_if_sol_valid F2 p2 X = Except.ok k → F2 ≠ F ∨ p2 ≠ p) ∧
    (∀ (q k : Int) (X2 : GRBVar → Rat), 1 ≤ k →
      Event.save_sol p 0 (O (initial_model F p)).2 ≠ Event.save_sol q k X2) := by
  have hno : ¬ ∃ Y, (initial_model F p).feasible Y := by
    intro hex
    have hst := ((hO _ (initial_model_maximize F p)).1 hex).1
    rw [hinf] at hst
    exact absurd hst (by decide)
  have hnone : ∀ X k, check_if_sol_valid F p X ≠ Except.ok k :=
    fun X k hk => hno (feasible_of_validated F p X k hk)
  refine ⟨fun fuel => run_infeasible O F p hO hno fuel, hnone, ?_, ?_⟩
  · intro F2 p2 X k hk
    by_contra hcon
    push_neg at hcon
    obtain ⟨h1, h2⟩ := hcon
    subst h1
    subst h2
    exact hnone X k hk
  · intro q k X2 hpos h
    injection h with _ h2 _
    omega

/-! ## Solver statuses other than OPTIMAL and INFEASIBLE -/

theorem statusesFine_append (O : Oracle) (t l : List Event) :
    StatusesFine O (t ++ l) ↔ StatusesFine O t ∧ StatusesFine O l := by
  unfold StatusesFine
  constructor
  · intro h
    exact ⟨fun m hm => h m (List.mem_append_left _ hm),
      fun m hm => h m (List.mem_append_right _ hm)⟩
  · rintro ⟨h1, h2⟩ m hm
    rcases List.mem_append.mp hm with hm | hm
    · exact h1 m hm
    · exact h2 m hm

theorem solve_loop_status (O : Oracle) (F : Fullerene) (p v : Int) (rf me : List Nat)
    (fuel : Nat) :
    ∀ (s : State) (r : Outcome Unit × State), StatusesFine O s.trace →
      solve_loop O F p v rf me fuel s = some r →
      StatusGood O F p r.1.thrownExn r.2.trace := by
  induction fuel with
  | zero => intro s r _ h; simp [solve_loop] at h
  | succ fuel ih =>
    intro s r hfine h
    have aux : ∀ (s2 : State), StatusesFine O s2.trace →
        (match exlude_previous_sol F s2 rf me with
          | (Outcome.ok (), s3) => solve_loop O F p v rf me fuel s3
          | (Outcome.thrown e, s3) => some (Outcome.thrown e, s3)
          | (Outcome.undefined, s3) => some (Outcome.undefined, s3)) = some r →
        StatusGood O F p r.1.thrownExn r.2.trace := by
      intro s2 h2 hm
      rcases exlude_cases F s2 rf me with he | ⟨c, he⟩
      · rw [he] at hm
        simp only [Option.some.injEq] at hm
        rw [← hm]
        exact Or.inl h2
      · rw [he] at hm
        simp only at hm
        apply ih _ r _ hm
        rw [statusesFine_append]
        refine ⟨h2, ?_⟩
        intro m hmem; simp at hmem
    simp only [solve_loop] at h
    have htr : (optimize O s).trace = s.trace ++ [Event.optimize s.model] := rfl
    have hst : (optimize O s).model.status = (O s.model).1 := rfl
    have hfine1 : (O s.model).1 = GRB_OPTIMAL ∨ (O s.model).1 = GRB_INFEASIBLE →
        StatusesFine O (optimize O s).trace := by
      intro hor
      rw [htr, statusesFine_append]
      refine ⟨hfine, ?_⟩
      intro m hmem
      simp only [List.mem_singleton, Event.optimize.injEq] at hmem
      rw [hmem]; exact hor
    have hnone : StatusesFine O [Event.check_if_sol_valid] := by
      intro m hmem; simp at hmem
    rcases assess_rec_solve_cases F p (optimize O s) v with
      ⟨h1, e, -, ha⟩ | ⟨h1, hk, ha⟩ | ⟨h1, k, hk, -, ha⟩ | ⟨h1, ha⟩ | ⟨h1, h2, ha⟩
    · rw [ha] at h
      simp only [Option.some.injEq] at h
      rw [← h]
      left
      show StatusesFine O ((optimize O s).trace ++ [Event.check_if_sol_valid])
      rw [statusesFine_append]
      exact ⟨hfine1 (Or.inl (hst ▸ h1)), hnone⟩
    · rw [ha] at h
      simp only [if_true] at h
      apply aux _ _ h
      show StatusesFine O ((optimize O s).trace ++ _)
      rw [statusesFine_append]
      refine ⟨hfine1 (Or.inl (hst ▸ h1)), ?_⟩
      intro m hmem; simp at hmem
    · rw [ha] at h
      simp only [hk, if_false, Option.some.injEq] at h
      rw [← h]
      left
      show StatusesFine O ((optimize O s).trace ++ [Event.check_if_sol_valid])
      rw [statusesFine_append]
      exact ⟨hfine1 (Or.inl (hst ▸ h1)), hnone⟩
    · rw [ha] at h
      have hf := hfine1 (Or.inr (hst ▸ h1))
      by_cases h0 : (0 : Int) = v
      · simp only [h0, if_true] at h
        exact aux _ hf h
      · simp only [h0, if_false, Option.some.injEq] at h
        rw [← h]
        exact Or.inl hf
    · rw [ha] at h
      simp only [Option.some.injEq] at h
      rw [← h]
      right
      rw [hst] at h1 h2
      exact ⟨s.trace, s.model, htr, hfine, h1, h2, by rw [hst]; rfl⟩

theorem solve_all_structs_status (O : Oracle) (F : Fullerene) (p v : Int) (fuel : Nat)
    (s : State) (r : Outcome Int × State) (hfine : StatusesFine O s.trace)
    (h : solve_all_structs O F p s v fuel = some r) :
    StatusGood O F p (r.1.thrownExn.map (handle F p)) r.2.trace := by
  have hfine0 : StatusesFine O (s.log Event.solve_all_structs).trace := by
    show StatusesFine O (s.trace ++ [Event.solve_all_structs])
    rw [statusesFine_append]
    exact ⟨hfine, fun m hmem => by simp at hmem⟩
  unfold solve_all_structs at h
  by_cases hg : v < 0 ∨ num_match_e F p v < 0
  · simp only [hg, if_true, Option.some.injEq] at h
    rw [← h]
    exact Or.inl hfine0
  · simp only [hg, if_false] at h
    rcases exlude_cases F (s.log Event.solve_all_structs) (List.replicate v.toNat 0)
        (List.replicate (num_match_e F p v).toNat 0) with he | ⟨c, he⟩
    · rw [he] at h
      simp only [Option.some.injEq] at h
      rw [← h]
      exact Or.inl hfine0
    · rw [he] at h
      simp only at h
      cases hl : solve_loop O F p v (List.replicate v.toNat 0)
          (List.replicate (num_match_e F p v).toNat 0) fuel
          (add_Clar_num_cons F v
            { model := (s.log Event.solve_all_structs).model.reset.addConstr c,
              trace := (s.log Event.solve_all_structs).trace ++ [Event.cut c] }) with
      | none => rw [hl] at h; cases h
      | some r2 =>
        have hf2 : StatusesFine O (add_Clar_num_cons F v
            { model := (s.log Event.solve_all_structs).model.reset.addConstr c,
              trace := (s.log Event.solve_all_structs).trace ++ [Event.cut c] }).trace := by
          rw [add_Clar_eq]
          show StatusesFine O (((s.log Event.solve_all_structs).trace ++ [Event.cut c]) ++ _)
          rw [statusesFine_append, statusesFine_append]
          exact ⟨⟨hfine0, fun m hmem => by simp at hmem⟩, fun m hmem => by simp at hmem⟩
        have hgood := solve_loop_status O F p v _ _ fuel _ r2 hf2 hl
        rw [hl] at h
        obtain ⟨o, s3⟩ := r2
        cases o with
        | ok u =>
          simp only [Option.some.injEq] at h
          rw [← h]
          rcases hgood with hg1 | ⟨t, m, -, -, -, -, herr⟩
          · exact Or.inl hg1
          · cases herr
        | thrown e =>
          simp only [Option.some.injEq] at h
          rw [← h]
          rcases hgood with hg1 | ⟨t, m, h1, h2, h3, h4, herr⟩
          · exact Or.inl hg1
          · right
            refine ⟨t, m, h1, h2, h3, h4, ?_⟩
            simp only [Outcome.thrownExn, Option.some.injEq] at herr
            simp only [Outcome.thrownExn, Option.map_some', herr]
            rfl
        | undefined =>
          simp only [Option.some.injEq] at h
          rw [← h]
          rcases hgood with hg1 | ⟨t, m, -, -, -, -, herr⟩
          · exact Or.inl hg1
          · cases herr

theorem run_status (O : Oracle) (F : Fullerene) (p : Int) (fuel : Nat)
    (out : Outcome Int) (s : State)
    (h : p_anionic_clar_lp O F p fuel = some (out, s)) :
    StatusGood O F p out.thrownExn s.trace := by
  have hfine1 : (O (initial_model F p)).1 = GRB_OPTIMAL ∨
      (O (initial_model F p)).1 = GRB_INFEASIBLE →
      ∀ l, (∀ m, Event.optimize m ∉ l) →
        StatusesFine O (Event.optimize (initial_model F p) :: l) := by
    intro hor l hl m hmem
    rcases List.mem_cons.mp hmem with hmem | hmem
    · injection hmem with hmem
      rw [hmem]; exact hor
    · exact absurd hmem (hl m)
  rcases run_first_cases O F p fuel with
    ⟨h1, e, he, hr⟩ | ⟨h1, k, hk, hlt, hr⟩ | ⟨h1, k, hk, hge, hr⟩ | ⟨h1, hr⟩ | ⟨h1, h2, hr⟩
  · rw [hr] at h
    simp only [Option.some.injEq, Prod.mk.injEq] at h
    rw [← h.2]
    exact Or.inl (hfine1 (Or.inl h1) _ (fun m hm => by simp at hm))
  · rw [hr] at h
    simp only [Option.some.injEq, Prod.mk.injEq] at h
    rw [← h.2]
    exact Or.inl (hfine1 (Or.inl h1) _ (fun m hm => by simp at hm))
  · rw [hr] at h
    cases hs : solve_all_structs O F p
        { model := (firstState F p O).model,
          trace := [Event.optimize (initial_model F p), Event.check_if_sol_valid,
            Event.save_sol p k (O (initial_model F p)).2] } k fuel with
    | none => rw [hs] at h; cases h
    | some r =>
      have hgood := solve_all_structs_status O F p k fuel _ r
        (hfine1 (Or.inl h1) _ (fun m hm => by simp at hm)) hs
      rw [hs] at h
      obtain ⟨o, s2⟩ := r
      cases o with
      | ok u =>
        simp only [Option.some.injEq, Prod.mk.injEq] at h
        rw [← h.1, ← h.2]
        exact hgood
      | thrown e =>
        simp only [Option.some.injEq, Prod.mk.injEq] at h
        rw [← h.1, ← h.2]
        exact hgood
      | undefined =>
        simp only [Option.some.injEq, Prod.mk.injEq] at h
        rw [← h.1, ← h.2]
        exact hgood
  · rw [hr] at h
    simp only [Option.some.injEq, Prod.mk.injEq] at h
    rw [← h.2]
    exact Or.inl (hfine1 (Or.inr h1) _ (fun m hm => by simp at hm))
  · rw [hr] at h
    simp only [Option.some.injEq, Prod.mk.injEq] at h
    rw [← h.1, ← h.2]
    right
    exact ⟨[], initial_model F p, rfl, fun m hm => by simp at hm, h1, h2, rfl⟩

theorem split_of_statusGood (O : Oracle) (F : Fullerene) (p : Int) (err : Option Exn)
    (tr : List Event) (hG : StatusGood O F p err tr)
    (t : List Event) (m : GRBModel) (t2 : List Event)
    (hsplit : tr = t ++ Event.optimize m :: t2)
    (h1 : (O m).1 ≠ GRB_OPTIMAL) (h2 : (O m).1 ≠ GRB_INFEASIBLE) :
    t2 = [] ∧ err = some (throw_error F.n p F.id (status_msg (O m).1)) := by
  rcases hG with hfine | ⟨t0, m0, htr, hfine, -, -, herr⟩
  · have := hfine m (by rw [hsplit]; simp)
    rcases this with h | h
    · exact absurd h h1
    · exact absurd h h2
  · rcases List.eq_nil_or_concat t2 with hnil | ⟨t3, last, hcons⟩
    · subst hnil
      rw [htr] at hsplit
      have := List.append_inj' hsplit rfl
      simp only [List.cons.injEq, Event.optimize.injEq, and_true] at this
      rw [← this.2]
      exact ⟨rfl, herr⟩
    · rw [hcons, htr] at hsplit
      have hsplit2 : t0 ++ [Event.optimize m0] = (t ++ Event.optimize m :: t3) ++ [last] := by
        rw [hsplit]; simp
      have := List.append_inj' hsplit2 rfl
      have hmem : Event.optimize m ∈ t0 := by rw [this.1]; simp
      rcases hfine m hmem with h | h
      · exact absurd h h1
      · exact absurd h h2

/-- Claim C13: if the solver status after a solve is neither OPTIMAL nor INFEASIBLE, both
`assess_solve` and `assess_rec_solve` raise the error of `throw_error` with `F.n`, `p`,
`F.id` and a message that contains the raw status code, and call neither `save_sol` nor
`check_if_sol_valid`; in a run of `p_anionic_clar_lp` such a solve is the last event and
the run ends with that very error. -/
theorem status_error_fatal (O : Oracle) (F : Fullerene) (p : Int) (s : State)
    (opt_val : Int) (hs1 : s.model.status ≠ GRB_OPTIMAL)
    (hs2 : s.model.status ≠ GRB_INFEASIBLE) :
    assess_solve F p s
      = (Outcome.thrown (throw_error F.n p F.id
          ("\nStatus of solve: " ++ toString s.model.status
            ++ "\nCheck Gurobi Optimization Status Codes")), s) ∧
    assess_rec_solve F p s opt_val
      = (Outcome.thrown (throw_error F.n p F.id
          ("\nStatus of solve: " ++ toString s.model.status
            ++ "\nCheck Gurobi Optimization Status Codes")), s) ∧
    (∀ fuel out s2, p_anionic_clar_lp O F p fuel = some (out, s2) →
      ∀ t m t2, s2.trace = t ++ Event.optimize m :: t2 →
        (O m).1 ≠ GRB_OPTIMAL → (O m).1 ≠ GRB_INFEASIBLE →
        t2 = [] ∧
        out = Outcome.thrown (throw_error F.n p F.id
          ("\nStatus of solve: " ++ toString (O m).1
            ++ "\nCheck Gurobi Optimization Status Codes"))) := by
  refine ⟨?_, ?_, ?_⟩
  · unfold assess_solve
    simp [hs1, hs2, status_msg]
  · unfold assess_rec_solve
    simp [hs1, hs2, status_msg]
  · intro fuel out s2 hrun t m t2 hsplit h1 h2
    obtain ⟨ht2, herr⟩ := split_of_statusGood O F p _ _ (run_status O F p fuel out s2 hrun)
      t m t2 hsplit h1 h2
    refine ⟨ht2, ?_⟩
    cases out with
    | ok u => cases herr
    | thrown e =>
      simp only [Outcome.thrownExn, Option.some.injEq] at herr
      rw [herr]
      rfl
    | undefined => cases herr

/-! ## Two oracles -/

theorem preferring_contract (Y : GRBVar → Rat) (hY : Binary Y) :
    OracleContract (preferring Y) := by
  intro m hm
  obtain ⟨hb1, hb2⟩ := bruteForce_contract m hm
  by_cases hc : (∀ c ∈ m.constrs, c.holds Y) ∧ (bruteForce m).1 = GRB_OPTIMAL ∧
      m.objective (bruteForce m).2 ≤ m.objective Y
  · have hp : preferring Y m = (GRB_OPTIMAL, Y) := by
      unfold preferring
      rw [if_pos hc]
    rw [hp]
    constructor
    · intro hex
      obtain ⟨-, -, hmax⟩ := hb1 hex
      refine ⟨rfl, ⟨hY, hc.1⟩, ?_⟩
      intro Z hZ
      exact le_trans (hmax Z hZ) hc.2.2
    · intro hno
      exact absurd ⟨Y, hY, hc.1⟩ hno
  · have hp : preferring Y m = bruteForce m := by
      unfold preferring
      rw [if_neg hc]
    rw [hp]
    exact ⟨hb1, hb2⟩

theorem preferring_dodecahedron (M : List Nat)
    (hM : baseHolds dodecahedron 0 (indicator [] M)) :
    preferring (indicator [] M) (initial_model dodecahedron 0)
      = (GRB_OPTIMAL, indicator [] M) := by
  obtain ⟨hst, hbin, -, -, -, -, -⟩ :=
    first_facts bruteForce dodecahedron 0 bruteForce_contract dodecahedron_feasible
  have hopt := dodecahedron_opt bruteForce bruteForce_contract
  unfold preferring
  rw [if_pos]
  refine ⟨hM, hst, ?_⟩
  rw [objective_eq dodecahedron 0 _ rfl _ hbin,
    objective_eq dodecahedron 0 _ rfl _ (binary_indicator _ _), hopt]
  simp

theorem dodecahedron_wellFormed : WellFormed dodecahedron := by
  refine ⟨⟨⟨by decide, by decide, by decide⟩, dodecahedron_inRange⟩, ?_, ?_⟩
  · decide
  · decide

theorem optima_agree (O1 O2 : Oracle) (F : Fullerene) (p : Int)
    (h1 : OracleContract O1) (h2 : OracleContract O2)
    (hex : ∃ Y, (initial_model F p).feasible Y) :
    (resFaces F (O1 (initial_model F p)).2).length
      = (resFaces F (O2 (initial_model F p)).2).length := by
  obtain ⟨-, hb1, hh1, -, -, -, hm1⟩ := first_facts O1 F p h1 hex
  obtain ⟨-, hb2, hh2, -, -, -, hm2⟩ := first_facts O2 F p h2 hex
  have a := hm1 _ hb2 hh2
  have b := hm2 _ hb1 hh1
  omega

/-- Claim C14 (as stated, it fails): on the dodecahedron with `p = 0`, two oracles that
both honour the contract establish `opt_val = 0`, and each run records the single
solution its oracle returned first: two different perfect matchings. -/
theorem runs_differ_on_dodecahedron :
    OracleContract (preferring (indicator [] [0, 2, 9, 10, 12, 14, 16, 24, 25, 27])) ∧
    OracleContract (preferring (indicator [] [0, 2, 9, 11, 13, 15, 19, 23, 26, 29])) ∧
    WellFormed dodecahedron ∧
    ∃ s1 s2,
      p_anionic_clar_lp (preferring (indicator [] [0, 2, 9, 10, 12, 14, 16, 24, 25, 27]))
        dodecahedron 0 100 = some (Outcome.ok 0, s1) ∧
      p_anionic_clar_lp (preferring (indicator [] [0, 2, 9, 11, 13, 15, 19, 23, 26, 29]))
        dodecahedron 0 100 = some (Outcome.ok 0, s2) ∧
      savedPairs dodecahedron s1.trace = [([], [0, 2, 9, 10, 12, 14, 16, 24, 25, 27])] ∧
      savedPairs dodecahedron s2.trace = [([], [0, 2, 9, 11, 13, 15, 19, 23, 26, 29])] ∧
      ¬ (∀ S, S ∈ savedPairs dodecahedron s1.trace ↔ S ∈ savedPairs dodecahedron s2.trace) := by
  have hc1 := preferring_contract _
    (binary_indicator [] [0, 2, 9, 10, 12, 14, 16, 24, 25, 27])
  have hc2 := preferring_contract _
    (binary_indicator [] [0, 2, 9, 11, 13, 15, 19, 23, 26, 29])
  have hp1 := preferring_dodecahedron _ dodecahedron_matching1
  have hp2 := preferring_dodecahedron _ dodecahedron_matching2
  have hr1 : resFaces dodecahedron (indicator [] [0, 2, 9, 10, 12, 14, 16, 24, 25, 27]) = [] := by
    rw [resFaces_indicator_eq]; decide
  have hr2 : resFaces dodecahedron (indicator [] [0, 2, 9, 11, 13, 15, 19, 23, 26, 29]) = [] := by
    rw [resFaces_indicator_eq]; decide
  have hm1 : matchEdges dodecahedron (indicator [] [0, 2, 9, 10, 12, 14, 16, 24, 25, 27])
      = [0, 2, 9, 10, 12, 14, 16, 24, 25, 27] := by
    rw [matchEdges_indicator_eq]; decide
  have hm2 : matchEdges dodecahedron (indicator [] [0, 2, 9, 11, 13, 15, 19, 23, 26, 29])
      = [0, 2, 9, 11, 13, 15, 19, 23, 26, 29] := by
    rw [matchEdges_indicator_eq]; decide
  have hrun1 := run_zero _ dodecahedron 0 hc1 dodecahedron_feasible
    (by rw [hp1]; simp only [hr1]; decide) 100
  have hrun2 := run_zero _ dodecahedron 0 hc2 dodecahedron_feasible
    (by rw [hp2]; simp only [hr2]; decide) 100
  rw [hp1] at hrun1
  rw [hp2] at hrun2
  simp only [hr1, List.length_nil, Nat.cast_zero] at hrun1
  simp only [hr2, List.length_nil, Nat.cast_zero] at hrun2
  refine ⟨hc1, hc2, dodecahedron_wellFormed, _, _, hrun1, hrun2, ?_, ?_, ?_⟩
  · simp only [savedPairs, hr1, hm1]
  · simp only [savedPairs, hr2, hm2]
  · intro hall
    have := (hall ([], [0, 2, 9, 10, 12, 14, 16, 24, 25, 27])).mp
      (by simp only [savedPairs, hr1, hm1, List.mem_singleton])
    simp only [savedPairs, hr2, hm2, List.mem_singleton, Prod.mk.injEq, true_and] at this
    exact absurd this (by decide)

/-- Claim C14 (amended): for a well-formed fullerene view and two oracles that both
honour the contract, two runs of `p_anionic_clar_lp` that return end with the same
result and the first solves have the same validated count; when that optimum is at
least 1 the two runs record the same set of (resonant faces, matching edges) pairs. -/
theorem runs_agree (O1 O2 : Oracle) (F : Fullerene) (p : Int) (fuel1 fuel2 : Nat)
    (out1 out2 : Outcome Int) (s1 s2 : State)
    (h1 : OracleContract O1) (h2 : OracleContract O2) (hW : WellFormed F)
    (hr1 : p_anionic_clar_lp O1 F p fuel1 = some (out1, s1))
    (hr2 : p_anionic_clar_lp O2 F p fuel2 = some (out2, s2)) :
    out1 = out2 ∧
    ((∃ Y, (initial_model F p).feasible Y) →
      check_if_sol_valid F p (O1 (initial_model F p)).2
        = check_if_sol_valid F p (O2 (initial_model F p)).2) ∧
    (∀ v, out1 = Outcome.ok v → 1 ≤ v →
      ∀ S, S ∈ savedPairs F s1.trace ↔ S ∈ savedPairs F s2.trace) := by
  have hcheck : (∃ Y, (initial_model F p).feasible Y) →
      check_if_sol_valid F p (O1 (initial_model F p)).2
        = check_if_sol_valid F p (O2 (initial_model F p)).2 := by
    intro hex
    obtain ⟨-, -, -, -, -, hc1, -⟩ := first_facts O1 F p h1 hex
    obtain ⟨-, -, -, -, -, hc2, -⟩ := first_facts O2 F p h2 hex
    rw [hc1, hc2, optima_agree O1 O2 F p h1 h2 hex]
  rcases run_shape O1 F p h1 hW fuel1 out1 s1 hr1 with
    ⟨hno, ho1, -⟩ | ⟨hex, hlt1, ho1, -⟩ | ⟨hex, hge1, ho1, hd1⟩
  · rcases run_shape O2 F p h2 hW fuel2 out2 s2 hr2 with
      ⟨-, ho2, -⟩ | ⟨hex, -, -, -⟩ | ⟨hex, -, -, -⟩
    · refine ⟨by rw [ho1, ho2], hcheck, ?_⟩
      intro v hv hpos
      rw [ho1] at hv
      injection hv with hv
      omega
    · exact absurd hex hno
    · exact absurd hex hno
  · have heq := optima_agree O1 O2 F p h1 h2 hex
    rcases run_shape O2 F p h2 hW fuel2 out2 s2 hr2 with
      ⟨hno, -, -⟩ | ⟨-, -, ho2, -⟩ | ⟨-, hge2, -, -⟩
    · exact absurd hex hno
    · refine ⟨by rw [ho1, ho2], hcheck, ?_⟩
      intro v hv hpos
      rw [ho1] at hv
      injection hv with hv
      omega
    · omega
  · have heq := optima_agree O1 O2 F p h1 h2 hex
    rcases run_shape O2 F p h2 hW fuel2 out2 s2 hr2 with
      ⟨hno, -, -⟩ | ⟨-, hlt2, -, -⟩ | ⟨-, -, ho2, hd2⟩
    · exact absurd hex hno
    · omega
    · refine ⟨by rw [ho1, ho2, heq], hcheck, ?_⟩
      intro v hv hpos S
      rw [heq] at hd1
      rw [hd1.saved_iff, hd2.saved_iff]

/-! ## The errors of the validator -/

theorem find_range_least (P : Nat → Bool) (n : Nat) :
    ∀ w, (List.range n).find? P = some w →
      w < n ∧ P w = true ∧ ∀ u, u < w → P u = false := by
  induction n with
  | zero => intro w h; simp at h
  | succ n ih =>
    intro w h
    rw [List.range_succ, List.find?_append] at h
    cases hf : (List.range n).find? P with
    | some w2 =>
      rw [hf] at h
      have h : w2 = w := by simpa [Option.or] using h
      subst h
      obtain ⟨a, b, c⟩ := ih w2 hf
      exact ⟨by omega, b, c⟩
    | none =>
      rw [hf] at h
      have h : List.find? P [n] = some w := by simpa [Option.or] using h
      have hw := List.mem_of_find?_eq_some h
      simp only [List.mem_singleton] at hw
      subst hw
      refine ⟨by omega, List.find?_some h, ?_⟩
      intro u hu
      rw [List.find?_eq_none] at hf
      have := hf u (List.mem_range.mpr hu)
      simpa using this

theorem find_range_eq_some (P : Nat → Bool) (n v : Nat) (hv : v < n) (hP : P v = true)
    (hleast : ∀ u, u < v → P u = false) : (List.range n).find? P = some v := by
  cases hf : (List.range n).find? P with
  | none =>
    rw [List.find?_eq_none] at hf
    have := hf v (List.mem_range.mpr hv)
    rw [hP] at this
    exact absurd rfl this
  | some w =>
    obtain ⟨-, b, c⟩ := find_range_least P n w hf
    rcases Nat.lt_trichotomy w v with h | h | h
    · have := hleast w h
      rw [b] at this
      cases this
    · rw [h]
    · have := c v h
      rw [hP] at this
      cases this

theorem covered_eq_six (F : Fullerene) (X : GRBVar → Rat) (v : Nat) :
    covered F X v
      = ([GRBVar.e ((F.primal v).edges 0), GRBVar.f ((F.primal v).faces 0),
          GRBVar.e ((F.primal v).edges 1), GRBVar.f ((F.primal v).faces 1),
          GRBVar.e ((F.primal v).edges 2), GRBVar.f ((F.primal v).faces 2)].filter
        (fun y => decide (X y > 99 / 100))).length := by
  rw [covered_eq_count, cons1_eq]

/-- Claim C15: `check_if_sol_valid` raises an error if and only if some vertex `v < n` has
a number of incident edge and face variables (its 3 edges and 3 faces) with value above
0.99 different from 1, or the number of faces of size 5 with value above 0.99 differs
from `p`; with a mis-covered vertex the error names the lowest-indexed one and that
number, otherwise the pentagon error carries the actual count; the code's counter
`covered` is that number; the assessment functions, which call the validator, leave the
model (and its variable values) unchanged. -/
theorem validator_errors (F : Fullerene) (p : Int) (X : GRBVar → Rat) :
    ((∃ e, check_if_sol_valid F p X = Except.error e) ↔
      ((∃ v, v < F.n ∧
          (([GRBVar.e ((F.primal v).edges 0), GRBVar.f ((F.primal v).faces 0),
            GRBVar.e ((F.primal v).edges 1), GRBVar.f ((F.primal v).faces 1),
            GRBVar.e ((F.primal v).edges 2), GRBVar.f ((F.primal v).faces 2)].filter
          (fun y => decide (X y > 99 / 100))).length) ≠ 1) ∨
        (((List.range F.dual_n).filter
          (fun i => decide (X (GRBVar.f i) > 99 / 100 ∧ (F.dual i).size = 5))).length : Int)
            ≠ p)) ∧
    (∀ v, v < F.n →
      (([GRBVar.e ((F.primal v).edges 0), GRBVar.f ((F.primal v).faces 0),
            GRBVar.e ((F.primal v).edges 1), GRBVar.f ((F.primal v).faces 1),
            GRBVar.e ((F.primal v).edges 2), GRBVar.f ((F.primal v).faces 2)].filter
          (fun y => decide (X y > 99 / 100))).length) ≠ 1 →
      (∀ u, u < v →
        (([GRBVar.e ((F.primal u).edges 0), GRBVar.f ((F.primal u).faces 0),
            GRBVar.e ((F.primal u).edges 1), GRBVar.f ((F.primal u).faces 1),
            GRBVar.e ((F.primal u).edges 2), GRBVar.f ((F.primal u).faces 2)].filter
          (fun y => decide (X y > 99 / 100))).length) = 1) →
      check_if_sol_valid F p X = Except.error (throw_error F.n p F.id
        ("\nVertex " ++ toString v ++ " is covered " ++ toString
          (([GRBVar.e ((F.primal v).edges 0), GRBVar.f ((F.primal v).faces 0),
            GRBVar.e ((F.primal v).edges 1), GRBVar.f ((F.primal v).faces 1),
            GRBVar.e ((F.primal v).edges 2), GRBVar.f ((F.primal v).faces 2)].filter
          (fun y => decide (X y > 99 / 100))).length)
          ++ " times."))) ∧
    ((∀ v, v < F.n →
        (([GRBVar.e ((F.primal v).edges 0), GRBVar.f ((F.primal v).faces 0),
            GRBVar.e ((F.primal v).edges 1), GRBVar.f ((F.primal v).faces 1),
            GRBVar.e ((F.primal v).edges 2), GRBVar.f ((F.primal v).faces 2)].filter
          (fun y => decide (X y > 99 / 100))).length) = 1) →
      (((List.range F.dual_n).filter
        (fun i => decide (X (GRBVar.f i) > 99 / 100 ∧ (F.dual i).size = 5))).length : Int)
          ≠ p →
      check_if_sol_valid F p X = Except.error (throw_error F.n p F.id
        ("\nIncorrect # of res. pents: " ++ toString
          ((List.range F.dual_n).filter
            (fun i => decide (X (GRBVar.f i) > 99 / 100 ∧ (F.dual i).size = 5))).length))) ∧
    (∀ v, covered F X v
      = (([GRBVar.e ((F.primal v).edges 0), GRBVar.f ((F.primal v).faces 0),
            GRBVar.e ((F.primal v).edges 1), GRBVar.f ((F.primal v).faces 1),
            GRBVar.e ((F.primal v).edges 2), GRBVar.f ((F.primal v).faces 2)].filter
          (fun y => decide (X y > 99 / 100))).length)) ∧
    (∀ (s : State) (opt_val : Int),
      (assess_solve F p s).2.model = s.model ∧
      (assess_rec_solve F p s opt_val).2.model = s.model) := by
  simp only [← covered_eq_six]
  rw [← resPents_eq]
  refine ⟨?_, ?_, ?_, fun _ => trivial, ?_⟩
  · constructor
    · rintro ⟨e, he⟩
      by_contra hcon
      push_neg at hcon
      have := (check_ok_iff F p X ((resFaces F X).length : Int)).mpr ⟨hcon.1, hcon.2, rfl⟩
      rw [he] at this
      cases this
    · intro h
      cases hc : check_if_sol_valid F p X with
      | error e => exact ⟨e, rfl⟩
      | ok k =>
        obtain ⟨h1, h2, -⟩ := (check_ok_iff F p X k).mp hc
        rcases h with ⟨v, hv, hne⟩ | hne
        · exact absurd (h1 v hv) hne
        · exact absurd h2 hne
  · intro v hv hne hleast
    have hf : (List.range F.n).find? (fun i => decide (covered F X i ≠ 1)) = some v := by
      apply find_range_eq_some _ _ _ hv
      · simpa using hne
      · intro u hu; simpa using hleast u hu
    unfold check_if_sol_valid
    rw [hf]
  · intro hall hne
    have hf : (List.range F.n).find? (fun i => decide (covered F X i ≠ 1)) = none := by
      rw [List.find?_eq_none]
      intro x hx
      simpa using hall x (List.mem_range.mp hx)
    unfold check_if_sol_valid
    rw [hf, count_faces_eq]
    simp only [ne_eq, hne, not_false_eq_true, if_true]
  · intro s opt_val
    constructor
    · rcases assess_solve_cases F p s with ⟨-, e, -, h⟩ | ⟨-, k, -, h⟩ | ⟨-, h⟩ | ⟨-, -, h⟩
      all_goals (rw [h]; try rfl)
    · rcases assess_rec_solve_cases F p s opt_val with
        ⟨-, e, -, h⟩ | ⟨-, -, h⟩ | ⟨-, k, -, -, h⟩ | ⟨-, h⟩ | ⟨-, -, h⟩
      all_goals (rw [h]; try rfl)

/-! ## The validator's count and the objective -/

/-- Claim C16: for an assignment that `check_if_sol_valid` accepts, the returned value is
the number of face indices whose value exceeds the tolerance; for a 0/1 assignment it
is the objective value of the model built by `add_vars`, in which face variables have
objective coefficient 1 and edge variables 0. -/
theorem count_is_objective (F : Fullerene) (p : Int) (X : GRBVar → Rat) (k : Int)
    (hk : check_if_sol_valid F p X = Except.ok k) :
    k = (((List.range F.dual_n).filter
      (fun i => decide (X (GRBVar.f i) > 99 / 100))).length : Int) ∧
    (add_vars F new_model).vars
      = (List.range F.dual_n).map
          (fun i => { var := GRBVar.f i, lb := 0, ub := 1, obj := 1, binary := true })
        ++ (List.range F.num_edges).map
          (fun i => { var := GRBVar.e i, lb := 0, ub := 1, obj := 0, binary := true }) ∧
    (Binary X →
      (add_vars F new_model).objective X = (k : Rat) ∧
      (initial_model F p).objective X = (k : Rat)) := by
  have hk2 := ((check_ok_iff F p X k).mp hk).2.2
  refine ⟨hk2, ?_, ?_⟩
  · rw [add_vars_vars]; simp [new_model]
  · intro hX
    have hv : (add_vars F new_model).vars = (initial_model F p).vars := by
      unfold initial_model
      rw [(add_cons_vars F p _).1]
    rw [objective_eq F p _ hv X hX, objective_eq F p _ rfl X hX, hk2]
    simp

theorem sum_boole_range (P : Nat → Prop) [DecidablePred P] (n : Nat) :
    (∑ i in Finset.range n, if P i then 1 else 0)
      = ((List.range n).filter (fun i => decide (P i))).length := by
  induction n with
  | zero => simp
  | succ n ih =>
    rw [Finset.sum_range_succ, ih, List.range_succ, List.filter_append, List.length_append]
    by_cases h : P n <;> simp [h]

theorem sum_slots_injective (g : Fin 3 → Nat) (hg : Function.Injective g) (f : Nat) :
    (∑ j : Fin 3, if g j = f then 1 else 0) = if ∃ j : Fin 3, g j = f then 1 else 0 := by
  have h01 : g 0 ≠ g 1 := fun h => absurd (hg h) (by decide)
  have h02 : g 0 ≠ g 2 := fun h => absurd (hg h) (by decide)
  have h12 : g 1 ≠ g 2 := fun h => absurd (hg h) (by decide)
  have hex : (∃ j : Fin 3, g j = f) ↔ (g 0 = f ∨ g 1 = f ∨ g 2 = f) := by
    constructor
    · rintro ⟨j, hj⟩
      fin_cases j
      · exact Or.inl hj
      · exact Or.inr (Or.inl hj)
      · exact Or.inr (Or.inr hj)
    · rintro (h | h | h)
      · exact ⟨0, h⟩
      · exact ⟨1, h⟩
      · exact ⟨2, h⟩
  rw [Fin.sum_univ_three]
  by_cases h0 : g 0 = f
  · have h1 : g 1 ≠ f := fun h => h01 (h0.trans h.symm)
    have h2 : g 2 ≠ f := fun h => h02 (h0.trans h.symm)
    simp [hex, h0, h1, h2]
  · by_cases h1 : g 1 = f
    · have h2 : g 2 ≠ f := fun h => h12 (h1.trans h.symm)
      simp [hex, h0, h1, h2]
    · by_cases h2 : g 2 = f
      · simp [hex, h0, h1, h2]
      · simp [hex, h0, h1, h2]

theorem faceInc_eq_faceVertices (F : Fullerene)
    (hinj : ∀ i, i < F.n → Function.Injective (F.primal i).faces) (f : Nat) :
    faceInc F f = faceVertices F f := by
  unfold faceInc faceVertices
  rw [← sum_boole_range]
  apply Finset.sum_congr rfl
  intro i hi
  exact sum_slots_injective _ (hinj i (Finset.mem_range.mp hi)) f

theorem edgeInc_eq_edgeVertices (F : Fullerene)
    (hinj : ∀ i, i < F.n → Function.Injective (F.primal i).edges) (e : Nat) :
    edgeInc F e = edgeVertices F e := by
  unfold edgeInc edgeVertices
  rw [← sum_boole_range]
  apply Finset.sum_congr rfl
  intro i hi
  exact sum_slots_injective _ (hinj i (Finset.mem_range.mp hi)) e

theorem wellFormed_of_shape (F : Fullerene) (hG : GraphView F) (hS : FullereneShape F) :
    WellFormed F := by
  obtain ⟨hf, he, hinj⟩ := hS
  refine ⟨hG, ?_, ?_⟩
  · intro f hlt
    rw [faceInc_eq_faceVertices F (fun i hi => (hinj i hi).2)]
    exact hf f hlt
  · intro e hlt
    rw [edgeInc_eq_edgeVertices F (fun i hi => (hinj i hi).1)]
    exact he e hlt

/-- Claim C18: the pre-sizing formula is exact.  For a graph (fields `int`, indices valid)
in which each face has size 5 or 6 and lies on exactly that many vertices, each edge lies on
exactly two vertices and the three edges and the three faces of a vertex are distinct, and
for an assignment that `check_if_sol_valid` accepts with result `opt_val`: the numerator
`n - 5*p - 6*(opt_val - p)` is twice the number of edges with value above 0.99 (so it is
non-negative and even), `num_match_e` is that number, `opt_val` is the number of faces
with value above 0.99, no vector size is negative, and both recording loops of
`exlude_previous_sol` stay inside the pre-sized vectors and fill every entry. -/
theorem presizing_exact (F : Fullerene) (hG : GraphView F) (hS : FullereneShape F) (p : Int)
    (X : GRBVar → Rat) (opt_val : Int)
    (hk : check_if_sol_valid F p X = Except.ok opt_val) :
    (F.n : Int) - 5 * p - 6 * (opt_val - p) = 2 * ((matchEdges F X).length : Int) ∧
    num_match_e F p opt_val = ((matchEdges F X).length : Int) ∧
    opt_val = ((resFaces F X).length : Int) ∧
    ¬ (opt_val < 0 ∨ num_match_e F p opt_val < 0) ∧
    (List.replicate opt_val.toNat 0).length = (resFaces F X).length ∧
    (List.replicate (num_match_e F p opt_val).toNat 0).length = (matchEdges F X).length ∧
    record_sol (fun i => X (GRBVar.f i)) F.dual_n (List.replicate opt_val.toNat 0)
      = some (resFaces F X, opt_val.toNat) ∧
    record_sol (fun i => X (GRBVar.e i)) F.num_edges
        (List.replicate (num_match_e F p opt_val).toNat 0)
      = some (matchEdges F X, (num_match_e F p opt_val).toNat) ∧
    (∀ s : State, s.model.X = X →
      (exlude_previous_sol F s (List.replicate opt_val.toNat 0)
        (List.replicate (num_match_e F p opt_val).toNat 0)).1 = Outcome.ok ()) := by
  have hW := wellFormed_of_shape F hG hS
  obtain ⟨hc, hp, hkv⟩ := (check_ok_iff F p X opt_val).mp hk
  have hm := num_match_e_eq F hW p X hc hp
  rw [← hkv] at hm
  have hcount := vertex_count F hW X hc
  have hle := resPents_length_le F X
  have hlf : (List.replicate opt_val.toNat 0).length = (resFaces F X).length := by
    rw [List.length_replicate, hkv]; simp
  have hle2 : (List.replicate (num_match_e F p opt_val).toNat 0).length
      = (matchEdges F X).length := by
    rw [List.length_replicate, hm]; simp
  refine ⟨by omega, hm, hkv, by omega, hlf, hle2, ?_, ?_, ?_⟩
  · have h := record_sol_exact (fun i => X (GRBVar.f i)) F.dual_n
      (List.replicate opt_val.toNat 0) hlf
    rw [h, List.length_replicate]; rfl
  · have h := record_sol_exact (fun i => X (GRBVar.e i)) F.num_edges
      (List.replicate (num_match_e F p opt_val).toNat 0) hle2
    rw [h, List.length_replicate]; rfl
  · intro s hs
    subst hs
    rw [exlude_exact F s _ _ hlf hle2]

/-! ## Cuts and recorded solutions -/

theorem presize_lengths (F : Fullerene) (hW : WellFormed F) (p v : Int) (X : GRBVar → Rat)
    (hk : check_if_sol_valid F p X = Except.ok v) :
    (List.replicate v.toNat 0).length = (resFaces F X).length ∧
    (List.replicate (num_match_e F p v).toNat 0).length = (matchEdges F X).length ∧
    ¬ (v < 0 ∨ num_match_e F p v < 0) := by
  obtain ⟨hc, hp, hkv⟩ := (check_ok_iff F p X v).mp hk
  have hm := num_match_e_eq F hW p X hc hp
  rw [← hkv] at hm
  refine ⟨?_, ?_, by omega⟩
  · rw [List.length_replicate, hkv]; simp
  · rw [List.length_replicate, hm]; simp

theorem cut_of_exlude (F : Fullerene) (s : State) (rf me : List Nat) (c : GRBConstr)
    (hf : rf.length = (resFaces F s.model.X).length)
    (he : me.length = (matchEdges F s.model.X).length)
    (h : exlude_previous_sol F s rf me
      = (Outcome.ok (), { model := s.model.reset.addConstr c,
                          trace := s.trace ++ [Event.cut c] })) :
    c = noGoodCut F s.model.X := by
  rw [exlude_exact F s rf me hf he] at h
  have h3 := congrArg (fun x => x.2.trace) h
  simp only [List.append_cancel_left_eq, List.cons.injEq, Event.cut.injEq, and_true] at h3
  exact h3.symm

theorem solve_loop_cuts (O : Oracle) (F : Fullerene) (p v : Int) (hv : 1 ≤ v)
    (rf me : List Nat) (fuel : Nat) :
    ∀ (s : State) (r : Outcome Unit × State),
      solve_loop O F p v rf me fuel s = some r →
      ∃ new, r.2.trace = s.trace ++ new ∧
        (r.1 ≠ Outcome.undefined → (cutsOf new).length = saveCount new) ∧
        ((∀ X, check_if_sol_valid F p X = Except.ok v →
            rf.length = (resFaces F X).length ∧ me.length = (matchEdges F X).length) →
          r.1 ≠ Outcome.undefined ∧ ∀ last pend, CutsReadSaved O F p v last pend new) := by
  induction fuel with
  | zero => intro s r h; simp [solve_loop] at h
  | succ fuel ih =>
    intro s r h
    simp only [solve_loop] at h
    have htr : (optimize O s).trace = s.trace ++ [Event.optimize s.model] := rfl
    have hst : (optimize O s).model.status = (O s.model).1 := rfl
    have hX : (optimize O s).model.X = (O s.model).2 := rfl
    rcases assess_rec_solve_cases F p (optimize O s) v with
      ⟨h1, e, -, ha⟩ | ⟨h1, hk, ha⟩ | ⟨h1, k, hk, -, ha⟩ | ⟨h1, ha⟩ | ⟨h1, h2, ha⟩
    · rw [ha] at h
      simp only [Option.some.injEq] at h
      rw [← h]
      refine ⟨[Event.optimize s.model, Event.check_if_sol_valid], ?_, ?_, ?_⟩
      · simp [State.log, htr]
      · intro _; rfl
      · intro _
        exact ⟨fun hh => (by cases hh), fun last pend => by simp [CutsReadSaved]⟩
    · rw [ha] at h
      simp only [if_true] at h
      rcases exlude_cases F
          { model := (optimize O s).model,
            trace := (optimize O s).trace ++
              [Event.check_if_sol_valid, Event.save_sol p v (optimize O s).model.X] }
          rf me with he | ⟨c, he⟩
      · rw [he] at h
        simp only [Option.some.injEq] at h
        rw [← h]
        refine ⟨[Event.optimize s.model, Event.check_if_sol_valid,
          Event.save_sol p v (optimize O s).model.X], ?_, ?_, ?_⟩
        · simp [htr]
        · intro hne; exact absurd rfl hne
        · intro hrf
          obtain ⟨hf, hm⟩ := hrf _ hk
          have hex := exlude_exact F
            { model := (optimize O s).model,
              trace := (optimize O s).trace ++
                [Event.check_if_sol_valid, Event.save_sol p v (optimize O s).model.X] }
            rf me hf hm
          rw [he] at hex
          have h4 := congrArg (fun x => x.1) hex
          cases h4
      · rw [he] at h
        simp only at h
        obtain ⟨new, hn, hcount, hcrs⟩ := ih _ r h
        refine ⟨[Event.optimize s.model, Event.check_if_sol_valid,
          Event.save_sol p v (optimize O s).model.X, Event.cut c] ++ new, ?_, ?_, ?_⟩
        · rw [hn]; simp [htr]
        · intro hne
          simp [cutsOf, saveCount, hcount hne]
        · intro hrf
          obtain ⟨hne, hall⟩ := hcrs hrf
          refine ⟨hne, fun last pend => ?_⟩
          obtain ⟨hf, hm⟩ := hrf _ hk
          have hc := cut_of_exlude F
            { model := (optimize O s).model,
              trace := (optimize O s).trace ++
                [Event.check_if_sol_valid, Event.save_sol p v (optimize O s).model.X] }
            rf me c hf hm he
          simp only [List.cons_append, List.nil_append, CutsReadSaved]
          exact ⟨⟨s.model, (O s.model).2, rfl, rfl, hst ▸ h1, rfl, hc, hk⟩, hall _ _⟩
    · rw [ha] at h
      simp only [hk, if_false, Option.some.injEq] at h
      rw [← h]
      refine ⟨[Event.optimize s.model, Event.check_if_sol_valid], ?_, ?_, ?_⟩
      · simp [htr]
      · intro _; rfl
      · intro _
        exact ⟨fun hh => (by cases hh), fun last pend => by simp [CutsReadSaved]⟩
    · rw [ha] at h
      have h0 : ¬ (0 : Int) = v := by omega
      simp only [h0, if_false, Option.some.injEq] at h
      rw [← h]
      refine ⟨[Event.optimize s.model], htr, ?_, ?_⟩
      · intro _; rfl
      · intro _
        exact ⟨fun hh => (by cases hh), fun last pend => by simp [CutsReadSaved]⟩
    · rw [ha] at h
      simp only [Option.some.injEq] at h
      rw [← h]
      refine ⟨[Event.optimize s.model], htr, ?_, ?_⟩
      · intro _; rfl
      · intro _
        exact ⟨fun hh => (by cases hh), fun last pend => by simp [CutsReadSaved]⟩

theorem solve_all_structs_cuts (O : Oracle) (F : Fullerene) (p v : Int) (hv : 1 ≤ v)
    (fuel : Nat) (s : State) (r : Outcome Int × State)
    (h : solve_all_structs O F p s v fuel = some r) :
    ∃ new, r.2.trace = s.trace ++ Event.solve_all_structs :: new ∧
      ((∃ w, r.1 = Outcome.ok w) → (cutsOf new).length = saveCount new + 1) ∧
      (WellFormed F → check_if_sol_valid F p s.model.X = Except.ok v →
        (cutsOf new).length = saveCount new + 1 ∧
        ∀ m, (O m).1 = GRB_OPTIMAL → (O m).2 = s.model.X →
          CutsReadSaved O F p v (some m) (some (p, v, s.model.X)) new) := by
  unfold solve_all_structs at h
  by_cases hg : v < 0 ∨ num_match_e F p v < 0
  · simp only [hg, if_true, Option.some.injEq] at h
    rw [← h]
    refine ⟨[], rfl, ?_, ?_⟩
    · rintro ⟨w, hw⟩; cases hw
    · intro hW hk
      exact absurd hg (presize_lengths F hW p v _ hk).2.2
  · simp only [hg, if_false] at h
    rcases exlude_cases F (s.log Event.solve_all_structs) (List.replicate v.toNat 0)
        (List.replicate (num_match_e F p v).toNat 0) with he | ⟨c, he⟩
    · rw [he] at h
      simp only [Option.some.injEq] at h
      rw [← h]
      refine ⟨[], rfl, ?_, ?_⟩
      · rintro ⟨w, hw⟩; cases hw
      · intro hW hk
        obtain ⟨hf, hm, -⟩ := presize_lengths F hW p v _ hk
        have hex := exlude_exact F (s.log Event.solve_all_structs) _ _ hf hm
        rw [he] at hex
        have h4 := congrArg (fun x => x.1) hex
        cases h4
    · rw [he] at h
      simp only at h
      cases hl : solve_loop O F p v (List.replicate v.toNat 0)
          (List.replicate (num_match_e F p v).toNat 0) fuel
          (add_Clar_num_cons F v
            { model := (s.log Event.solve_all_structs).model.reset.addConstr c,
              trace := (s.log Event.solve_all_structs).trace ++ [Event.cut c] }) with
      | none => rw [hl] at h; cases h
      | some r2 =>
        obtain ⟨new, hn, hcount, hcrs⟩ := solve_loop_cuts O F p v hv _ _ fuel _ r2 hl
        rw [hl] at h
        obtain ⟨o, s3⟩ := r2
        have htr : s3.trace = s.trace ++ Event.solve_all_structs ::
            ([Event.cut c, Event.add_Clar_num_cons (clarConstr F v)] ++ new) := by
          simp only at hn
          rw [hn, add_Clar_eq]
          simp [State.log, clarConstr]
        have hcnt : o ≠ Outcome.undefined →
            (cutsOf ([Event.cut c, Event.add_Clar_num_cons (clarConstr F v)] ++ new)).length
              = saveCount ([Event.cut c, Event.add_Clar_num_cons (clarConstr F v)] ++ new) + 1 := by
          intro hne
          simp [cutsOf, saveCount, hcount hne]
        have hwf : WellFormed F → check_if_sol_valid F p s.model.X = Except.ok v →
            (cutsOf ([Event.cut c, Event.add_Clar_num_cons (clarConstr F v)] ++ new)).length
              = saveCount ([Event.cut c, Event.add_Clar_num_cons (clarConstr F v)] ++ new) + 1 ∧
            ∀ m, (O m).1 = GRB_OPTIMAL → (O m).2 = s.model.X →
              CutsReadSaved O F p v (some m) (some (p, v, s.model.X))
                ([Event.cut c, Event.add_Clar_num_cons (clarConstr F v)] ++ new) := by
          intro hW hk
          have hrf : ∀ X, check_if_sol_valid F p X = Except.ok v →
              (List.replicate v.toNat 0).length = (resFaces F X).length ∧
              (List.replicate (num_match_e F p v).toNat 0).length = (matchEdges F X).length :=
            fun X hX => ⟨(presize_lengths F hW p v X hX).1, (presize_lengths F hW p v X hX).2.1⟩
          obtain ⟨hne, hall⟩ := hcrs hrf
          refine ⟨hcnt hne, fun m hm1 hm2 => ?_⟩
          obtain ⟨hf, hm, -⟩ := presize_lengths F hW p v _ hk
          have hc := cut_of_exlude F (s.log Event.solve_all_structs) _ _ c hf hm he
          simp only [List.cons_append, List.nil_append, CutsReadSaved]
          exact ⟨⟨m, s.model.X, rfl, rfl, hm1, hm2, hc, hk⟩, hall _ _⟩
        cases o with
        | ok u =>
          simp only [Option.some.injEq] at h
          rw [← h]
          exact ⟨_, htr, fun _ => hcnt (fun hh => by cases hh), hwf⟩
        | thrown e =>
          simp only [Option.some.injEq] at h
          rw [← h]
          refine ⟨_, htr, ?_, hwf⟩
          rintro ⟨w, hw⟩; cases hw
        | undefined =>
          simp only [Option.some.injEq] at h
          rw [← h]
          refine ⟨_, htr, ?_, hwf⟩
          rintro ⟨w, hw⟩; cases hw

theorem run_cuts (O : Oracle) (F : Fullerene) (p : Int) (fuel : Nat) (out : Outcome Int)
    (s : State) (hrun : p_anionic_clar_lp O F p fuel = some (out, s)) :
    (∀ v, out = Outcome.ok v → 1 ≤ v → (cutsOf s.trace).length = saveCount s.trace) ∧
    (WellFormed F → Event.solve_all_structs ∈ s.trace →
      ∃ k, check_if_sol_valid F p (O (initial_model F p)).2 = Except.ok k ∧ 1 ≤ k ∧
        (cutsOf s.trace).length = saveCount s.trace ∧
        CutsReadSaved O F p k none none s.trace) := by
  rcases run_first_cases O F p fuel with
    ⟨h1, e, he, hr⟩ | ⟨h1, k, hk, hlt, hr⟩ | ⟨h1, k, hk, hge, hr⟩ | ⟨h1, hr⟩ | ⟨h1, h2, hr⟩
  · rw [hr] at hrun
    simp only [Option.some.injEq, Prod.mk.injEq] at hrun
    rw [← hrun.1, ← hrun.2]
    exact ⟨fun v hv => (by cases hv), fun _ hmem => by simp at hmem⟩
  · rw [hr] at hrun
    simp only [Option.some.injEq, Prod.mk.injEq] at hrun
    rw [← hrun.1, ← hrun.2]
    refine ⟨fun v hv h1v => ?_, fun _ hmem => by simp at hmem⟩
    injection hv with hv
    omega
  · rw [hr] at hrun
    cases hs : solve_all_structs O F p
        { model := (firstState F p O).model,
          trace := [Event.optimize (initial_model F p), Event.check_if_sol_valid,
            Event.save_sol p k (O (initial_model F p)).2] } k fuel with
    | none => rw [hs] at hrun; cases hrun
    | some r =>
      obtain ⟨new, htr, hok, hwf⟩ := solve_all_structs_cuts O F p k hge fuel _ r hs
      rw [hs] at hrun
      obtain ⟨o, s2⟩ := r
      simp only at htr hok hwf
      have hcnt : (cutsOf new).length = saveCount new + 1 →
          (cutsOf s2.trace).length = saveCount s2.trace := by
        intro hc
        rw [htr]
        simp [cutsOf, saveCount, hc]
      have hfull : WellFormed F →
          ∃ k, check_if_sol_valid F p (O (initial_model F p)).2 = Except.ok k ∧ 1 ≤ k ∧
            (cutsOf s2.trace).length = saveCount s2.trace ∧
            CutsReadSaved O F p k none none s2.trace := by
        intro hW
        obtain ⟨hc, hall⟩ := hwf hW hk
        refine ⟨k, hk, hge, hcnt hc, ?_⟩
        rw [htr]
        simp only [List.cons_append, List.nil_append, CutsReadSaved]
        exact hall _ h1 rfl
      cases o with
      | ok u =>
        simp only [Option.some.injEq, Prod.mk.injEq] at hrun
        rw [← hrun.1, ← hrun.2]
        exact ⟨fun v _ _ => hcnt (hok ⟨u, rfl⟩), fun hW _ => hfull hW⟩
      | thrown e =>
        simp only [Option.some.injEq, Prod.mk.injEq] at hrun
        rw [← hrun.1, ← hrun.2]
        exact ⟨fun v hv => (by cases hv), fun hW _ => hfull hW⟩
      | undefined =>
        simp only [Option.some.injEq, Prod.mk.injEq] at hrun
        rw [← hrun.1, ← hrun.2]
        exact ⟨fun v hv => (by cases hv), fun hW _ => hfull hW⟩
  · rw [hr] at hrun
    simp only [Option.some.injEq, Prod.mk.injEq] at hrun
    rw [← hrun.1, ← hrun.2]
    refine ⟨fun v hv h1v => ?_, fun _ hmem => by simp at hmem⟩
    injection hv with hv
    omega
  · rw [hr] at hrun
    simp only [Option.some.injEq, Prod.mk.injEq] at hrun
    rw [← hrun.1, ← hrun.2]
    exact ⟨fun v hv => (by cases hv), fun _ hmem => by simp at hmem⟩

/-- Claim C19: for `opt_val >= 1`, `assess_rec_solve` returns a value equal to `opt_val`
if and only if the status is OPTIMAL, the solution passes `check_if_sol_valid` and is
passed to `save_sol` (and then the validated count is `opt_val`); on INFEASIBLE it returns
0, which differs from `opt_val`, and the loop of `solve_all_structs` exits in that
iteration.  In a run that returns a count of at least 1 the number of cuts equals the
number of `save_sol` calls; on a well-formed graph this holds for every run that enters
`solve_all_structs`, and every cut is the no-good cut of values that the latest solve
reported with status OPTIMAL, that `check_if_sol_valid` accepted and that `save_sol`
recorded just before. -/
theorem rec_solve_saved (O : Oracle) (F : Fullerene) (p : Int) :
    (∀ (s : State) (opt_val : Int), 1 ≤ opt_val →
      ((assess_rec_solve F p s opt_val).1 = Outcome.ok opt_val ↔
        s.model.status = GRB_OPTIMAL ∧
        ∃ k, check_if_sol_valid F p s.model.X = Except.ok k ∧
          (assess_rec_solve F p s opt_val).2.trace
            = s.trace ++ [Event.check_if_sol_valid, Event.save_sol p k s.model.X]) ∧
      ((assess_rec_solve F p s opt_val).1 = Outcome.ok opt_val →
        check_if_sol_valid F p s.model.X = Except.ok opt_val) ∧
      (s.model.status = GRB_INFEASIBLE →
        assess_rec_solve F p s opt_val = (Outcome.ok 0, s) ∧ (0 : Int) ≠ opt_val)) ∧
    (∀ (s : State) (opt_val : Int) (res_f match_e : List Nat) (fuel : Nat), 1 ≤ opt_val →
      (O s.model).1 = GRB_INFEASIBLE →
      solve_loop O F p opt_val res_f match_e (fuel + 1) s
        = some (Outcome.ok (), optimize O s)) ∧
    (∀ (fuel : Nat) (v : Int) (s : State),
      p_anionic_clar_lp O F p fuel = some (Outcome.ok v, s) → 1 ≤ v →
      (cutsOf s.trace).length = saveCount s.trace) ∧
    (WellFormed F → ∀ (fuel : Nat) (out : Outcome Int) (s : State),
      p_anionic_clar_lp O F p fuel = some (out, s) → Event.solve_all_structs ∈ s.trace →
      ∃ k, check_if_sol_valid F p (O (initial_model F p)).2 = Except.ok k ∧ 1 ≤ k ∧
        (cutsOf s.trace).length = saveCount s.trace ∧
        CutsReadSaved O F p k none none s.trace) := by
  refine ⟨?_, ?_, ?_, ?_⟩
  · intro s opt_val hv
    have hopt : GRB_OPTIMAL ≠ GRB_INFEASIBLE := by decide
    rcases assess_rec_solve_cases F p s opt_val with
      ⟨h1, e, he, ha⟩ | ⟨h1, hk, ha⟩ | ⟨h1, k, hk, hc, ha⟩ | ⟨h1, ha⟩ | ⟨h1, h2, ha⟩
    · rw [ha]
      refine ⟨⟨fun h => (by cases h), ?_⟩, fun h => (by cases h), fun h => ?_⟩
      · rintro ⟨-, k, hk, -⟩
        rw [he] at hk; cases hk
      · rw [h1] at h; exact absurd h hopt
    · rw [ha]
      refine ⟨⟨fun _ => ⟨h1, opt_val, hk, rfl⟩, fun _ => rfl⟩, fun _ => hk, fun h => ?_⟩
      rw [h1] at h; exact absurd h hopt
    · rw [ha]
      refine ⟨⟨fun h => ?_, ?_⟩, fun h => ?_, fun h => ?_⟩
      · injection h with h; exact absurd h hk
      · rintro ⟨-, k2, -, htr⟩
        simp at htr
      · injection h with h; exact absurd h hk
      · rw [h1] at h; exact absurd h hopt
    · rw [ha]
      refine ⟨⟨fun h => ?_, ?_⟩, fun h => ?_, fun _ => ⟨rfl, by omega⟩⟩
      · injection h with h; omega
      · rintro ⟨h3, -⟩
        rw [h1] at h3; exact absurd h3.symm hopt
      · injection h with h; omega
    · rw [ha]
      refine ⟨⟨fun h => (by cases h), ?_⟩, fun h => (by cases h), fun h => absurd h h2⟩
      rintro ⟨h3, -⟩
      exact absurd h3 h1
  · intro s opt_val res_f match_e fuel hv hinf
    have hst : (optimize O s).model.status = GRB_INFEASIBLE := hinf
    have h0 : ¬ (0 : Int) = opt_val := by omega
    rcases assess_rec_solve_cases F p (optimize O s) opt_val with
      ⟨h1, -⟩ | ⟨h1, -⟩ | ⟨h1, -⟩ | ⟨-, ha⟩ | ⟨-, h2, -⟩
    · rw [hst] at h1; exact absurd h1.symm (by decide)
    · rw [hst] at h1; exact absurd h1.symm (by decide)
    · rw [hst] at h1; exact absurd h1.symm (by decide)
    · simp only [solve_loop, ha, h0, if_false]
    · exact absurd hst h2
  · intro fuel v s hrun hv
    exact (run_cuts O F p fuel _ s hrun).1 v rfl hv
  · intro hW fuel out s hrun hmem
    exact (run_cuts O F p fuel out s hrun).2 hW hmem

/-! ## Instances for the behaviour of the controller -/

theorem torusK33_run_any (O : Oracle) (hO : OracleContract O) :
    ∃ s, p_anionic_clar_lp O torusK33 0 4097 = some (Outcome.ok 1, s) := by
  have hopt : (1 : Int) = ((resFaces torusK33 (O (initial_model torusK33 0)).2).length : Int) := by
    rw [optima_agree O bruteForce torusK33 0 hO bruteForce_contract torusK33_feasible]
    exact torusK33_opt.symm
  obtain ⟨hr1, hr2⟩ := run_enum O torusK33 0 hO torusK33_wellFormed
    torusK33_feasible 1 hopt (le_refl 1) 4097
  have hN := optimalStructs_length_le torusK33 0 1
  have : 2 ^ torusK33.dual_n * 2 ^ torusK33.num_edges = 4096 := by decide
  obtain ⟨r, hr⟩ := hr2 (by omega)
  obtain ⟨ho, -⟩ := hr1 r hr
  obtain ⟨o, s⟩ := r
  simp only at ho
  subst ho
  exact ⟨s, hr⟩

theorem torusK33_shape : FullereneShape torusK33 := by
  refine ⟨by decide, by decide, by decide⟩

theorem torusK33_zero_cover : covered torusK33 zeroX 0 = 0 := by
  rw [covered_eq_count]
  simp only [zeroX, gt_iff_lt, List.length_eq_zero, List.filter_eq_nil_iff, decide_eq_true_eq]
  intro a _
  norm_num

/-- Witness for claim C11 on the torus graph with the reference oracle. -/
theorem enumeration_entry_witness :
    ∃ s, p_anionic_clar_lp bruteForce torusK33 0 4097 = some (Outcome.ok 1, s) ∧
      (Event.solve_all_structs ∈ s.trace ↔
        ((bruteForce (initial_model torusK33 0)).1 = GRB_OPTIMAL ∧
          ∃ k, check_if_sol_valid torusK33 0 (bruteForce (initial_model torusK33 0)).2
            = Except.ok k ∧ 1 ≤ k)) ∧
      check_if_sol_valid torusK33 0 (bruteForce (initial_model torusK33 0)).2 = Except.ok 1 := by
  obtain ⟨s, hs⟩ := torusK33_run
  have h := enumeration_entry bruteForce torusK33 0 4097
  have hiff := h.1 _ s hs
  refine ⟨s, hs, hiff, h.2.2.2 1 s hs (hiff.mpr ?_)⟩
  obtain ⟨hst, -, -, -, -, hc, -⟩ :=
    first_facts bruteForce torusK33 0 bruteForce_contract torusK33_feasible
  rw [torusK33_opt] at hc
  exact ⟨hst, 1, hc, le_refl 1⟩

/-- Witness for claim C12: on the torus graph no face is a pentagon, so `p = 1` is
INFEASIBLE with the reference oracle. -/
theorem zero_signal_distinct_witness :
    (bruteForce (initial_model torusK33 1)).1 = GRB_INFEASIBLE ∧
    (∀ fuel, p_anionic_clar_lp bruteForce torusK33 1 fuel
      = some (Outcome.ok 0,
          { model := (firstState torusK33 1 bruteForce).model,
            trace := [Event.optimize (initial_model torusK33 1),
              Event.save_sol 1 0 (bruteForce (initial_model torusK33 1)).2] })) ∧
    (∀ X k, check_if_sol_valid torusK33 1 X ≠ Except.ok k) ∧
    (torusK33 ≠ torusK33 ∨ (0 : Int) ≠ 1) :=
  have h := zero_signal_distinct bruteForce bruteForce_contract torusK33 1 torusK33_infeasible
  ⟨torusK33_infeasible, h.1, h.2.1, h.2.2.1 torusK33 0 (indicator [0] []) 1 torusK33_check⟩

/-- Witness for claim C13: a solve that ends with status `GRB_TIME_LIMIT`. -/
theorem status_error_fatal_witness :
    (optimize timeLimitOracle { model := new_model, trace := [] }).model.status = GRB_TIME_LIMIT ∧
    assess_solve torusK33 0 (optimize timeLimitOracle { model := new_model, trace := [] })
      = (Outcome.thrown (throw_error torusK33.n 0 torusK33.id
          ("\nStatus of solve: "
            ++ toString (optimize timeLimitOracle { model := new_model, trace := [] }).model.status
            ++ "\nCheck Gurobi Optimization Status Codes")),
        optimize timeLimitOracle { model := new_model, trace := [] }) ∧
    assess_rec_solve torusK33 0 (optimize timeLimitOracle { model := new_model, trace := [] }) 1
      = (Outcome.thrown (throw_error torusK33.n 0 torusK33.id
          ("\nStatus of solve: "
            ++ toString (optimize timeLimitOracle { model := new_model, trace := [] }).model.status
            ++ "\nCheck Gurobi Optimization Status Codes")),
        optimize timeLimitOracle { model := new_model, trace := [] }) :=
  have h := status_error_fatal timeLimitOracle torusK33 0
    (optimize timeLimitOracle { model := new_model, trace := [] }) 1
    (by decide) (by decide)
  ⟨rfl, h.1, h.2.1⟩

/-- Witness for claim C14 (amended) on the torus graph: the reference oracle and the
oracle that prefers the structure with resonant face 1. -/
theorem runs_agree_witness :
    ∃ s1 s2,
      p_anionic_clar_lp bruteForce torusK33 0 4097 = some (Outcome.ok 1, s1) ∧
      p_anionic_clar_lp (preferring (indicator [1] [])) torusK33 0 4097
        = some (Outcome.ok 1, s2) ∧
      ∀ S, S ∈ savedPairs torusK33 s1.trace ↔ S ∈ savedPairs torusK33 s2.trace := by
  obtain ⟨s1, hs1⟩ := torusK33_run
  obtain ⟨s2, hs2⟩ := torusK33_run_any (preferring (indicator [1] []))
    (preferring_contract _ (binary_indicator _ _))
  exact ⟨s1, s2, hs1, hs2,
    (runs_agree bruteForce (preferring (indicator [1] [])) torusK33 0 4097 4097 _ _ s1 s2
      bruteForce_contract (preferring_contract _ (binary_indicator _ _)) torusK33_wellFormed
      hs1 hs2).2.2 1 rfl (le_refl 1)⟩

/-- Witness for claim C15 on the torus graph: under the all-zero assignment vertex 0 is
covered 0 times. -/
theorem validator_errors_witness :
    ([GRBVar.e ((torusK33.primal 0).edges 0), GRBVar.f ((torusK33.primal 0).faces 0),
            GRBVar.e ((torusK33.primal 0).edges 1), GRBVar.f ((torusK33.primal 0).faces 1),
            GRBVar.e ((torusK33.primal 0).edges 2), GRBVar.f ((torusK33.primal 0).faces 2)].filter
          (fun y => decide (zeroX y > 99 / 100))).length = 0 ∧
    check_if_sol_valid torusK33 0 zeroX = Except.error (throw_error torusK33.n 0 torusK33.id
      ("\nVertex " ++ toString 0 ++ " is covered " ++ toString
          (([GRBVar.e ((torusK33.primal 0).edges 0), GRBVar.f ((torusK33.primal 0).faces 0),
            GRBVar.e ((torusK33.primal 0).edges 1), GRBVar.f ((torusK33.primal 0).faces 1),
            GRBVar.e ((torusK33.primal 0).edges 2), GRBVar.f ((torusK33.primal 0).faces 2)].filter
          (fun y => decide (zeroX y > 99 / 100))).length)
        ++ " times.")) :=
  ⟨by rw [← covered_eq_six]; exact torusK33_zero_cover,
    (validator_errors torusK33 0 zeroX).2.1 0 (by decide)
      (by rw [← covered_eq_six, torusK33_zero_cover]; decide)
      (fun u hu => absurd hu (Nat.not_lt_zero u))⟩

/-- Witness for claim C16 on the torus graph. -/
theorem count_is_objective_witness :
    (1 : Int) = (((List.range torusK33.dual_n).filter
      (fun i => decide (indicator [0] [] (GRBVar.f i) > 99 / 100))).length : Int) ∧
    (add_vars torusK33 new_model).objective (indicator [0] []) = ((1 : Int) : Rat) ∧
    (initial_model torusK33 0).objective (indicator [0] []) = ((1 : Int) : Rat) :=
  have h := count_is_objective torusK33 0 (indicator [0] []) 1 torusK33_check
  ⟨h.1, (h.2.2 (binary_indicator _ _)).1, (h.2.2 (binary_indicator _ _)).2⟩

/-- Witness for claim C18 on the torus graph. -/
theorem presizing_exact_witness :
    (torusK33.n : Int) - 5 * 0 - 6 * (1 - 0)
      = 2 * ((matchEdges torusK33 (indicator [0] [])).length : Int) ∧
    num_match_e torusK33 0 1 = ((matchEdges torusK33 (indicator [0] [])).length : Int) ∧
    (1 : Int) = ((resFaces torusK33 (indicator [0] [])).length : Int) ∧
    record_sol (fun i => indicator [0] [] (GRBVar.f i)) torusK33.dual_n
        (List.replicate (1 : Int).toNat 0)
      = some (resFaces torusK33 (indicator [0] []), (1 : Int).toNat) :=
  have h := presizing_exact torusK33 torusK33_wellFormed.1 torusK33_shape 0
    (indicator [0] []) 1 torusK33_check
  ⟨h.1, h.2.1, h.2.2.1, h.2.2.2.2.2.2.1⟩

theorem entered_of_pos (O : Oracle) (F : Fullerene) (p : Int) (fuel : Nat) (v : Int)
    (s : State) (hrun : p_anionic_clar_lp O F p fuel = some (Outcome.ok v, s)) (hv : 1 ≤ v) :
    Event.solve_all_structs ∈ s.trace := by
  rcases run_first_cases O F p fuel with
    ⟨-, e, -, hr⟩ | ⟨-, k, -, -, hr⟩ | ⟨-, k, -, -, hr⟩ | ⟨-, hr⟩ | ⟨-, -, hr⟩
  · rw [hr] at hrun
    simp only [Option.some.injEq, Prod.mk.injEq] at hrun
    exact absurd hrun.1 (fun h => by cases h)
  · rw [hr] at hrun
    simp only [Option.some.injEq, Prod.mk.injEq] at hrun
    have h0 := hrun.1
    injection h0 with h0
    omega
  · obtain ⟨⟨new, hnew⟩, -⟩ := run_entered O F p fuel k _ hr _ s hrun
    rw [hnew]
    simp
  · rw [hr] at hrun
    simp only [Option.some.injEq, Prod.mk.injEq] at hrun
    have h0 := hrun.1
    injection h0 with h0
    omega
  · rw [hr] at hrun
    simp only [Option.some.injEq, Prod.mk.injEq] at hrun
    exact absurd hrun.1 (fun h => by cases h)

/-- Witness for claim C19 on the torus graph with the reference oracle. -/
theorem rec_solve_saved_witness :
    ∃ s, p_anionic_clar_lp bruteForce torusK33 0 4097 = some (Outcome.ok 1, s) ∧
      (cutsOf s.trace).length = saveCount s.trace ∧
      (∃ k, check_if_sol_valid torusK33 0 (bruteForce (initial_model torusK33 0)).2
          = Except.ok k ∧ 1 ≤ k ∧
        (cutsOf s.trace).length = saveCount s.trace ∧
        CutsReadSaved bruteForce torusK33 0 k none none s.trace) ∧
      (assess_rec_solve torusK33 0 (solvedState (indicator [0] [])) 1).1 = Outcome.ok 1 := by
  obtain ⟨s, hs⟩ := torusK33_run
  have h := rec_solve_saved bruteForce torusK33 0
  refine ⟨s, hs, h.2.2.1 4097 1 s hs (le_refl 1),
    h.2.2.2 torusK33_wellFormed 4097 _ s hs
      (entered_of_pos bruteForce torusK33 0 4097 1 s hs (le_refl 1)), ?_⟩
  exact ((h.1 (solvedState (indicator [0] [])) 1 (le_refl 1)).1).mpr
    ⟨rfl, 1, torusK33_check, by
      unfold assess_rec_solve
      simp [solvedState, torusK33_check, State.log]⟩

/-! ## Values near the tolerance: thirty-five copies of the torus graph -/

end ClarLP
